import Mathlib

/-!
# FlashMQ: the per-connection I/O engine (`Client`) over the circular buffer

A shallow embedding of `client.cpp` (class `Client`) and of the `CirBuf` it
drives.  Stateful C++ becomes explicit state passing; everything the code asks
of its surroundings (the I/O wrapper, `epoll_ctl`, `time(NULL)`, the try-lock)
is an explicit argument of the embedded function.  C++ exceptions and failed
assertions are values of `Outcome`.
-/

namespace FlashMQ

/-! ## Exceptions and outcomes -/

/-- Error kinds of the specification (§7).  `client.cpp` itself only ever raises
`ProtocolError` (by `throw ProtocolError(...)`) and `std::runtime_error`
(by `check<std::runtime_error>(...)`). -/
inductive ErrorKind where
  | MalformedPacket
  | ProtocolError
  | RuntimeFailure
deriving DecidableEq, Repr

/-- A thrown C++ exception: its class and its message. -/
structure Exn where
  kind : ErrorKind
  msg : String
deriving DecidableEq, Repr

/-- The C++ expression `ProtocolError(msg)`. -/
def ProtocolError (msg : String) : Exn := ⟨ErrorKind.ProtocolError, msg⟩

/-- The exception raised by `check<std::runtime_error>(rc)` on a negative `rc`. -/
def runtime_error (msg : String) : Exn := ⟨ErrorKind.RuntimeFailure, msg⟩

/-- How a call ends: it returns a value, it throws (the object keeps the state it
had at the `throw`), a C `assert` fails, or the model ran out of loop fuel /
scripted I/O events. -/
inductive Outcome (σ α : Type) where
  | returned (val : α) (s : σ)
  | threw (e : Exn) (s : σ)
  | aborted
  | outOfFuel
deriving DecidableEq, Repr

/-- The state a call leaves behind, when there is one. -/
def Outcome.state? {σ α : Type} : Outcome σ α → Option σ
  | .returned _ s => some s
  | .threw _ s => some s
  | .aborted => none
  | .outOfFuel => none

/-- The call threw an exception of the given kind. -/
def Outcome.threwKind {σ α : Type} (k : ErrorKind) : Outcome σ α → Bool
  | .threw e _ => decide (e.kind = k)
  | _ => false

/-! ## Machine integers -/

/-- Wrap to `size_t` (64 bit). -/
def sizeT (x : Nat) : Nat := x % 2 ^ 64

/-- Wrap to `uint32_t`. -/
def toUInt32 (x : Int) : Nat := (x % 2 ^ 32).toNat

/-- Convert to a 32-bit signed `int` (two's complement wrap). -/
def toInt32 (x : Int) : Int := (x + 2 ^ 31) % 2 ^ 32 - 2 ^ 31

/-! ## CirBuf -/

/-- Modelled from the spec: `cirbuf.h` and `cirbuf.cpp` are not among the
available sources; only the test suite `tst_maintests.cpp` and the callers in
`client.cpp` are.  Spec §3: a byte array of capacity `S` with `head` and `tail`
indices in `[0, S)`. -/
structure CirBuf where
  buf : List Nat
  head : Nat
  tail : Nat
  size : Nat
deriving DecidableEq, Repr

namespace CirBuf

/-- Modelled from the spec: the constructor `CirBuf(size)`; the tests read `0`
from untouched cells and see `head == tail == 0`. -/
def create (size : Nat) : CirBuf := ⟨List.replicate size 0, 0, 0, size⟩

/-- Modelled from the spec: `tail == head` means empty and
`head == tail + usedBytes (mod S)`. -/
def usedBytes (b : CirBuf) : Nat := (b.head + b.size - b.tail) % b.size

/-- Modelled from the spec: `freeSpace = S - 1 - usedBytes`. -/
def freeSpace (b : CirBuf) : Nat := b.size - 1 - b.usedBytes

/-- Modelled from the spec: the contiguous slice that can be written at `headPtr()`
before the wrap; the values are those asserted in `test_circbuf`
(`64 - 40 - 1` with tail 0, `64 - 40` with tail 40, `39` with head 0, tail 40). -/
def maxWriteSize (b : CirBuf) : Nat :=
  if b.head < b.tail then b.tail - b.head - 1
  else if b.tail = 0 then b.size - b.head - 1
  else b.size - b.head

/-- Modelled from the spec: the contiguous slice readable at `tailPtr()` before the wrap. -/
def maxReadSize (b : CirBuf) : Nat :=
  if b.tail ≤ b.head then b.head - b.tail else b.size - b.tail

/-- Modelled from the spec: `getSize()`, the capacity `S` of the array. -/
def getSize (b : CirBuf) : Nat := b.size

/-- Modelled from the spec: `peakAhead(offset)`, the byte `offset` places after the tail,
wrapping. -/
def peakAhead (b : CirBuf) (offset : Nat) : Nat :=
  b.buf.getD ((b.tail + offset) % b.size) 0

/-- Modelled from the spec: `advanceHead(n)`; advancing past `freeSpace` is a
programming fault (assert), here `none`. -/
def advanceHead (b : CirBuf) (n : Nat) : Option CirBuf :=
  if n ≤ b.freeSpace then some { b with head := (b.head + n) % b.size } else none

/-- Modelled from the spec: `advanceTail(n)`; advancing past `usedBytes` is a
programming fault (assert), here `none`. -/
def advanceTail (b : CirBuf) (n : Nat) : Option CirBuf :=
  if n ≤ b.usedBytes then some { b with tail := (b.tail + n) % b.size } else none

/-- Modelled from the spec: storing `data` through the pointer `headPtr()`, i.e.
`headPtr()[i] = data[i]`, without moving `head`. -/
def pokeAtHead (b : CirBuf) (data : List Nat) : CirBuf :=
  let stored := (List.range data.length).foldl
    (fun a i => a.set (b.head + i) (data.getD i 0)) b.buf
  { b with buf := stored }

/-- Modelled from the spec: one byte stored at `head`, and `head` moved on by one
(with wrap). -/
def putByte (b : CirBuf) (v : Nat) : CirBuf :=
  { b with buf := b.buf.set b.head v, head := (b.head + 1) % b.size }

/-- Modelled from the spec: `write(bytes)` appends the bytes at `head`, wrapping;
writing more than `freeSpace` is a programming fault (assert), here `none`. -/
def write (b : CirBuf) (bytes : List Nat) : Option CirBuf :=
  if bytes.length ≤ b.freeSpace then some (bytes.foldl putByte b) else none

/-- The logical content: the `usedBytes` bytes from `tail` to `head`, with wrap. -/
def contents (b : CirBuf) : List Nat :=
  (List.range b.usedBytes).map b.peakAhead

/-- Modelled from the spec: taking `n` bytes out at the tail (what the `MqttPacket`
constructor does with `packet_length` bytes). -/
def read (b : CirBuf) (n : Nat) : Option (List Nat × CirBuf) :=
  match b.advanceTail n with
  | some b1 => some ((List.range n).map b.peakAhead, b1)
  | none => none

/-- Modelled from the spec: the doubling algorithm of §4.1.  The new array has
`2S` cells filled with `5`; the contiguous run `old[tail .. tail + maxReadSize)` keeps
its place; when the content wrapped (`head < tail`), `old[0 .. head)` goes to
`new[S .. S + head)`; `head` becomes `tail + usedBytes`, `tail` is unchanged. -/
def doubleSize (b : CirBuf) : CirBuf :=
  let fresh := (List.range (2 * b.size)).map (fun i =>
    if b.tail ≤ i ∧ i < b.tail + b.maxReadSize then b.buf.getD i 0
    else if b.head < b.tail ∧ b.size ≤ i ∧ i < b.size + b.head then b.buf.getD (i - b.size) 0
    else 5)
  { buf := fresh
    head := (b.tail + b.usedBytes) % (2 * b.size)
    tail := b.tail
    size := 2 * b.size }

/-- Modelled from the spec: the doubling loop of `ensureFreeSpace`; the first
argument bounds the number of rounds. -/
def ensureFreeSpaceLoop : Nat → CirBuf → Nat → Nat → CirBuf
  | 0, b, _, _ => b
  | fuel + 1, b, n, maxGrow =>
    if n ≤ b.freeSpace then b
    else if maxGrow < 2 * b.size then b
    else ensureFreeSpaceLoop fuel b.doubleSize n maxGrow

/-- Modelled from the spec: `ensureFreeSpace(n, maxGrow)` doubles until
`freeSpace ≥ n` or the next doubling would exceed `maxGrow`.  A buffer of size at
least 1 doubles at most `maxGrow` times, which is the fuel given. -/
def ensureFreeSpace (b : CirBuf) (n maxGrow : Nat) : CirBuf :=
  ensureFreeSpaceLoop maxGrow b n maxGrow

/-- Modelled from the spec: `resetSizeIfEligable(target)` shrinks back to `target`
only when the buffer is empty. -/
def resetSizeIfEligable (b : CirBuf) (target : Nat) : CirBuf :=
  if b.usedBytes = 0 ∧ target < b.size then create target else b

/-- Modelled from the spec: the representation invariant of §3, a non-empty array
of `size` cells with `head` and `tail` in `[0, size)`. -/
def WF (b : CirBuf) : Prop :=
  0 < b.size ∧ b.buf.length = b.size ∧ b.head < b.size ∧ b.tail < b.size

instance (b : CirBuf) : Decidable b.WF := by
  unfold WF; exact inferInstance

end CirBuf

/-! ## MqttPacket -/

/-- The enum `PacketType` of `types.h`. -/
inductive PacketType where
  | Reserved | CONNECT | CONNACK | PUBLISH | PUBACK | PUBREC | PUBREL | PUBCOMP
  | SUBSCRIBE | SUBACK | UNSUBSCRIBE | UNSUBACK | PINGREQ | PINGRESP | DISCONNECT
  | Reserved2
deriving DecidableEq, Repr

/-- The cast `(PacketType)n` for the sixteen values of the enum. -/
def PacketType.fromValue (n : Nat) : PacketType :=
  match n % 16 with
  | 0 => .Reserved | 1 => .CONNECT | 2 => .CONNACK | 3 => .PUBLISH | 4 => .PUBACK
  | 5 => .PUBREC | 6 => .PUBREL | 7 => .PUBCOMP | 8 => .SUBSCRIBE | 9 => .SUBACK
  | 10 => .UNSUBSCRIBE | 11 => .UNSUBACK | 12 => .PINGREQ | 13 => .PINGRESP
  | 14 => .DISCONNECT | _ => .Reserved2

/-- Modelled from the spec: `mqttpacket.h` is not among the available sources.
Spec §3: a packet has `packetType`, `qos`, `firstByte`, `remainingLength`
(variable-length-encoded) and its bytes (`bites`); `fixed_header_length` is `0`
when the serialized form does not hold the fixed header. -/
structure MqttPacket where
  bites : List Nat
  fixed_header_length : Nat
  first_byte : Nat
  packetType : PacketType
  qos : Nat
  remainingLength : List Nat
deriving DecidableEq, Repr

namespace MqttPacket

/-- Modelled from the spec: whether the serialized form already holds the fixed header. -/
def containsFixedHeader (p : MqttPacket) : Bool := decide (0 < p.fixed_header_length)

/-- Modelled from the spec: the size of the packet on the wire, the fixed header
(first byte and remaining-length bytes) counted also when `bites` does not hold it. -/
def getSizeIncludingNonPresentHeader (p : MqttPacket) : Nat :=
  if p.containsFixedHeader then p.bites.length
  else p.bites.length + 1 + p.remainingLength.length

/-- The bytes `writeMqttPacket` hands to the write buffer, in order. -/
def wireBytes (p : MqttPacket) : List Nat :=
  if p.containsFixedHeader then p.bites
  else p.first_byte :: (p.remainingLength ++ p.bites)

/-- Modelled from the spec: the constructor
`MqttPacket(readbuf, packet_length, fixed_header_length, sender)`: the packet is made
by consuming exactly `packet_length` bytes from the buffer; type and QoS are the
MQTT fields of the first byte. -/
def fromBuffer (readbuf : CirBuf) (packet_length fixed_header_length : Nat) :
    Option (MqttPacket × CirBuf) :=
  match readbuf.read packet_length with
  | none => none
  | some (bytes, rb) =>
    some ({ bites := bytes
            fixed_header_length := fixed_header_length
            first_byte := bytes.getD 0 0
            packetType := PacketType.fromValue (bytes.getD 0 0 / 16)
            qos := bytes.getD 0 0 / 2 % 4
            remainingLength := [] }, rb)

end MqttPacket

/-! ## Client -/

/-- The enum `ProtocolVersion` of `types.h`. -/
inductive ProtocolVersion where
  | None | Mqtt31 | Mqtt311 | Mqtt5
deriving DecidableEq, Repr

/-- The result codes of the I/O wrapper that `client.cpp` tests for. -/
inductive IoWrapResult where
  | Success | Interrupted | Wouldblock | Disconnected
deriving DecidableEq, Repr

/-- The data members of `Client` that `client.cpp` reads or writes.  `epollInterest`
is the interest set `(EPOLLIN, EPOLLOUT)` last registered for the descriptor with
`epoll_ctl(EPOLL_CTL_MOD)`.  `keepalive` is a `uint16_t`, the times are `time_t`. -/
structure Client where
  initialBufferSize : Nat
  maxPacketSize : Nat
  readbuf : CirBuf
  writebuf : CirBuf
  authenticated : Bool
  connectPacketSeen : Bool
  readyForWriting : Bool
  readyForReading : Bool
  disconnectWhenBytesWritten : Bool
  disconnecting : Bool
  protocolVersion : ProtocolVersion
  clientid : String
  username : String
  keepalive : Nat
  cleanSession : Bool
  will_topic : String
  will_payload : String
  will_retain : Bool
  will_qos : Nat
  disconnectReason : String
  session : Option Nat
  lastActivity : Int
  epollInterest : Bool × Bool
deriving DecidableEq, Repr

/-- `MQTT_HEADER_LENGH` of `client.h`. -/
def MQTT_HEADER_LENGH : Nat := 2

/-- `Client::markAsDisconnecting`. -/
def markAsDisconnecting (c : Client) : Client :=
  if c.disconnecting then c else { c with disconnecting := true }

/-- `Client::setReadyForReading`.  `epollCtl` is what `epoll_ctl` answers if it is
called: `none` for success, `some msg` for a failure that
`check<std::runtime_error>` turns into an exception. -/
def setReadyForReading (c : Client) (val : Bool) (epollCtl : Option String) :
    Outcome Client Unit :=
  if c.disconnecting then .returned () c
  else if val == c.readyForReading then .returned () c
  else
    let c1 := { c with readyForReading := val }
    match epollCtl with
    | none => .returned () { c1 with epollInterest := (c1.readyForReading, c1.readyForWriting) }
    | some msg => .threw (runtime_error msg) c1

/-- `Client::setReadyForWriting`.  `sslReadWantsWrite` is the answer of
`ioWrapper.getSslReadWantsWrite()`. -/
def setReadyForWriting (c : Client) (val : Bool) (sslReadWantsWrite : Bool)
    (epollCtl : Option String) : Outcome Client Unit :=
  if c.disconnecting then .returned () c
  else
    let val := if sslReadWantsWrite then true else val
    if val == c.readyForWriting then .returned () c
    else
      let c1 := { c with readyForWriting := val }
      match epollCtl with
      | none => .returned () { c1 with epollInterest := (c1.readyForReading, c1.readyForWriting) }
      | some msg => .threw (runtime_error msg) c1

/-! ### bufferToMqttPackets -/

/-- How the inner `do ... while` of `bufferToMqttPackets` ends. -/
inductive HeaderStep where
  | thrown (e : Exn)
  | needMore
  | decoded (packet_length fixed_header_length : Nat)
  | outOfFuel
deriving DecidableEq, Repr

/-- The `do ... while ((encodedByte & 128) != 0)` loop of `bufferToMqttPackets`
(lines 316-333).  `packet_length` and `multiplier` are `size_t`. -/
def decodeLoop : Nat → CirBuf → Nat → Nat → Nat → Nat → HeaderStep
  | 0, _, _, _, _, _ => .outOfFuel
  | fuel + 1, readbuf, remaining_length_i, fixed_header_length, multiplier, packet_length =>
    let fixed_header_length := fixed_header_length + 1
    if fixed_header_length > 5 then
      .thrown (ProtocolError "Packet signifies more than 5 bytes in variable length header. Invalid.")
    else if fixed_header_length > readbuf.usedBytes then
      .needMore
    else
      let encodedByte := readbuf.peakAhead remaining_length_i % 256
      let packet_length := sizeT (packet_length + sizeT ((encodedByte &&& 127) * multiplier))
      let multiplier := sizeT (multiplier * 128)
      if multiplier > 128 * 128 * 128 * 128 then
        .thrown (ProtocolError "Malformed Remaining Length.")
      else if (encodedByte &&& 128) ≠ 0 then
        decodeLoop fuel readbuf (remaining_length_i + 1) fixed_header_length multiplier packet_length
      else
        .decoded packet_length fixed_header_length

/-- The decoding of one fixed header as `bufferToMqttPackets` starts it
(`remaining_length_i = 1`, `fixed_header_length = 1`, `multiplier = 1`,
`packet_length = 0`).  The loop body throws at the latest in its fifth round, so five
rounds of fuel always suffice. -/
def decodeHeader (readbuf : CirBuf) : HeaderStep :=
  decodeLoop 5 readbuf 1 1 1 0

/-- Line 334, `packet_length += fixed_header_length` (`size_t` arithmetic). -/
def totalPacketLength (packet_length fixed_header_length : Nat) : Nat :=
  sizeT (packet_length + fixed_header_length)

/-- How the `while` loop of `bufferToMqttPackets` is left: by the `return false`
inside it, or by its condition or the `break`. -/
inductive LoopExit where
  | returnFalse
  | loopEnd
deriving DecidableEq, Repr

/-- The `while (readbuf.usedBytes() >= MQTT_HEADER_LENGH)` loop of
`bufferToMqttPackets` (lines 308-353), on the read buffer and the output list. -/
def framingLoop : Nat → Bool → Nat → CirBuf → List MqttPacket →
    Outcome (CirBuf × List MqttPacket) LoopExit
  | 0, _, _, readbuf, packetQueueIn =>
    if readbuf.usedBytes ≥ MQTT_HEADER_LENGH then .outOfFuel
    else .returned .loopEnd (readbuf, packetQueueIn)
  | fuel + 1, authenticated, ABSOLUTE_MAX_PACKET_SIZE, readbuf, packetQueueIn =>
    if readbuf.usedBytes ≥ MQTT_HEADER_LENGH then
      match decodeHeader readbuf with
      | .thrown e => .threw e (readbuf, packetQueueIn)
      | .needMore => .returned .returnFalse (readbuf, packetQueueIn)
      | .outOfFuel => .outOfFuel
      | .decoded packet_length fixed_header_length =>
        let packet_length := totalPacketLength packet_length fixed_header_length
        if !authenticated && decide (packet_length ≥ 1024 * 1024) then
          .threw (ProtocolError "An unauthenticated client sends a packet of 1 MB or bigger? Probably it's just random bytes.")
            (readbuf, packetQueueIn)
        else if packet_length > ABSOLUTE_MAX_PACKET_SIZE then
          .threw (ProtocolError "A client sends a packet claiming to be bigger than the maximum MQTT allows.")
            (readbuf, packetQueueIn)
        else if packet_length ≤ readbuf.usedBytes then
          match MqttPacket.fromBuffer readbuf packet_length fixed_header_length with
          | none => .aborted
          | some (packet, rb) =>
            framingLoop fuel authenticated ABSOLUTE_MAX_PACKET_SIZE rb (packetQueueIn ++ [packet])
        else
          .returned .loopEnd (readbuf, packetQueueIn)
    else
      .returned .loopEnd (readbuf, packetQueueIn)

/-- `Client::bufferToMqttPackets`.  `ABSOLUTE_MAX_PACKET_SIZE` is a compile-time
constant whose definition is not among the available sources, so it is an
argument.  Every round of the loop that goes on consumes at least two bytes, so
`usedBytes` rounds of fuel suffice.  The state of the outcome is the client
together with `packetQueueIn`. -/
def bufferToMqttPackets (c : Client) (ABSOLUTE_MAX_PACKET_SIZE : Nat)
    (packetQueueIn : List MqttPacket) (epollCtl : Option String) :
    Outcome (Client × List MqttPacket) Bool :=
  match framingLoop c.readbuf.usedBytes c.authenticated ABSOLUTE_MAX_PACKET_SIZE
      c.readbuf packetQueueIn with
  | .threw e (rb, q) => .threw e ({ c with readbuf := rb }, q)
  | .aborted => .aborted
  | .outOfFuel => .outOfFuel
  | .returned .returnFalse (rb, q) => .returned false ({ c with readbuf := rb }, q)
  | .returned .loopEnd (rb, q) =>
    let c1 := { c with readbuf := rb }
    match setReadyForReading c1 (decide (c1.readbuf.freeSpace > 0)) epollCtl with
    | .returned _ c2 => .returned true (c2, q)
    | .threw e c2 => .threw e (c2, q)
    | .aborted => .aborted
    | .outOfFuel => .outOfFuel

/-! ### readFdIntoBuffer -/

/-- One call of `ioWrapper.readWebsocketAndOrSsl(fd, readbuf.headPtr(),
readbuf.maxWriteSize(), &error)`: the value `n` it returns, the bytes it stored at
`headPtr()` (at most the `maxWriteSize()` it was offered are taken), and the value
of `error` after the call. -/
structure ReadEvent where
  n : Int
  data : List Nat
  error : IoWrapResult
deriving DecidableEq, Repr

/-- The `while` loop of `Client::readFdIntoBuffer` (lines 88-113); the list holds
what the successive calls of the I/O wrapper answer.  The value returned is the
variable `error` after the loop. -/
def readLoop : List ReadEvent → Client → IoWrapResult → Option String →
    Outcome Client IoWrapResult
  | [], c, error, _ =>
    if c.readbuf.freeSpace > 0 then .outOfFuel else .returned error c
  | ev :: rest, c, error, epollCtl =>
    if c.readbuf.freeSpace > 0 then
      let stored := c.readbuf.pokeAtHead (ev.data.take c.readbuf.maxWriteSize)
      let n := ev.n
      let error := ev.error
      if n ≠ 0 then
        match (if n > 0 then stored.advanceHead n.toNat else some stored) with
        | none => .aborted
        | some rb =>
          let c1 := { c with readbuf := rb }
          if error = IoWrapResult.Interrupted then readLoop rest c1 error epollCtl
          else if error = IoWrapResult.Wouldblock then .returned error c1
          else if c1.readbuf.freeSpace = 0 then
            if c1.readbuf.getSize * 2 < c1.maxPacketSize then
              readLoop rest { c1 with readbuf := c1.readbuf.doubleSize } error epollCtl
            else
              match setReadyForReading c1 false epollCtl with
              | .returned _ c2 => .returned error c2
              | .threw e c2 => .threw e c2
              | .aborted => .aborted
              | .outOfFuel => .outOfFuel
          else readLoop rest c1 error epollCtl
      else .returned error { c with readbuf := stored }
    else .returned error c

/-- `Client::readFdIntoBuffer`.  `now` is the value of `time(NULL)`.  (The call
`session->touch(lastActivity)` acts on the session object only.) -/
def readFdIntoBuffer (c : Client) (script : List ReadEvent) (epollCtl : Option String)
    (now : Int) : Outcome Client Bool :=
  if c.disconnecting then .returned false c
  else
    match readLoop script c IoWrapResult.Success epollCtl with
    | .returned error c1 =>
      if error = IoWrapResult.Disconnected then .returned false c1
      else .returned true { c1 with lastActivity := now }
    | .threw e c1 => .threw e c1
    | .aborted => .aborted
    | .outOfFuel => .outOfFuel

/-! ### Writing -/

/-- The cap `growBufMaxTo` of `Client::writeMqttPacket` (line 147):
`std::min<int>(size * 1000, maxPacketSize)` stored in a `uint32_t`.  The product is
`size_t` arithmetic, both arguments are converted to `int`, the minimum of the two
`int`s is converted to `uint32_t`. -/
def growBufMaxTo (size maxPacketSize : Nat) : Nat :=
  toUInt32 (min (toInt32 (sizeT (size * 1000))) (toInt32 maxPacketSize))

/-- The write buffer of `Client::writeMqttPacket` after line 150,
`writebuf.ensureFreeSpace(packet.getSizeIncludingNonPresentHeader(), growBufMaxTo)`. -/
def writebufEnsured (c : Client) (packet : MqttPacket) : CirBuf :=
  c.writebuf.ensureFreeSpace packet.getSizeIncludingNonPresentHeader
    (growBufMaxTo packet.getSizeIncludingNonPresentHeader c.maxPacketSize)

/-- The condition of line 154 of `Client::writeMqttPacket`, on which the packet is
dropped. -/
def dropsPacket (c : Client) (packet : MqttPacket) : Bool :=
  decide (packet.packetType = PacketType.PUBLISH) && decide (packet.qos = 0)
    && decide (packet.getSizeIncludingNonPresentHeader > (writebufEnsured c packet).freeSpace)

/-- The two writes of `Client::writeMqttPacket` (lines 159-167): the fixed header
when the packet does not hold it, then the bytes of the packet. -/
def writeMqttPacketBytes (wb : CirBuf) (packet : MqttPacket) : Option CirBuf :=
  let afterHeader :=
    if !packet.containsFixedHeader then
      match (wb.pokeAtHead [packet.first_byte]).advanceHead 1 with
      | none => none
      | some wb1 => wb1.write packet.remainingLength
    else some wb
  match afterHeader with
  | none => none
  | some wb2 => wb2.write packet.bites

/-- `Client::writeMqttPacket`. -/
def writeMqttPacket (c : Client) (packet : MqttPacket) (sslReadWantsWrite : Bool)
    (epollCtl : Option String) : Outcome Client Unit :=
  let c1 := { c with writebuf := writebufEnsured c packet }
  if dropsPacket c packet then .returned () c1
  else
    match writeMqttPacketBytes (writebufEnsured c packet) packet with
    | none => .aborted
    | some wb3 =>
      let c2 := { c1 with writebuf := wb3 }
      let c3 := if packet.packetType = PacketType.DISCONNECT
        then { c2 with disconnectWhenBytesWritten := true } else c2
      setReadyForWriting c3 true sslReadWantsWrite epollCtl

/-- `Client::writeMqttPacketAndBlameThisClient`: the exception is caught (the client
is then removed from its thread, which is outside this model). -/
def writeMqttPacketAndBlameThisClient (c : Client) (packet : MqttPacket)
    (sslReadWantsWrite : Bool) (epollCtl : Option String) : Outcome Client Unit :=
  match writeMqttPacket c packet sslReadWantsWrite epollCtl with
  | .threw _ c1 => .returned () c1
  | r => r

/-- `Client::writePingResp`.  `defaultMax` is the default second argument of
`ensureFreeSpace`, declared in the missing `cirbuf.h`. -/
def writePingResp (c : Client) (defaultMax : Nat) (sslReadWantsWrite : Bool)
    (epollCtl : Option String) : Outcome Client Unit :=
  let wb := c.writebuf.ensureFreeSpace 2 defaultMax
  match (wb.pokeAtHead [0b11010000]).advanceHead 1 with
  | none => .aborted
  | some wb1 =>
    match (wb1.pokeAtHead [0]).advanceHead 1 with
    | none => .aborted
    | some wb2 => setReadyForWriting { c with writebuf := wb2 } true sslReadWantsWrite epollCtl

/-- `Client::writeText`.  The two `assert`s on the I/O wrapper are the argument
`websocketNotUpgraded`. -/
def writeText (c : Client) (text : List Nat) (websocketNotUpgraded : Bool) (defaultMax : Nat)
    (sslReadWantsWrite : Bool) (epollCtl : Option String) : Outcome Client Unit :=
  if !websocketNotUpgraded then .aborted
  else
    match (c.writebuf.ensureFreeSpace text.length defaultMax).write text with
    | none => .aborted
    | some wb => setReadyForWriting { c with writebuf := wb } true sslReadWantsWrite epollCtl

/-- One call of `ioWrapper.writeWebsocketAndOrSsl(fd, writebuf.tailPtr(),
writebuf.maxReadSize(), &error)`: the value returned, `error` after the call, and
what `ioWrapper.hasPendingWrite()` answers afterwards. -/
structure WriteEvent where
  n : Int
  error : IoWrapResult
  hasPendingWrite : Bool
deriving DecidableEq, Repr

/-- The `while` loop of `Client::writeBufIntoFd` (lines 215-226), on the write
buffer.  The value returned is the variable `error` after the loop. -/
def writeLoop : List WriteEvent → CirBuf → IoWrapResult → Bool →
    Outcome CirBuf IoWrapResult
  | [], wb, error, pending =>
    if wb.usedBytes > 0 || pending then .outOfFuel else .returned error wb
  | ev :: rest, wb, error, pending =>
    if wb.usedBytes > 0 || pending then
      match (if ev.n > 0 then wb.advanceTail ev.n.toNat else some wb) with
      | none => .aborted
      | some wb1 =>
        if ev.error = IoWrapResult.Interrupted then writeLoop rest wb1 ev.error ev.hasPendingWrite
        else if ev.error = IoWrapResult.Wouldblock then .returned ev.error wb1
        else writeLoop rest wb1 ev.error ev.hasPendingWrite
    else .returned error wb

/-- `Client::writeBufIntoFd`.  `ownsLock` is the result of the `try_to_lock` on
`writeBufMutex`; `hasPendingWrite` is the first answer of
`ioWrapper.hasPendingWrite()`. -/
def writeBufIntoFd (c : Client) (ownsLock : Bool) (hasPendingWrite : Bool)
    (script : List WriteEvent) (sslReadWantsWrite : Bool) (epollCtl : Option String) :
    Outcome Client Bool :=
  if !ownsLock then .returned true c
  else if c.disconnecting then .returned false c
  else
    match writeLoop script c.writebuf IoWrapResult.Success hasPendingWrite with
    | .aborted => .aborted
    | .outOfFuel => .outOfFuel
    | .threw e wb => .threw e { c with writebuf := wb }
    | .returned error wb =>
      let c1 := { c with writebuf := wb }
      let bufferHasData := decide (c1.writebuf.usedBytes > 0)
      match setReadyForWriting c1 (bufferHasData || decide (error = IoWrapResult.Wouldblock))
          sslReadWantsWrite epollCtl with
      | .returned _ c2 => .returned true c2
      | .threw e c2 => .threw e c2
      | .aborted => .aborted
      | .outOfFuel => .outOfFuel

/-! ### The small members -/

/-- `Client::keepAliveExpired`.  `now` is the value of `time(NULL)`.  `keepalive` is
promoted to `int`, so `keepalive*10/5` is 32-bit signed arithmetic; the sum and the
comparison are `time_t` arithmetic, taken here on the integers. -/
def keepAliveExpired (c : Client) (now : Int) : Bool :=
  if !c.authenticated then decide (c.lastActivity + 20 < now)
  else
    let result := decide (c.lastActivity + Int.tdiv (toInt32 ((c.keepalive : Int) * 10)) 5 < now)
    result

/-- `Client::resetBuffersIfEligible`. -/
def resetBuffersIfEligible (c : Client) : Client :=
  { c with readbuf := c.readbuf.resetSizeIfEligable c.initialBufferSize
           writebuf := c.writebuf.resetSizeIfEligable c.initialBufferSize }

/-- `Client::setClientProperties`; the parameter `keepalive` is a `uint16_t`. -/
def setClientProperties (c : Client) (protocolVersion : ProtocolVersion) (clientId : String)
    (username : String) (connectPacketSeen : Bool) (keepalive : Nat) (cleanSession : Bool) :
    Client :=
  { c with protocolVersion := protocolVersion, clientid := clientId, username := username
           connectPacketSeen := connectPacketSeen, keepalive := keepalive % 65536
           cleanSession := cleanSession }

/-- `Client::setWill`. -/
def setWill (c : Client) (topic payload : String) (retain : Bool) (qos : Nat) : Client :=
  { c with will_topic := topic, will_payload := payload, will_retain := retain, will_qos := qos }

/-- `Client::clearWill`. -/
def clearWill (c : Client) : Client :=
  { c with will_topic := "", will_payload := "", will_retain := false, will_qos := 0 }

/-- `Client::assignSession`. -/
def assignSession (c : Client) (session : Option Nat) : Client :=
  { c with session := session }

/-- `Client::setDisconnectReason`. -/
def setDisconnectReason (c : Client) (reason : String) : Client :=
  if c.disconnectReason ≠ "" then { c with disconnectReason := c.disconnectReason ++ ", " ++ reason }
  else { c with disconnectReason := c.disconnectReason ++ reason }

/-- `Client::setAuthenticated` (`client.h`). -/
def setAuthenticated (c : Client) (value : Bool) : Client := { c with authenticated := value }

/-- `Client::setReadyForDisconnect` (`client.h`). -/
def setReadyForDisconnect (c : Client) : Client := { c with disconnectWhenBytesWritten := true }

/-- The constructor `Client(fd, threadData, ssl, websocket, settings)` with the member
initializers of `client.h`; `now` is the time of construction and the descriptor is
registered for reading. -/
def Client.create (initialBufferSize maxPacketSize : Nat) (now : Int) : Client :=
  { initialBufferSize := initialBufferSize, maxPacketSize := maxPacketSize
    readbuf := CirBuf.create initialBufferSize, writebuf := CirBuf.create initialBufferSize
    authenticated := false, connectPacketSeen := false, readyForWriting := false
    readyForReading := true, disconnectWhenBytesWritten := false, disconnecting := false
    protocolVersion := ProtocolVersion.None, clientid := "", username := "", keepalive := 0
    cleanSession := false, will_topic := "", will_payload := "", will_retain := false
    will_qos := 0, disconnectReason := "", session := none, lastActivity := now
    epollInterest := (true, false) }

/-! ### Sequences of operations -/

/-- A call of one of the members of `Client` that change its state, with the
arguments of the call and the answers of its surroundings. -/
inductive Op where
  | markAsDisconnecting
  | readFdIntoBuffer (script : List ReadEvent) (epollCtl : Option String) (now : Int)
  | writeText (text : List Nat) (websocketNotUpgraded : Bool) (defaultMax : Nat)
      (sslReadWantsWrite : Bool) (epollCtl : Option String)
  | writeMqttPacket (packet : MqttPacket) (sslReadWantsWrite : Bool)
      (epollCtl : Option String)
  | writeMqttPacketAndBlameThisClient (packet : MqttPacket) (sslReadWantsWrite : Bool)
      (epollCtl : Option String)
  | writePingResp (defaultMax : Nat) (sslReadWantsWrite : Bool) (epollCtl : Option String)
  | writeBufIntoFd (ownsLock : Bool) (hasPendingWrite : Bool) (script : List WriteEvent)
      (sslReadWantsWrite : Bool) (epollCtl : Option String)
  | resetBuffersIfEligible
  | setReadyForWriting (val : Bool) (sslReadWantsWrite : Bool) (epollCtl : Option String)
  | setReadyForReading (val : Bool) (epollCtl : Option String)
  | bufferToMqttPackets (ABSOLUTE_MAX_PACKET_SIZE : Nat) (packetQueueIn : List MqttPacket)
      (epollCtl : Option String)
  | setClientProperties (protocolVersion : ProtocolVersion) (clientId : String)
      (username : String) (connectPacketSeen : Bool) (keepalive : Nat) (cleanSession : Bool)
  | setWill (topic payload : String) (retain : Bool) (qos : Nat)
  | clearWill
  | assignSession (session : Option Nat)
  | setDisconnectReason (reason : String)
  | setAuthenticated (value : Bool)
  | setReadyForDisconnect

/-- The client after one call, whether the call returned or threw; `none` when an
`assert` failed (the process is gone) or the scripted answers ran out. -/
def applyOp (c : Client) : Op → Option Client
  | .markAsDisconnecting => some (markAsDisconnecting c)
  | .readFdIntoBuffer script epollCtl now => (readFdIntoBuffer c script epollCtl now).state?
  | .writeText text ws defaultMax ssl epollCtl =>
    (writeText c text ws defaultMax ssl epollCtl).state?
  | .writeMqttPacket packet ssl epollCtl => (writeMqttPacket c packet ssl epollCtl).state?
  | .writeMqttPacketAndBlameThisClient packet ssl epollCtl =>
    (writeMqttPacketAndBlameThisClient c packet ssl epollCtl).state?
  | .writePingResp defaultMax ssl epollCtl => (writePingResp c defaultMax ssl epollCtl).state?
  | .writeBufIntoFd ownsLock pending script ssl epollCtl =>
    (writeBufIntoFd c ownsLock pending script ssl epollCtl).state?
  | .resetBuffersIfEligible => some (resetBuffersIfEligible c)
  | .setReadyForWriting val ssl epollCtl => (setReadyForWriting c val ssl epollCtl).state?
  | .setReadyForReading val epollCtl => (setReadyForReading c val epollCtl).state?
  | .bufferToMqttPackets A q epollCtl =>
    (bufferToMqttPackets c A q epollCtl).state?.map Prod.fst
  | .setClientProperties pv cid user seen keepalive clean =>
    some (setClientProperties c pv cid user seen keepalive clean)
  | .setWill topic payload retain qos => some (setWill c topic payload retain qos)
  | .clearWill => some (clearWill c)
  | .assignSession session => some (assignSession c session)
  | .setDisconnectReason reason => some (setDisconnectReason c reason)
  | .setAuthenticated value => some (setAuthenticated c value)
  | .setReadyForDisconnect => some (setReadyForDisconnect c)

/-- The client after a sequence of calls. -/
def runOps : List Op → Client → Option Client
  | [], c => some c
  | op :: ops, c =>
    match applyOp c op with
    | none => none
    | some c1 => runOps ops c1

/-! ### Using the buffer as the test suite does -/

namespace CirBuf

/-- The idiom of `tst_maintests.cpp`: `head = buf.headPtr(); head[i] = data[i]` for
every `i`, then `buf.advanceHead(n)` with `n` the number of bytes stored. -/
def storeAtHead (b : CirBuf) (data : List Nat) : Option CirBuf :=
  (b.pokeAtHead data).advanceHead data.length

/-- The bytes `tailPtr()[0] .. tailPtr()[n-1]`, read through the pointer without
wrapping. -/
def readAtTail (b : CirBuf) (n : Nat) : List Nat :=
  (List.range n).map (fun i => b.buf.getD (b.tail + i) 0)

/-- A step of use of the buffer: `advanceHead(n)`, `write` of some bytes, or
`advanceTail(n)`. -/
inductive Step where
  | advanceHead (n : Nat)
  | write (bytes : List Nat)
  | advanceTail (n : Nat)
deriving DecidableEq, Repr

/-- The buffer after one step; `none` when the step advances past `freeSpace` or
`usedBytes` (the assertion fails). -/
def step (b : CirBuf) : Step → Option CirBuf
  | .advanceHead n => b.advanceHead n
  | .write bytes => b.write bytes
  | .advanceTail n => b.advanceTail n

/-- The states after each step of a sequence, up to the first failed assertion. -/
def trace : List Step → CirBuf → List CirBuf
  | [], _ => []
  | st :: rest, b =>
    match b.step st with
    | none => []
    | some b1 => b1 :: trace rest b1

/-- Filling the buffer as `test_circbuf` does: while `maxWriteSize()` is not 0, store
`maxWriteSize()` bytes at `headPtr()` and call `advanceHead(maxWriteSize())`.  The list
holds the bytes of each round. -/
def fillUntilFull : List (List Nat) → CirBuf → Outcome CirBuf Unit
  | [], b => if b.maxWriteSize = 0 then .returned () b else .outOfFuel
  | data :: rest, b =>
    if b.maxWriteSize = 0 then .returned () b
    else
      match (b.pokeAtHead (data.take b.maxWriteSize)).advanceHead b.maxWriteSize with
      | none => .aborted
      | some b1 => fillUntilFull rest b1

end CirBuf

/-! ## Descriptions used in the statements -/

/-- The value of a remaining-length field of `k` bytes: base 128, little-endian,
the low seven bits of each byte. -/
def remainingLengthValue (rb : CirBuf) (k : Nat) : Nat :=
  ∑ i in Finset.range k, (rb.peakAhead (i + 1) % 256 &&& 127) * 128 ^ i

/-- The total length that a well-formed remaining-length field of `k` bytes
announces: the `k + 1` bytes of the fixed header and the base-128 little-endian
value of the field. -/
def announcedLength (rb : CirBuf) (k : Nat) : Nat :=
  (k + 1) + ∑ i in Finset.Icc 1 k, (rb.peakAhead i % 256 &&& 127) * 128 ^ (i - 1)

/-- A list of bytes that is one complete well-formed MQTT packet: a first byte, a
remaining-length field of `k` bytes (`1 ≤ k ≤ 4`, continuation bit on all but the
last) and as many further bytes as the field says. -/
def IsPacket (bytes : List Nat) : Prop :=
  ∃ k, 1 ≤ k ∧ k ≤ 4 ∧ k + 1 ≤ bytes.length
    ∧ (∀ i, 1 ≤ i → i < k → bytes.getD i 0 % 256 &&& 128 ≠ 0)
    ∧ bytes.getD k 0 % 256 &&& 128 = 0
    ∧ bytes.length
        = (k + 1) + ∑ i in Finset.Icc 1 k, (bytes.getD i 0 % 256 &&& 127) * 128 ^ (i - 1)

/-- A total packet length that breaks none of the two size limits of
`bufferToMqttPackets`. -/
def WithinLimits (authenticated : Bool) (ABSOLUTE_MAX_PACKET_SIZE : Nat) (L : Nat) : Prop :=
  ¬ ((authenticated = false ∧ 1048576 ≤ L) ∨ ABSOLUTE_MAX_PACKET_SIZE < L)

/-! ## Sample states -/

/-- A read buffer of 8 cells holding the five bytes `0x30 0x81 0x01 0x07 0x07`:
a PUBLISH header with the two-byte remaining length 129. -/
def sampleTwoByteLength : CirBuf := ⟨[48, 129, 1, 7, 7, 0, 0, 0], 5, 0, 8⟩

/-- A client, not authenticated, whose read buffer of 8 cells holds the five bytes
`0x30 0xFF 0xFF 0xFF 0xFF`: all four remaining-length bytes have the continuation bit. -/
def clientOverlongLength : Client :=
  { Client.create 8 1024 0 with readbuf := ⟨[48, 255, 255, 255, 255, 0, 0, 0], 5, 0, 8⟩ }

/-- An authenticated client whose keep-alive is the largest 16-bit value. -/
def clientMaxKeepalive : Client :=
  { Client.create 8 1024 1000 with authenticated := true, keepalive := 65535 }

/-- A client with a read buffer of 4 cells (3 bytes of free space) and
`maxPacketSize = 8`, so that the buffer size is exactly `maxPacketSize / 2`. -/
def clientHalfMaxBuffer : Client := Client.create 4 8 0

/-- A read of three bytes, which fills the buffer of `clientHalfMaxBuffer`. -/
def readThreeBytes : ReadEvent := ⟨3, [1, 2, 3], IoWrapResult.Success⟩

/-- A client with a read buffer of 4 cells and `maxPacketSize = 16`. -/
def clientQuarterMaxBuffer : Client := Client.create 4 16 0

/-- A client that is not disconnecting, with read-readiness cleared, whose read
buffer of 8 cells holds the two bytes `0x30 0x80`: a first byte and a
remaining-length byte that announces a further one. -/
def clientPartialHeader : Client :=
  { Client.create 8 1024 0 with
    readbuf := ⟨[48, 128, 0, 0, 0, 0, 0, 0], 2, 0, 8⟩
    readyForReading := false
    epollInterest := (false, false) }

/-- A disconnecting client with read-readiness cleared and an empty read buffer. -/
def clientDisconnectingIdle : Client :=
  { Client.create 8 1024 0 with
    disconnecting := true
    readyForReading := false
    epollInterest := (false, false) }

/-- A client with read-readiness cleared whose read buffer of 8 cells holds the
complete packet `0xC0 0x00` (PINGREQ). -/
def clientOnePingreq : Client :=
  { Client.create 8 1024 0 with
    readbuf := ⟨[192, 0, 0, 0, 0, 0, 0, 0], 2, 0, 8⟩
    readyForReading := false
    epollInterest := (false, false) }

/-- The client `clientOnePingreq` after `bufferToMqttPackets`. -/
def clientOnePingreqDrained : Client :=
  { Client.create 8 1024 0 with
    readbuf := ⟨[192, 0, 0, 0, 0, 0, 0, 0], 2, 2, 8⟩
    readyForReading := true
    epollInterest := (true, false) }

/-- The packet framed from the bytes `0xC0 0x00`. -/
def pingreqPacket : MqttPacket :=
  { bites := [192, 0], fixed_header_length := 2, first_byte := 192
    packetType := PacketType.PINGREQ, qos := 0, remainingLength := [] }

/-- A sequence of calls on a client that has been marked as disconnecting. -/
def sampleOpsAfterDisconnect : List Op :=
  [ Op.markAsDisconnecting,
    Op.setReadyForReading false none,
    Op.setReadyForWriting true false none,
    Op.setClientProperties ProtocolVersion.Mqtt311 "c1" "u" true 60 true,
    Op.writePingResp 4294967295 false none,
    Op.readFdIntoBuffer [⟨3, [1, 2, 3], IoWrapResult.Success⟩] none 50,
    Op.writeBufIntoFd true false [⟨2, IoWrapResult.Success, false⟩] false none ]

/-- The client `Client.create 8 1024 0` after `markAsDisconnecting` and
`sampleOpsAfterDisconnect`. -/
def clientAfterSampleOps : Client :=
  { Client.create 8 1024 0 with
    disconnecting := true
    protocolVersion := ProtocolVersion.Mqtt311
    clientid := "c1"
    username := "u"
    connectPacketSeen := true
    keepalive := 60
    cleanSession := true
    writebuf := ⟨[208, 0, 0, 0, 0, 0, 0, 0], 2, 0, 8⟩ }

/-- A client, not authenticated, whose read buffer of 8 cells holds the seven bytes
`0xC0 0x00 0x30 0xFF 0xFF 0xFF 0xFF`: a complete PINGREQ of total length 2 followed
by a header whose four remaining-length bytes all have the continuation bit. -/
def clientPingreqThenOverlong : Client :=
  { Client.create 8 1024 0 with readbuf := ⟨[192, 0, 48, 255, 255, 255, 255, 0], 7, 0, 8⟩ }

/-- An authenticated client whose read buffer of 8 cells holds the five bytes
`0x30 0x80 0x80 0x80 0x01`: the header of a PUBLISH of total length
`5 + 128^3 = 2097157` (2 MiB and 5 bytes), no payload byte yet. -/
def clientBigPacketHeader : Client :=
  { Client.create 8 268435456 0 with
    readbuf := ⟨[48, 128, 128, 128, 1, 0, 0, 0], 5, 0, 8⟩
    authenticated := true }

/-- A client whose read buffer of 16 cells holds, from `tail = 12` and wrapping to
`head = 5`, the nine bytes `C0 00 | 30 02 41 42 | 30 05 01`: a PINGREQ, a PUBLISH with
two further bytes, and the first three bytes of a PUBLISH of seven bytes. -/
def clientTwoPacketsAndAPart : Client :=
  { Client.create 16 1024 0 with
    readbuf := ⟨[65, 66, 48, 5, 1, 0, 0, 0, 0, 0, 0, 0, 192, 0, 48, 2], 5, 12, 16⟩ }

/-- A client with `maxPacketSize = 16` whose write buffer of 16 cells already
holds ten bytes (5 bytes of free space). -/
def clientBackloggedWriter : Client :=
  { Client.create 16 16 0 with
    writebuf := ⟨[9, 9, 9, 9, 9, 9, 9, 9, 9, 9, 0, 0, 0, 0, 0, 0], 10, 0, 16⟩
    readyForWriting := true
    epollInterest := (true, true) }

/-- A PUBLISH with QoS 1 of eight bytes, fixed header included
(`0x32 0x06`, topic `a`, packet id 1, payload `x`). -/
def publishQos1 : MqttPacket :=
  { bites := [50, 6, 0, 1, 97, 0, 1, 120], fixed_header_length := 2, first_byte := 50
    packetType := PacketType.PUBLISH, qos := 1, remainingLength := [] }

/-- A PUBLISH with QoS 0 of six bytes, the fixed header (`0x30 0x04`) not part of
`bites`. -/
def publishQos0 : MqttPacket :=
  { bites := [0, 1, 97, 120], fixed_header_length := 0, first_byte := 48
    packetType := PacketType.PUBLISH, qos := 0, remainingLength := [4] }

/-- A client whose write buffer of 8 cells holds four bytes from `tail = 3` to
`head = 7`, the last index of the array. -/
def clientHeadAtLastIndex : Client :=
  { Client.create 8 1024 0 with writebuf := ⟨[0, 0, 0, 11, 12, 13, 14, 0], 7, 3, 8⟩ }

/-- The buffer of `test_circbuf_unwrapped_doubling` before the doubling: `CirBuf(64)`
with the 63 bytes `1..63` stored from index 0 (`tail = 0`, `head = 63`). -/
def bufUnwrappedFull : CirBuf := ⟨(List.range 63).map (· + 1) ++ [0], 63, 0, 64⟩

/-- The buffer of `test_circbuf_wrapped_doubling` before the doubling: `tail = 40`,
`head = 10`; the cells `[40, 64)` hold 99, the cells `[0, 10)` hold 88 and the cells
`[10, 40)` still hold the bytes `11..40` that have been read. -/
def bufWrapped : CirBuf :=
  ⟨List.replicate 10 88 ++ (List.range 30).map (· + 11) ++ List.replicate 24 99, 10, 40, 64⟩

/-- The buffer of `test_circbuf_full_wrapped_buffer_doubling` before the doubling:
`tail = 10`, `head = 9`; the cells `[10, 64)` hold 1, the cells `[0, 9)` hold 2 and
cell 9 is the vacant one. -/
def bufFullWrapped : CirBuf :=
  ⟨List.replicate 9 2 ++ [0] ++ List.replicate 54 1, 9, 10, 64⟩

/-- The buffer at the start of `test_circbuf_full_wrapped_buffer_doubling`:
`CirBuf(64)` with `head` and `tail` set to 10. -/
def bufHeadTailTen : CirBuf := { CirBuf.create 64 with head := 10, tail := 10 }

/-- The buffer of `test_circbuf` after the 40 bytes `1..40` have been stored and
read: `head = tail = 40`. -/
def bufFortyRead : CirBuf :=
  ⟨(List.range 40).map (· + 1) ++ List.replicate 24 0, 40, 40, 64⟩

/-- The PUBLISH with QoS 1 of eight bytes again, built for sending: the fixed header
(`0x32 0x06`) is not part of `bites`. -/
def publishQos1Headerless : MqttPacket :=
  { bites := [0, 1, 97, 0, 1, 120], fixed_header_length := 0, first_byte := 50
    packetType := PacketType.PUBLISH, qos := 1, remainingLength := [6] }

/-! ## Theorems -/

/-! ### C1 -/

theorem land_127_le (x : Nat) : x &&& 127 ≤ 127 := Nat.and_le_right

theorem sizeT_of_lt {x : Nat} (h : x < 2 ^ 64) : sizeT x = x := Nat.mod_eq_of_lt h

/-- One round of the decoding loop on a byte that is present and below the
fifth position, with the multiplier still small. -/
theorem decodeLoop_step (fuel : Nat) (rb : CirBuf) (i fhl mult pl : Nat)
    (hfhl : fhl + 1 ≤ 5) (hused : fhl + 1 ≤ rb.usedBytes)
    (hmult : mult * 128 ≤ 128 * 128 * 128 * 128) (hpl : pl < 2 ^ 32) :
    decodeLoop (fuel + 1) rb i fhl mult pl =
      if (rb.peakAhead i % 256) &&& 128 ≠ 0 then
        decodeLoop fuel rb (i + 1) (fhl + 1) (mult * 128)
          (pl + ((rb.peakAhead i % 256) &&& 127) * mult)
      else .decoded (pl + ((rb.peakAhead i % 256) &&& 127) * mult) (fhl + 1) := by
  have h127 := land_127_le (rb.peakAhead i % 256)
  have hm : mult ≤ 128 * 128 * 128 := by omega
  have hprod : ((rb.peakAhead i % 256) &&& 127) * mult ≤ 127 * (128 * 128 * 128) :=
    Nat.mul_le_mul h127 hm
  have e1 : sizeT (((rb.peakAhead i % 256) &&& 127) * mult)
      = ((rb.peakAhead i % 256) &&& 127) * mult := sizeT_of_lt (by omega)
  have e2 : sizeT (pl + ((rb.peakAhead i % 256) &&& 127) * mult)
      = pl + ((rb.peakAhead i % 256) &&& 127) * mult := sizeT_of_lt (by omega)
  have e3 : sizeT (mult * 128) = mult * 128 := sizeT_of_lt (by omega)
  have c1 : ¬ (fhl + 1 > 5) := by omega
  have c2 : ¬ (fhl + 1 > rb.usedBytes) := by omega
  have c3 : ¬ (mult * 128 > 128 * 128 * 128 * 128) := by omega
  simp only [decodeLoop, e1, e2, e3, if_neg c1, if_neg c2, if_neg c3]

theorem remainingLengthValue_le (rb : CirBuf) (k : Nat) :
    remainingLengthValue rb k ≤ 128 ^ k - 1 := by
  induction k with
  | zero => simp [remainingLengthValue]
  | succ n ih =>
    unfold remainingLengthValue at ih ⊢
    rw [Finset.sum_range_succ]
    have h127 := land_127_le (rb.peakAhead (n + 1) % 256)
    have hpos : 0 < 128 ^ n := pow_pos (by norm_num) n
    have hm : (rb.peakAhead (n + 1) % 256 &&& 127) * 128 ^ n ≤ 127 * 128 ^ n :=
      Nat.mul_le_mul_right _ h127
    have hs : 128 ^ (n + 1) = 128 * 128 ^ n := by ring
    omega

/-- The decoding loop on a well-formed remaining-length field of `k ≤ 4` bytes, all of
them present: it ends after `k` rounds with the base-128 value. -/
theorem decodeHeader_wellformed (rb : CirBuf) (k : Nat) (hk1 : 1 ≤ k) (hk4 : k ≤ 4)
    (hused : k + 1 ≤ rb.usedBytes)
    (hcont : ∀ i, 1 ≤ i → i < k → rb.peakAhead i % 256 &&& 128 ≠ 0)
    (hlast : rb.peakAhead k % 256 &&& 128 = 0) :
    decodeHeader rb = .decoded (remainingLengthValue rb k) (k + 1) := by
  have b1 := land_127_le (rb.peakAhead 1 % 256)
  have b2 := land_127_le (rb.peakAhead (1 + 1) % 256)
  have b3 := land_127_le (rb.peakAhead (1 + 1 + 1) % 256)
  unfold decodeHeader remainingLengthValue
  interval_cases k
  · rw [decodeLoop_step _ _ _ _ _ _ (by norm_num) (by omega) (by norm_num) (by norm_num)]
    simp [hlast, Finset.sum_range_succ]
  · rw [decodeLoop_step _ _ _ _ _ _ (by norm_num) (by omega) (by norm_num) (by norm_num),
      if_pos (hcont 1 (by norm_num) (by norm_num)),
      decodeLoop_step _ _ _ _ _ _ (by norm_num) (by omega) (by norm_num) (by omega)]
    simp [hlast, Finset.sum_range_succ]
  · rw [decodeLoop_step _ _ _ _ _ _ (by norm_num) (by omega) (by norm_num) (by norm_num),
      if_pos (hcont 1 (by norm_num) (by norm_num)),
      decodeLoop_step _ _ _ _ _ _ (by norm_num) (by omega) (by norm_num) (by omega),
      if_pos (hcont 2 (by norm_num) (by norm_num)),
      decodeLoop_step _ _ _ _ _ _ (by norm_num) (by omega) (by norm_num) (by omega)]
    simp [hlast, Finset.sum_range_succ]
  · rw [decodeLoop_step _ _ _ _ _ _ (by norm_num) (by omega) (by norm_num) (by norm_num),
      if_pos (hcont 1 (by norm_num) (by norm_num)),
      decodeLoop_step _ _ _ _ _ _ (by norm_num) (by omega) (by norm_num) (by omega),
      if_pos (hcont 2 (by norm_num) (by norm_num)),
      decodeLoop_step _ _ _ _ _ _ (by norm_num) (by omega) (by norm_num) (by omega),
      if_pos (hcont 3 (by norm_num) (by norm_num)),
      decodeLoop_step _ _ _ _ _ _ (by norm_num) (by omega) (by norm_num) (by omega)]
    simp [hlast, Finset.sum_range_succ]

/-- The sum over `i` in `1..k` with exponent `i - 1` is the sum over `0..k-1` that the
loop builds. -/
theorem remainingLengthValue_eq_sum_Icc (rb : CirBuf) (k : Nat) :
    remainingLengthValue rb k
      = ∑ i in Finset.Icc 1 k, (rb.peakAhead i % 256 &&& 127) * 128 ^ (i - 1) := by
  induction k with
  | zero => simp [remainingLengthValue]
  | succ n ih =>
    unfold remainingLengthValue at ih ⊢
    rw [Finset.sum_range_succ, Finset.sum_Icc_succ_top (by omega), ih]
    simp

/-- C1: for a read buffer holding at least `k + 1` bytes (`1 ≤ k ≤ 4`) whose bytes at
offsets `1..k` have the continuation bit (128) set on the first `k - 1` and clear on
the `k`-th, the decoding loop of `bufferToMqttPackets` ends with
`fixed_header_length = k + 1` and the total packet length computed at line 334 is
`(k + 1) + Σ_{i=1..k} (b_i & 127) * 128^(i-1)`. -/
theorem bufferToMqttPackets_total_length (rb : CirBuf) (k : Nat) (hk1 : 1 ≤ k) (hk4 : k ≤ 4)
    (hused : k + 1 ≤ rb.usedBytes)
    (hcont : ∀ i, 1 ≤ i → i < k → rb.peakAhead i % 256 &&& 128 ≠ 0)
    (hlast : rb.peakAhead k % 256 &&& 128 = 0) :
    ∃ packet_length, decodeHeader rb = .decoded packet_length (k + 1) ∧
      totalPacketLength packet_length (k + 1)
        = (k + 1) + ∑ i in Finset.Icc 1 k, (rb.peakAhead i % 256 &&& 127) * 128 ^ (i - 1) := by
  refine ⟨remainingLengthValue rb k, decodeHeader_wellformed rb k hk1 hk4 hused hcont hlast, ?_⟩
  rw [← remainingLengthValue_eq_sum_Icc]
  have hle := remainingLengthValue_le rb k
  have hpow : 128 ^ k ≤ 128 ^ 4 := Nat.pow_le_pow_right (by norm_num) hk4
  unfold totalPacketLength
  rw [sizeT_of_lt (by norm_num at hpow; omega)]
  omega

/-- An instance: the two-byte field `0x81 0x01` gives the total length `3 + 129`. -/
theorem bufferToMqttPackets_total_length_witness :
    (1 ≤ 2 ∧ 2 ≤ 4 ∧ 2 + 1 ≤ sampleTwoByteLength.usedBytes
      ∧ (∀ i, 1 ≤ i → i < 2 → sampleTwoByteLength.peakAhead i % 256 &&& 128 ≠ 0)
      ∧ sampleTwoByteLength.peakAhead 2 % 256 &&& 128 = 0)
    ∧ ∃ packet_length, decodeHeader sampleTwoByteLength = .decoded packet_length (2 + 1) ∧
      totalPacketLength packet_length (2 + 1)
        = (2 + 1) + ∑ i in Finset.Icc 1 2,
            (sampleTwoByteLength.peakAhead i % 256 &&& 127) * 128 ^ (i - 1) :=
  have h1 : 1 ≤ 2 := by decide
  have h2 : 2 ≤ 4 := by decide
  have h3 : 2 + 1 ≤ sampleTwoByteLength.usedBytes := by decide
  have h4 : ∀ i, 1 ≤ i → i < 2 → sampleTwoByteLength.peakAhead i % 256 &&& 128 ≠ 0 := by
    intro i hi1 hi2
    interval_cases i
    decide
  have h5 : sampleTwoByteLength.peakAhead 2 % 256 &&& 128 = 0 := by decide
  ⟨⟨h1, h2, h3, h4, h5⟩, bufferToMqttPackets_total_length sampleTwoByteLength 2 h1 h2 h3 h4 h5⟩

/-! ### C3 -/

/-- Four remaining-length bytes that all have the continuation bit: the fifth round
of the decoding loop throws on `fixed_header_length > 5`. -/
theorem decodeHeader_overlong (rb : CirBuf) (hused : 5 ≤ rb.usedBytes)
    (hcont : ∀ i, 1 ≤ i → i ≤ 4 → rb.peakAhead i % 256 &&& 128 ≠ 0) :
    decodeHeader rb = .thrown
      (ProtocolError "Packet signifies more than 5 bytes in variable length header. Invalid.") := by
  have b1 := land_127_le (rb.peakAhead 1 % 256)
  have b2 := land_127_le (rb.peakAhead (1 + 1) % 256)
  have b3 := land_127_le (rb.peakAhead (1 + 1 + 1) % 256)
  unfold decodeHeader
  rw [decodeLoop_step _ _ _ _ _ _ (by norm_num) (by omega) (by norm_num) (by norm_num),
    if_pos (hcont 1 (by norm_num) (by norm_num)),
    decodeLoop_step _ _ _ _ _ _ (by norm_num) (by omega) (by norm_num) (by omega),
    if_pos (hcont 2 (by norm_num) (by norm_num)),
    decodeLoop_step _ _ _ _ _ _ (by norm_num) (by omega) (by norm_num) (by omega),
    if_pos (hcont 3 (by norm_num) (by norm_num)),
    decodeLoop_step _ _ _ _ _ _ (by norm_num) (by omega) (by norm_num) (by omega),
    if_pos (hcont 4 (by norm_num) (by norm_num))]
  simp [decodeLoop]

/-- The first round of the framing loop when the decoding of the header throws. -/
theorem framingLoop_of_thrown (fuel : Nat) (auth : Bool) (A : Nat) (rb : CirBuf)
    (q : List MqttPacket) (e : Exn) (hfuel : 0 < fuel) (hused : 2 ≤ rb.usedBytes)
    (hdec : decodeHeader rb = .thrown e) :
    framingLoop fuel auth A rb q = .threw e (rb, q) := by
  obtain ⟨f, rfl⟩ : ∃ f, fuel = f + 1 := ⟨fuel - 1, by omega⟩
  have h2 : rb.usedBytes ≥ MQTT_HEADER_LENGH := hused
  simp only [framingLoop, if_pos h2, hdec]

/-- C3, as the code has it: with at least 5 bytes in the read buffer and the
continuation bit set on all four remaining-length bytes at offsets 1..4,
`bufferToMqttPackets` throws `ProtocolError` ("Packet signifies more than 5 bytes in
variable length header. Invalid."), leaving buffer and output list as they were. -/
theorem bufferToMqttPackets_overlong_throws_ProtocolError (c : Client) (A : Nat)
    (q : List MqttPacket) (epollCtl : Option String) (hused : 5 ≤ c.readbuf.usedBytes)
    (hcont : ∀ i, 1 ≤ i → i ≤ 4 → c.readbuf.peakAhead i % 256 &&& 128 ≠ 0) :
    bufferToMqttPackets c A q epollCtl = .threw
      (ProtocolError "Packet signifies more than 5 bytes in variable length header. Invalid.")
      (c, q) := by
  unfold bufferToMqttPackets
  rw [framingLoop_of_thrown _ _ _ _ _ _ (by omega) (by omega)
    (decodeHeader_overlong c.readbuf hused hcont)]

/-- An instance: the five bytes `30 FF FF FF FF`. -/
theorem bufferToMqttPackets_overlong_throws_ProtocolError_witness :
    (5 ≤ clientOverlongLength.readbuf.usedBytes
      ∧ ∀ i, 1 ≤ i → i ≤ 4 → clientOverlongLength.readbuf.peakAhead i % 256 &&& 128 ≠ 0)
    ∧ bufferToMqttPackets clientOverlongLength 268435456 [] none = .threw
      (ProtocolError "Packet signifies more than 5 bytes in variable length header. Invalid.")
      (clientOverlongLength, []) :=
  have h1 : 5 ≤ clientOverlongLength.readbuf.usedBytes := by decide
  have h2 : ∀ i, 1 ≤ i → i ≤ 4 →
      clientOverlongLength.readbuf.peakAhead i % 256 &&& 128 ≠ 0 := by
    intro i hi1 hi2
    interval_cases i <;> decide
  ⟨⟨h1, h2⟩,
    bufferToMqttPackets_overlong_throws_ProtocolError clientOverlongLength 268435456 [] none h1 h2⟩

/-- C3, counterexample: the buffer holds 5 bytes, the four remaining-length bytes all
have the continuation bit, and the error raised is not of kind MalformedPacket (it is
a ProtocolError). -/
theorem bufferToMqttPackets_overlong_not_MalformedPacket :
    (5 ≤ clientOverlongLength.readbuf.usedBytes
      ∧ ∀ i, 1 ≤ i → i ≤ 4 → clientOverlongLength.readbuf.peakAhead i % 256 &&& 128 ≠ 0)
    ∧ (bufferToMqttPackets clientOverlongLength 268435456 [] none).threwKind
        ErrorKind.MalformedPacket = false
    ∧ (bufferToMqttPackets clientOverlongLength 268435456 [] none).threwKind
        ErrorKind.ProtocolError = true := by
  refine ⟨⟨by decide, ?_⟩, by decide, by decide⟩
  intro i hi1 hi2
  interval_cases i <;> decide

/-! ### C5 -/

theorem toInt32_of_lt (x : Int) (h0 : 0 ≤ x) (h : x < 2147483648) : toInt32 x = x := by
  have p31 : (2 : Int) ^ 31 = 2147483648 := by norm_num
  have p32 : (2 : Int) ^ 32 = 4294967296 := by norm_num
  unfold toInt32
  rw [p31, p32]
  omega

theorem toUInt32_of_lt (x : Int) (h0 : 0 ≤ x) (h : x < 4294967296) :
    toUInt32 x = x.toNat := by
  have p32 : (2 : Int) ^ 32 = 4294967296 := by norm_num
  unfold toUInt32
  rw [p32, Int.emod_eq_of_lt h0 h]

/-- Where no conversion wraps (`size * 1000` and `maxPacketSize` both below `2^31`)
the cap is the minimum of the two. -/
theorem growBufMaxTo_small (size maxPacketSize : Nat) (hs : size * 1000 < 2147483648)
    (hm : maxPacketSize < 2147483648) :
    growBufMaxTo size maxPacketSize = min (size * 1000) maxPacketSize := by
  have p64 : (2 : Nat) ^ 64 = 18446744073709551616 := by norm_num
  unfold growBufMaxTo sizeT
  rw [p64, Nat.mod_eq_of_lt (by omega), toInt32_of_lt _ (by omega) (by omega),
    toInt32_of_lt _ (by omega) (by omega), toUInt32_of_lt _ (by omega) (by omega)]
  omega

/-- C5, the code at the failing input: for a packet of 2147484 bytes (just above
`2^31 / 1000`) and `maxPacketSize` = 256 MiB, `size * 1000` becomes a negative `int`,
`std::min<int>` picks it, and the `uint32_t` cap is 2147484000: it is not
`min(size * 1000, maxPacketSize)` and it exceeds `maxPacketSize`. -/
theorem growBufMaxTo_wraps :
    growBufMaxTo 2147484 268435456 = 2147484000
    ∧ growBufMaxTo 2147484 268435456 ≠ min (2147484 * 1000) 268435456
    ∧ 268435456 < growBufMaxTo 2147484 268435456 := by decide

/-! ### C9 -/

/-- C9: for a 16-bit keepalive `k`, `keepAliveExpired` is `lastActivity + 20 < now`
for an unauthenticated client and `lastActivity + 2*k < now` for an authenticated
one; the `int` product `k*10` does not wrap and `k*10/5` is exactly `2*k`. -/
theorem keepAliveExpired_eq (c : Client) (now : Int) (hk : c.keepalive < 65536) :
    (c.authenticated = false → keepAliveExpired c now = decide (c.lastActivity + 20 < now))
    ∧ (c.authenticated = true →
        keepAliveExpired c now = decide (c.lastActivity + 2 * (c.keepalive : Int) < now))
    ∧ toInt32 ((c.keepalive : Int) * 10) = (c.keepalive : Int) * 10
    ∧ Int.tdiv (toInt32 ((c.keepalive : Int) * 10)) 5 = 2 * (c.keepalive : Int) := by
  have e1 : toInt32 ((c.keepalive : Int) * 10) = (c.keepalive : Int) * 10 :=
    toInt32_of_lt _ (by omega) (by omega)
  have e2 : Int.tdiv (toInt32 ((c.keepalive : Int) * 10)) 5 = 2 * (c.keepalive : Int) := by
    rw [e1, Int.tdiv_eq_ediv (by omega) (by norm_num)]
    omega
  refine ⟨?_, ?_, e1, e2⟩
  · intro ha
    simp [keepAliveExpired, ha]
  · intro ha
    simp only [keepAliveExpired, ha, e2]
    simp

/-- An instance: the largest keep-alive, 65535 seconds. -/
theorem keepAliveExpired_eq_witness :
    clientMaxKeepalive.keepalive < 65536
    ∧ (clientMaxKeepalive.authenticated = false →
        keepAliveExpired clientMaxKeepalive 132071
          = decide (clientMaxKeepalive.lastActivity + 20 < 132071))
    ∧ (clientMaxKeepalive.authenticated = true →
        keepAliveExpired clientMaxKeepalive 132071
          = decide (clientMaxKeepalive.lastActivity
              + 2 * (clientMaxKeepalive.keepalive : Int) < 132071))
    ∧ toInt32 ((clientMaxKeepalive.keepalive : Int) * 10)
        = (clientMaxKeepalive.keepalive : Int) * 10
    ∧ Int.tdiv (toInt32 ((clientMaxKeepalive.keepalive : Int) * 10)) 5
        = 2 * (clientMaxKeepalive.keepalive : Int) :=
  ⟨by decide, keepAliveExpired_eq clientMaxKeepalive 132071 (by decide)⟩

/-! ### C7 -/

/-- `setReadyForReading(false)` on a client that is not disconnecting: it returns or
throws, and either way `readyForReading` is `false` and the buffers are untouched. -/
theorem setReadyForReading_false (c : Client) (epollCtl : Option String)
    (hdis : c.disconnecting = false) :
    ∃ c2, c2.readyForReading = false ∧ c2.readbuf = c.readbuf
      ∧ (setReadyForReading c false epollCtl = .returned () c2
          ∨ ∃ e, setReadyForReading c false epollCtl = .threw e c2) := by
  unfold setReadyForReading
  rw [hdis]
  cases hr : c.readyForReading
  · exact ⟨c, hr, rfl, Or.inl (by simp)⟩
  · cases epollCtl with
    | none =>
      exact ⟨{ c with readyForReading := false, epollInterest := (false, c.readyForWriting) },
        rfl, rfl, Or.inl (by simp [hdis])⟩
    | some msg =>
      exact ⟨{ c with readyForReading := false }, rfl, rfl,
        Or.inr ⟨runtime_error msg, by simp [hdis]⟩⟩

/-- C7, as the code has it: when a read (neither Interrupted nor Wouldblock) leaves
the read buffer `rb` with `freeSpace == 0`, the buffer is doubled and the loop goes on
if `2 * size < maxPacketSize` (strictly); otherwise the loop ends (by return, or by
the exception of a failing `epoll_ctl`) with `readyForReading == false` and the
buffer not doubled. -/
theorem readLoop_full_buffer (ev : ReadEvent) (rest : List ReadEvent) (c : Client)
    (error : IoWrapResult) (epollCtl : Option String) (rb : CirBuf)
    (hdis : c.disconnecting = false)
    (hfree : c.readbuf.freeSpace > 0)
    (hn : ev.n ≠ 0)
    (hrb : (if ev.n > 0
        then (c.readbuf.pokeAtHead (ev.data.take c.readbuf.maxWriteSize)).advanceHead ev.n.toNat
        else some (c.readbuf.pokeAtHead (ev.data.take c.readbuf.maxWriteSize))) = some rb)
    (hint : ev.error ≠ IoWrapResult.Interrupted)
    (hwould : ev.error ≠ IoWrapResult.Wouldblock)
    (hfull : rb.freeSpace = 0) :
    (rb.getSize * 2 < c.maxPacketSize →
      readLoop (ev :: rest) c error epollCtl
        = readLoop rest { c with readbuf := rb.doubleSize } ev.error epollCtl)
    ∧ (¬ rb.getSize * 2 < c.maxPacketSize →
      ∃ c2, c2.readyForReading = false ∧ c2.readbuf = rb
        ∧ (readLoop (ev :: rest) c error epollCtl = .returned ev.error c2
            ∨ ∃ e, readLoop (ev :: rest) c error epollCtl = .threw e c2)) := by
  constructor
  · intro hlt
    simp only [readLoop, if_pos hfree, hrb, if_neg hint, if_neg hwould, if_pos hfull,
      if_pos hlt, if_pos hn, ne_eq]
  · intro hge
    obtain ⟨c2, h1, h2, h3⟩ :=
      setReadyForReading_false { c with readbuf := rb } epollCtl hdis
    refine ⟨c2, h1, h2, ?_⟩
    rcases h3 with h3 | ⟨e, h3⟩
    · left
      simp only [readLoop, if_pos hfree, hrb, if_neg hint, if_neg hwould, if_pos hfull,
        if_neg hge, if_pos hn, ne_eq, h3]
    · right
      refine ⟨e, ?_⟩
      simp only [readLoop, if_pos hfree, hrb, if_neg hint, if_neg hwould, if_pos hfull,
        if_neg hge, if_pos hn, ne_eq, h3]

/-- An instance: a buffer of 4 cells filled by a read of 3 bytes, with
`maxPacketSize = 16`. -/
theorem readLoop_full_buffer_witness :
    (clientQuarterMaxBuffer.disconnecting = false
      ∧ clientQuarterMaxBuffer.readbuf.freeSpace > 0
      ∧ readThreeBytes.n ≠ 0
      ∧ (if readThreeBytes.n > 0
          then (clientQuarterMaxBuffer.readbuf.pokeAtHead
            (readThreeBytes.data.take clientQuarterMaxBuffer.readbuf.maxWriteSize)).advanceHead
              readThreeBytes.n.toNat
          else some (clientQuarterMaxBuffer.readbuf.pokeAtHead
            (readThreeBytes.data.take clientQuarterMaxBuffer.readbuf.maxWriteSize)))
          = some ⟨[1, 2, 3, 0], 3, 0, 4⟩
      ∧ readThreeBytes.error ≠ IoWrapResult.Interrupted
      ∧ readThreeBytes.error ≠ IoWrapResult.Wouldblock
      ∧ CirBuf.freeSpace ⟨[1, 2, 3, 0], 3, 0, 4⟩ = 0)
    ∧ (CirBuf.getSize ⟨[1, 2, 3, 0], 3, 0, 4⟩ * 2 < clientQuarterMaxBuffer.maxPacketSize →
      readLoop [readThreeBytes] clientQuarterMaxBuffer IoWrapResult.Success none
        = readLoop [] { clientQuarterMaxBuffer with
            readbuf := CirBuf.doubleSize ⟨[1, 2, 3, 0], 3, 0, 4⟩ } readThreeBytes.error none)
    ∧ (¬ CirBuf.getSize ⟨[1, 2, 3, 0], 3, 0, 4⟩ * 2 < clientQuarterMaxBuffer.maxPacketSize →
      ∃ c2, c2.readyForReading = false ∧ c2.readbuf = ⟨[1, 2, 3, 0], 3, 0, 4⟩
        ∧ (readLoop [readThreeBytes] clientQuarterMaxBuffer IoWrapResult.Success none
              = .returned readThreeBytes.error c2
            ∨ ∃ e, readLoop [readThreeBytes] clientQuarterMaxBuffer IoWrapResult.Success none
              = .threw e c2)) :=
  have h1 : clientQuarterMaxBuffer.disconnecting = false := by decide
  have h2 : clientQuarterMaxBuffer.readbuf.freeSpace > 0 := by decide
  have h3 : readThreeBytes.n ≠ 0 := by decide
  have h4 : (if readThreeBytes.n > 0
      then (clientQuarterMaxBuffer.readbuf.pokeAtHead
        (readThreeBytes.data.take clientQuarterMaxBuffer.readbuf.maxWriteSize)).advanceHead
          readThreeBytes.n.toNat
      else some (clientQuarterMaxBuffer.readbuf.pokeAtHead
        (readThreeBytes.data.take clientQuarterMaxBuffer.readbuf.maxWriteSize)))
      = some ⟨[1, 2, 3, 0], 3, 0, 4⟩ := by decide
  have h5 : readThreeBytes.error ≠ IoWrapResult.Interrupted := by decide
  have h6 : readThreeBytes.error ≠ IoWrapResult.Wouldblock := by decide
  have h7 : CirBuf.freeSpace ⟨[1, 2, 3, 0], 3, 0, 4⟩ = 0 := by decide
  ⟨⟨h1, h2, h3, h4, h5, h6, h7⟩,
    readLoop_full_buffer readThreeBytes [] clientQuarterMaxBuffer IoWrapResult.Success none
      ⟨[1, 2, 3, 0], 3, 0, 4⟩ h1 h2 h3 h4 h5 h6 h7⟩

/-- C7, counterexample: a read buffer of size 4 with `maxPacketSize = 8`
(`2 * size ≤ maxPacketSize`, the size is exactly `maxPacketSize / 2`) is filled by a
successful read of 3 bytes; the buffer is not doubled (its size stays 4), the loop
ends and `readyForReading` is cleared. -/
theorem readLoop_half_max_not_doubled :
    2 * clientHalfMaxBuffer.readbuf.getSize ≤ clientHalfMaxBuffer.maxPacketSize
    ∧ clientHalfMaxBuffer.readbuf.getSize = clientHalfMaxBuffer.maxPacketSize / 2
    ∧ clientHalfMaxBuffer.readbuf.freeSpace = 3
    ∧ readLoop [readThreeBytes] clientHalfMaxBuffer IoWrapResult.Success none
      = .returned IoWrapResult.Success
          { clientHalfMaxBuffer with
            readbuf := ⟨[1, 2, 3, 0], 3, 0, 4⟩
            readyForReading := false
            epollInterest := (false, false) }
    ∧ readFdIntoBuffer clientHalfMaxBuffer [readThreeBytes] none 7
      = .returned true
          { clientHalfMaxBuffer with
            readbuf := ⟨[1, 2, 3, 0], 3, 0, 4⟩
            readyForReading := false
            epollInterest := (false, false)
            lastActivity := 7 } := by
  decide

/-! ### C10 -/

theorem setReadyForReading_disconnecting (c : Client) (val : Bool) (epollCtl : Option String)
    (h : c.disconnecting = true) : setReadyForReading c val epollCtl = .returned () c := by
  simp [setReadyForReading, h]

theorem setReadyForWriting_disconnecting (c : Client) (val ssl : Bool)
    (epollCtl : Option String) (h : c.disconnecting = true) :
    setReadyForWriting c val ssl epollCtl = .returned () c := by
  simp [setReadyForWriting, h]

theorem readFdIntoBuffer_disconnecting (c : Client) (script : List ReadEvent)
    (epollCtl : Option String) (now : Int) (h : c.disconnecting = true) :
    readFdIntoBuffer c script epollCtl now = .returned false c := by
  simp [readFdIntoBuffer, h]

theorem writeBufIntoFd_disconnecting (c : Client) (pending : Bool) (script : List WriteEvent)
    (ssl : Bool) (epollCtl : Option String) (h : c.disconnecting = true) :
    writeBufIntoFd c true pending script ssl epollCtl = .returned false c := by
  simp [writeBufIntoFd, h]

theorem bufferToMqttPackets_disconnecting (c : Client) (A : Nat) (q : List MqttPacket)
    (epollCtl : Option String) (h : c.disconnecting = true) (s : Client × List MqttPacket)
    (hs : (bufferToMqttPackets c A q epollCtl).state? = some s) :
    s.1.disconnecting = true := by
  unfold bufferToMqttPackets at hs
  split at hs
  · simp [Outcome.state?] at hs; subst hs; exact h
  · simp [Outcome.state?] at hs
  · simp [Outcome.state?] at hs
  · simp [Outcome.state?] at hs; subst hs; exact h
  · dsimp only at hs
    rw [setReadyForReading_disconnecting _ _ _ (by exact h)] at hs
    simp [Outcome.state?] at hs; subst hs; exact h

theorem writeMqttPacket_disconnecting (c : Client) (packet : MqttPacket) (ssl : Bool)
    (epollCtl : Option String) (h : c.disconnecting = true) (c1 : Client)
    (hs : (writeMqttPacket c packet ssl epollCtl).state? = some c1) :
    c1.disconnecting = true := by
  unfold writeMqttPacket at hs
  by_cases hd : dropsPacket c packet = true
  · simp [hd, Outcome.state?] at hs; subst hs; exact h
  · cases hw : writeMqttPacketBytes (writebufEnsured c packet) packet with
    | none => simp [hd, hw, Outcome.state?] at hs
    | some wb3 =>
      simp only [hd, hw] at hs
      by_cases hp : packet.packetType = PacketType.DISCONNECT
      · rw [if_pos hp, setReadyForWriting_disconnecting _ _ _ _ (by exact h)] at hs
        simp [Outcome.state?] at hs; subst hs; exact h
      · rw [if_neg hp, setReadyForWriting_disconnecting _ _ _ _ (by exact h)] at hs
        simp [Outcome.state?] at hs; subst hs; exact h

/-- No member of `Client` clears `disconnecting`. -/
theorem applyOp_disconnecting (c c1 : Client) (op : Op) (h : c.disconnecting = true)
    (hs : applyOp c op = some c1) : c1.disconnecting = true := by
  cases op with
  | markAsDisconnecting =>
    simp [applyOp, markAsDisconnecting, h] at hs; subst hs; exact h
  | readFdIntoBuffer script epollCtl now =>
    simp [applyOp, readFdIntoBuffer_disconnecting _ _ _ _ h, Outcome.state?] at hs
    subst hs; exact h
  | writeText text ws defaultMax ssl epollCtl =>
    simp only [applyOp, writeText] at hs
    split at hs
    · simp [Outcome.state?] at hs
    · split at hs
      · simp [Outcome.state?] at hs
      · rw [setReadyForWriting_disconnecting _ _ _ _ (by exact h)] at hs
        simp [Outcome.state?] at hs; subst hs; exact h
  | writeMqttPacket packet ssl epollCtl =>
    exact writeMqttPacket_disconnecting c packet ssl epollCtl h c1 hs
  | writeMqttPacketAndBlameThisClient packet ssl epollCtl =>
    simp only [applyOp, writeMqttPacketAndBlameThisClient] at hs
    split at hs
    · rename_i e c2 heq
      simp [Outcome.state?] at hs; subst hs
      exact writeMqttPacket_disconnecting c packet ssl epollCtl h _ (by rw [heq]; rfl)
    · exact writeMqttPacket_disconnecting c packet ssl epollCtl h c1 hs
  | writePingResp defaultMax ssl epollCtl =>
    simp only [applyOp, writePingResp] at hs
    split at hs
    · simp [Outcome.state?] at hs
    · split at hs
      · simp [Outcome.state?] at hs
      · rw [setReadyForWriting_disconnecting _ _ _ _ (by exact h)] at hs
        simp [Outcome.state?] at hs; subst hs; exact h
  | writeBufIntoFd ownsLock pending script ssl epollCtl =>
    cases ownsLock
    · simp [applyOp, writeBufIntoFd, Outcome.state?] at hs; subst hs; exact h
    · simp [applyOp, writeBufIntoFd_disconnecting _ _ _ _ _ h, Outcome.state?] at hs
      subst hs; exact h
  | resetBuffersIfEligible =>
    simp [applyOp, resetBuffersIfEligible] at hs; subst hs; exact h
  | setReadyForWriting val ssl epollCtl =>
    simp [applyOp, setReadyForWriting_disconnecting _ _ _ _ h, Outcome.state?] at hs
    subst hs; exact h
  | setReadyForReading val epollCtl =>
    simp [applyOp, setReadyForReading_disconnecting _ _ _ h, Outcome.state?] at hs
    subst hs; exact h
  | bufferToMqttPackets A q epollCtl =>
    simp only [applyOp, Option.map_eq_some'] at hs
    obtain ⟨s, hs1, hs2⟩ := hs
    subst hs2
    exact bufferToMqttPackets_disconnecting c A q epollCtl h s hs1
  | setClientProperties pv cid user seen keepalive clean =>
    simp [applyOp, setClientProperties] at hs; subst hs; exact h
  | setWill topic payload retain qos =>
    simp [applyOp, setWill] at hs; subst hs; exact h
  | clearWill =>
    simp [applyOp, clearWill] at hs; subst hs; exact h
  | assignSession session =>
    simp [applyOp, assignSession] at hs; subst hs; exact h
  | setDisconnectReason reason =>
    simp only [applyOp, setDisconnectReason] at hs
    split at hs <;> (simp at hs; subst hs; exact h)
  | setAuthenticated value =>
    simp [applyOp, setAuthenticated] at hs; subst hs; exact h
  | setReadyForDisconnect =>
    simp [applyOp, setReadyForDisconnect] at hs; subst hs; exact h

theorem runOps_disconnecting (ops : List Op) (c c1 : Client) (h : c.disconnecting = true)
    (hs : runOps ops c = some c1) : c1.disconnecting = true := by
  induction ops generalizing c with
  | nil => simp [runOps] at hs; subst hs; exact h
  | cons op ops ih =>
    simp only [runOps] at hs
    split at hs
    · simp at hs
    · rename_i c2 heq
      exact ih c2 (applyOp_disconnecting c c2 op h heq) hs

theorem markAsDisconnecting_sets (c : Client) : (markAsDisconnecting c).disconnecting = true := by
  unfold markAsDisconnecting
  split
  · assumption
  · rfl

/-- C10: after `markAsDisconnecting` and any further sequence of calls of members of
`Client`, `disconnecting` is still true, every `readFdIntoBuffer` returns false and
leaves the client (read buffer and `lastActivity` included) as it was, and every
`writeBufIntoFd` that owns the lock returns false and leaves the client (write buffer
included) as it was. -/
theorem markAsDisconnecting_is_final (c : Client) (ops : List Op) (c1 : Client)
    (hs : runOps ops (markAsDisconnecting c) = some c1) :
    c1.disconnecting = true
    ∧ (∀ (script : List ReadEvent) (epollCtl : Option String) (now : Int),
        readFdIntoBuffer c1 script epollCtl now = .returned false c1)
    ∧ (∀ (pending : Bool) (script : List WriteEvent) (ssl : Bool) (epollCtl : Option String),
        writeBufIntoFd c1 true pending script ssl epollCtl = .returned false c1) := by
  have hd : c1.disconnecting = true :=
    runOps_disconnecting ops _ c1 (markAsDisconnecting_sets c) hs
  exact ⟨hd, fun script epollCtl now => readFdIntoBuffer_disconnecting c1 script epollCtl now hd,
    fun pending script ssl epollCtl =>
      writeBufIntoFd_disconnecting c1 pending script ssl epollCtl hd⟩

/-- An instance: seven calls on a fresh client after `markAsDisconnecting`. -/
theorem markAsDisconnecting_is_final_witness :
    runOps sampleOpsAfterDisconnect (markAsDisconnecting (Client.create 8 1024 0))
      = some clientAfterSampleOps
    ∧ (clientAfterSampleOps.disconnecting = true
      ∧ (∀ (script : List ReadEvent) (epollCtl : Option String) (now : Int),
          readFdIntoBuffer clientAfterSampleOps script epollCtl now
            = .returned false clientAfterSampleOps)
      ∧ (∀ (pending : Bool) (script : List WriteEvent) (ssl : Bool) (epollCtl : Option String),
          writeBufIntoFd clientAfterSampleOps true pending script ssl epollCtl
            = .returned false clientAfterSampleOps)) :=
  have h : runOps sampleOpsAfterDisconnect (markAsDisconnecting (Client.create 8 1024 0))
      = some clientAfterSampleOps := by decide
  ⟨h, markAsDisconnecting_is_final (Client.create 8 1024 0) sampleOpsAfterDisconnect
    clientAfterSampleOps h⟩

/-! ### C8 -/

/-- C8, as the code has it: when `bufferToMqttPackets` returns true, then on a client
that is not disconnecting `readyForReading` equals `readbuf.freeSpace() > 0`, and on
a disconnecting client `readyForReading` is what it was. -/
theorem bufferToMqttPackets_readyForReading (c : Client) (A : Nat) (q : List MqttPacket)
    (epollCtl : Option String) (c1 : Client) (q1 : List MqttPacket)
    (hret : bufferToMqttPackets c A q epollCtl = .returned true (c1, q1)) :
    (c.disconnecting = false → c1.readyForReading = decide (c1.readbuf.freeSpace > 0))
    ∧ (c.disconnecting = true → c1.readyForReading = c.readyForReading) := by
  unfold bufferToMqttPackets at hret
  split at hret
  · simp at hret
  · simp at hret
  · simp at hret
  · simp at hret
  · rename_i rb q2 heq
    dsimp only at hret
    constructor
    · intro hd
      unfold setReadyForReading at hret
      simp only [hd] at hret
      by_cases hv : (decide (rb.freeSpace > 0) == c.readyForReading) = true
      · simp [hv] at hret
        obtain ⟨h1, _⟩ := hret
        subst h1
        simp at hv
        simp [hv]
      · cases epollCtl with
        | none =>
          simp [hv] at hret
          obtain ⟨h1, _⟩ := hret
          subst h1
          simp
        | some msg => simp [hv] at hret
    · intro hd
      rw [setReadyForReading_disconnecting _ _ _ (by exact hd)] at hret
      simp at hret
      obtain ⟨h1, _⟩ := hret
      subst h1
      rfl

/-- An instance: a stalled reader whose buffer holds one PINGREQ is ready for reading
again after the call. -/
theorem bufferToMqttPackets_readyForReading_witness :
    bufferToMqttPackets clientOnePingreq 268435456 [] none
      = .returned true (clientOnePingreqDrained, [pingreqPacket])
    ∧ ((clientOnePingreq.disconnecting = false →
        clientOnePingreqDrained.readyForReading
          = decide (clientOnePingreqDrained.readbuf.freeSpace > 0))
      ∧ (clientOnePingreq.disconnecting = true →
        clientOnePingreqDrained.readyForReading = clientOnePingreq.readyForReading)) :=
  have h : bufferToMqttPackets clientOnePingreq 268435456 [] none
      = .returned true (clientOnePingreqDrained, [pingreqPacket]) := by decide
  ⟨h, bufferToMqttPackets_readyForReading clientOnePingreq 268435456 [] none
    clientOnePingreqDrained [pingreqPacket] h⟩

/-- C8, counterexample: (1) a client that is not disconnecting, whose buffer holds
the two bytes `0x30 0x80`, leaves `bufferToMqttPackets` through the `return false` of
line 325 with `readyForReading` still false although the buffer has free space;
(2) a disconnecting client with an empty buffer returns true with `readyForReading`
still false although the buffer has free space. -/
theorem bufferToMqttPackets_readyForReading_not_restored :
    (bufferToMqttPackets clientPartialHeader 268435456 [] none
        = .returned false (clientPartialHeader, [])
      ∧ clientPartialHeader.readyForReading = false
      ∧ decide (clientPartialHeader.readbuf.freeSpace > 0) = true)
    ∧ (bufferToMqttPackets clientDisconnectingIdle 268435456 [] none
        = .returned true (clientDisconnectingIdle, [])
      ∧ clientDisconnectingIdle.readyForReading = false
      ∧ decide (clientDisconnectingIdle.readbuf.freeSpace > 0) = true) := by
  decide

/-! ### The circular buffer: moving the tail -/

/-- Arithmetic of the tail index: taking `n ≥ 1` of the used bytes away. -/
theorem mod_sub_step (H T S n : Nat) (hn1 : 1 ≤ n) (hn : n ≤ (H + S - T) % S) :
    (H + S - (T + n) % S) % S = (H + S - T) % S - n := by
  rcases Nat.eq_zero_or_pos S with hS | hS
  · subst hS
    simp only [Nat.mod_zero, Nat.add_zero] at hn ⊢
    omega
  · have hu : (H + S - T) % S < S := Nat.mod_lt _ hS
    have hT : (T + n) % S < S := Nat.mod_lt _ hS
    have hpos : 1 ≤ H + S - T := by
      by_contra hc
      have h0 : H + S - T = 0 := by omega
      rw [h0] at hn
      simp at hn
      omega
    have key : (H + S - (T + n) % S) + (T + n) ≡ ((H + S - T) % S - n) + (T + n) [MOD S] := by
      have l1 : (H + S - (T + n) % S) + (T + n)
          ≡ (H + S - (T + n) % S) + (T + n) % S [MOD S] :=
        Nat.ModEq.add_left _ (Nat.mod_modEq _ _).symm
      have l2 : (H + S - (T + n) % S) + (T + n) % S = H + S := by omega
      have r1 : ((H + S - T) % S - n) + (T + n) = (H + S - T) % S + T := by omega
      have r2 : (H + S - T) % S + T ≡ (H + S - T) + T [MOD S] :=
        Nat.ModEq.add_right _ (Nat.mod_modEq _ _)
      have r3 : (H + S - T) + T = H + S := by omega
      rw [r1]
      rw [l2] at l1
      rw [r3] at r2
      exact l1.trans r2.symm
    have key2 := Nat.ModEq.add_right_cancel' _ key
    exact Nat.ModEq.eq_of_lt_of_lt (Nat.ModEq.trans (Nat.mod_modEq _ _) key2)
      (Nat.mod_lt _ hS) (by omega)

theorem CirBuf.advanceTail_eq_some {b b1 : CirBuf} {n : Nat} (h : b.advanceTail n = some b1) :
    n ≤ b.usedBytes ∧ b1 = { b with tail := (b.tail + n) % b.size } := by
  unfold CirBuf.advanceTail at h
  split at h
  · rename_i hle
    simp at h
    exact ⟨hle, h.symm⟩
  · simp at h

theorem CirBuf.usedBytes_advanceTail {b b1 : CirBuf} {n : Nat} (hn1 : 1 ≤ n)
    (h : b.advanceTail n = some b1) : b1.usedBytes = b.usedBytes - n := by
  obtain ⟨hle, rfl⟩ := CirBuf.advanceTail_eq_some h
  exact mod_sub_step b.head b.tail b.size n hn1 hle

theorem CirBuf.peakAhead_advanceTail {b b1 : CirBuf} {n : Nat}
    (h : b.advanceTail n = some b1) (i : Nat) : b1.peakAhead i = b.peakAhead (n + i) := by
  obtain ⟨_, rfl⟩ := CirBuf.advanceTail_eq_some h
  simp only [CirBuf.peakAhead]
  congr 1
  rw [Nat.add_mod, Nat.mod_mod, ← Nat.add_mod, Nat.add_assoc]

theorem MqttPacket.fromBuffer_eq_some {rb rb1 : CirBuf} {L fhl : Nat} {p : MqttPacket}
    (h : MqttPacket.fromBuffer rb L fhl = some (p, rb1)) :
    rb.advanceTail L = some rb1 ∧ p.bites = (List.range L).map rb.peakAhead
      ∧ p.fixed_header_length = fhl := by
  unfold MqttPacket.fromBuffer CirBuf.read at h
  cases ha : rb.advanceTail L with
  | none => simp [ha] at h
  | some b1 =>
    simp [ha] at h
    obtain ⟨h1, h2⟩ := h
    subst h1 h2
    exact ⟨rfl, rfl, rfl⟩

theorem MqttPacket.fromBuffer_isSome {rb : CirBuf} {L : Nat} (fhl : Nat)
    (h : L ≤ rb.usedBytes) : ∃ p rb1, MqttPacket.fromBuffer rb L fhl = some (p, rb1) := by
  unfold MqttPacket.fromBuffer CirBuf.read CirBuf.advanceTail
  simp [h]

/-! ### The decoding loop, case by case -/

theorem decodeHeader_needMore_2 (rb : CirBuf) (h : rb.usedBytes < 2) :
    decodeHeader rb = .needMore := by
  have c2 : (1 + 1 > rb.usedBytes) := by omega
  simp [decodeHeader, decodeLoop, c2]

/-- The remaining-length field is cut off: `k` bytes (`1 ≤ k ≤ 3`) with the
continuation bit are there and the next one is not yet. -/
theorem decodeHeader_incomplete (rb : CirBuf) (k : Nat) (hk1 : 1 ≤ k) (hk3 : k ≤ 3)
    (hused : rb.usedBytes = k + 1)
    (hcont : ∀ i, 1 ≤ i → i ≤ k → rb.peakAhead i % 256 &&& 128 ≠ 0) :
    decodeHeader rb = .needMore := by
  have b1 := land_127_le (rb.peakAhead 1 % 256)
  have b2 := land_127_le (rb.peakAhead (1 + 1) % 256)
  have b3 := land_127_le (rb.peakAhead (1 + 1 + 1) % 256)
  unfold decodeHeader
  interval_cases k
  · rw [decodeLoop_step _ _ _ _ _ _ (by norm_num) (by omega) (by norm_num) (by norm_num),
      if_pos (hcont 1 (by norm_num) (by norm_num))]
    have c2 : (1 + 1 + 1 > rb.usedBytes) := by omega
    simp [decodeLoop, c2]
  · rw [decodeLoop_step _ _ _ _ _ _ (by norm_num) (by omega) (by norm_num) (by norm_num),
      if_pos (hcont 1 (by norm_num) (by norm_num)),
      decodeLoop_step _ _ _ _ _ _ (by norm_num) (by omega) (by norm_num) (by omega),
      if_pos (hcont 2 (by norm_num) (by norm_num))]
    have c2 : (1 + 1 + 1 + 1 > rb.usedBytes) := by omega
    simp [decodeLoop, c2]
  · rw [decodeLoop_step _ _ _ _ _ _ (by norm_num) (by omega) (by norm_num) (by norm_num),
      if_pos (hcont 1 (by norm_num) (by norm_num)),
      decodeLoop_step _ _ _ _ _ _ (by norm_num) (by omega) (by norm_num) (by omega),
      if_pos (hcont 2 (by norm_num) (by norm_num)),
      decodeLoop_step _ _ _ _ _ _ (by norm_num) (by omega) (by norm_num) (by omega),
      if_pos (hcont 3 (by norm_num) (by norm_num))]
    have c2 : (1 + 1 + 1 + 1 + 1 > rb.usedBytes) := by omega
    simp [decodeLoop, c2]

/-- The three ways the decoding of a header ends: the field is cut off, or it is a
well-formed field of `k ≤ 4` bytes that are all present, or its first four bytes
all have the continuation bit and `fixed_header_length > 5` throws. -/
theorem decodeHeader_cases (rb : CirBuf) :
    decodeHeader rb = .needMore
    ∨ (∃ k, 1 ≤ k ∧ k ≤ 4 ∧ k + 1 ≤ rb.usedBytes
        ∧ (∀ i, 1 ≤ i → i < k → rb.peakAhead i % 256 &&& 128 ≠ 0)
        ∧ rb.peakAhead k % 256 &&& 128 = 0
        ∧ decodeHeader rb = .decoded (remainingLengthValue rb k) (k + 1))
    ∨ (5 ≤ rb.usedBytes
        ∧ (∀ i, 1 ≤ i → i ≤ 4 → rb.peakAhead i % 256 &&& 128 ≠ 0)
        ∧ decodeHeader rb = .thrown (ProtocolError
            "Packet signifies more than 5 bytes in variable length header. Invalid.")) := by
  have fin : ∀ k, 1 ≤ k → k ≤ 4 → k + 1 ≤ rb.usedBytes →
      (∀ i, 1 ≤ i → i < k → rb.peakAhead i % 256 &&& 128 ≠ 0) →
      rb.peakAhead k % 256 &&& 128 = 0 →
      ∃ k, 1 ≤ k ∧ k ≤ 4 ∧ k + 1 ≤ rb.usedBytes
        ∧ (∀ i, 1 ≤ i → i < k → rb.peakAhead i % 256 &&& 128 ≠ 0)
        ∧ rb.peakAhead k % 256 &&& 128 = 0
        ∧ decodeHeader rb = .decoded (remainingLengthValue rb k) (k + 1) :=
    fun k hk1 hk4 hu hc hl =>
      ⟨k, hk1, hk4, hu, hc, hl, decodeHeader_wellformed rb k hk1 hk4 hu hc hl⟩
  by_cases hu2 : 2 ≤ rb.usedBytes
  swap
  · exact Or.inl (decodeHeader_needMore_2 rb (by omega))
  by_cases c1 : rb.peakAhead 1 % 256 &&& 128 = 0
  · exact Or.inr (Or.inl
      (fin 1 (by norm_num) (by norm_num) hu2 (by intro i h1 h2; omega) c1))
  by_cases hu3 : 3 ≤ rb.usedBytes
  swap
  · exact Or.inl (decodeHeader_incomplete rb 1 (by norm_num) (by norm_num) (by omega)
      (by intro i h1 h2; interval_cases i; exact c1))
  by_cases c2 : rb.peakAhead 2 % 256 &&& 128 = 0
  · exact Or.inr (Or.inl (fin 2 (by norm_num) (by norm_num) hu3
      (by intro i h1 h2; interval_cases i; exact c1) c2))
  by_cases hu4 : 4 ≤ rb.usedBytes
  swap
  · exact Or.inl (decodeHeader_incomplete rb 2 (by norm_num) (by norm_num) (by omega)
      (by intro i h1 h2; interval_cases i <;> assumption))
  by_cases c3 : rb.peakAhead 3 % 256 &&& 128 = 0
  · exact Or.inr (Or.inl (fin 3 (by norm_num) (by norm_num) hu4
      (by intro i h1 h2; interval_cases i <;> assumption) c3))
  by_cases hu5 : 5 ≤ rb.usedBytes
  swap
  · exact Or.inl (decodeHeader_incomplete rb 3 (by norm_num) (by norm_num) (by omega)
      (by intro i h1 h2; interval_cases i <;> assumption))
  by_cases c4 : rb.peakAhead 4 % 256 &&& 128 = 0
  · exact Or.inr (Or.inl (fin 4 (by norm_num) (by norm_num) hu5
      (by intro i h1 h2; interval_cases i <;> assumption) c4))
  · have hall : ∀ i, 1 ≤ i → i ≤ 4 → rb.peakAhead i % 256 &&& 128 ≠ 0 := by
      intro i h1 h2; interval_cases i <;> assumption
    exact Or.inr (Or.inr ⟨hu5, hall, decodeHeader_overlong rb hu5 hall⟩)

/-- What a decoded header tells: the field has `k` bytes (`1 ≤ k ≤ 4`), all
present, the continuation bit is set on all but the last, and the value is the
base-128 one. -/
theorem decodeHeader_decoded_inv (rb : CirBuf) (pl fhl : Nat)
    (h : decodeHeader rb = .decoded pl fhl) :
    ∃ k, 1 ≤ k ∧ k ≤ 4 ∧ fhl = k + 1 ∧ k + 1 ≤ rb.usedBytes
      ∧ (∀ i, 1 ≤ i → i < k → rb.peakAhead i % 256 &&& 128 ≠ 0)
      ∧ rb.peakAhead k % 256 &&& 128 = 0
      ∧ pl = remainingLengthValue rb k := by
  rcases decodeHeader_cases rb with h1 | ⟨k, hk1, hk4, hu, hc, hl, h2⟩ | ⟨_, _, h3⟩
  · rw [h1] at h; cases h
  · rw [h2] at h
    injection h with e1 e2
    exact ⟨k, hk1, hk4, e2.symm, hu, hc, hl, e1.symm⟩
  · rw [h3] at h; cases h

theorem decodeHeader_ne_outOfFuel (rb : CirBuf) : decodeHeader rb ≠ .outOfFuel := by
  rcases decodeHeader_cases rb with h1 | ⟨k, _, _, _, _, _, h2⟩ | ⟨_, _, h3⟩
  · rw [h1]; exact fun h => nomatch h
  · rw [h2]; exact fun h => nomatch h
  · rw [h3]; exact fun h => nomatch h

/-- The total length of a decoded header is at least 2 and below `2^29`. -/
theorem totalPacketLength_of_decoded (rb : CirBuf) (pl fhl : Nat)
    (h : decodeHeader rb = .decoded pl fhl) :
    totalPacketLength pl fhl = pl + fhl ∧ 2 ≤ fhl ∧ fhl ≤ 5 ∧ pl ≤ 128 ^ 4 - 1 := by
  obtain ⟨k, hk1, hk4, rfl, _, _, _, rfl⟩ := decodeHeader_decoded_inv rb pl fhl h
  have hle := remainingLengthValue_le rb k
  have hpow : 128 ^ k ≤ 128 ^ 4 := Nat.pow_le_pow_right (by norm_num) hk4
  refine ⟨?_, by omega, by omega, by omega⟩
  unfold totalPacketLength
  rw [sizeT_of_lt (by norm_num at hpow; omega)]

/-! ### The framing loop -/

/-- Framing a packet off the buffer consumes at least two bytes. -/
theorem usedBytes_after_packet {rb rb1 : CirBuf} {pl fhl : Nat} {p : MqttPacket}
    (hd : decodeHeader rb = .decoded pl fhl)
    (hfb : MqttPacket.fromBuffer rb (totalPacketLength pl fhl) fhl = some (p, rb1)) :
    rb1.usedBytes = rb.usedBytes - totalPacketLength pl fhl
      ∧ 2 ≤ totalPacketLength pl fhl ∧ totalPacketLength pl fhl ≤ rb.usedBytes := by
  obtain ⟨hL, hf2, _, _⟩ := totalPacketLength_of_decoded rb pl fhl hd
  obtain ⟨hadv, _, _⟩ := MqttPacket.fromBuffer_eq_some hfb
  have h1 : 1 ≤ totalPacketLength pl fhl := by omega
  exact ⟨CirBuf.usedBytes_advanceTail h1 hadv, by omega, (CirBuf.advanceTail_eq_some hadv).1⟩

/-- The fuel of the framing loop does not matter once it covers `usedBytes`. -/
theorem framingLoop_fuel (f1 : Nat) :
    ∀ (f2 : Nat) (auth : Bool) (A : Nat) (rb : CirBuf) (q : List MqttPacket),
      rb.usedBytes ≤ f1 → rb.usedBytes ≤ f2 →
      framingLoop f1 auth A rb q = framingLoop f2 auth A rb q := by
  induction f1 with
  | zero =>
    intro f2 auth A rb q h1 h2
    have hu : ¬ rb.usedBytes ≥ MQTT_HEADER_LENGH := by unfold MQTT_HEADER_LENGH; omega
    cases f2 with
    | zero => rfl
    | succ m => simp only [framingLoop, if_neg hu]
  | succ n ih =>
    intro f2 auth A rb q h1 h2
    cases f2 with
    | zero =>
      have hu : ¬ rb.usedBytes ≥ MQTT_HEADER_LENGH := by unfold MQTT_HEADER_LENGH; omega
      simp only [framingLoop, if_neg hu]
    | succ m =>
      simp only [framingLoop]
      by_cases hu : rb.usedBytes ≥ MQTT_HEADER_LENGH
      · simp only [if_pos hu]
        cases hd : decodeHeader rb with
        | thrown e => rfl
        | needMore => rfl
        | outOfFuel => rfl
        | decoded pl fhl =>
          dsimp only
          cases hfb : MqttPacket.fromBuffer rb (totalPacketLength pl fhl) fhl with
          | none => rfl
          | some pr =>
            obtain ⟨p, rb1⟩ := pr
            obtain ⟨hu1, hL2, hLu⟩ := usedBytes_after_packet hd hfb
            dsimp only
            rw [ih m auth A rb1 (q ++ [p]) (by omega) (by omega)]
      · simp only [if_neg hu]

/-- The framing loop never runs out of the fuel `bufferToMqttPackets` gives it. -/
theorem framingLoop_ne_outOfFuel (f : Nat) :
    ∀ (auth : Bool) (A : Nat) (rb : CirBuf) (q : List MqttPacket),
      rb.usedBytes ≤ f → framingLoop f auth A rb q ≠ .outOfFuel := by
  induction f with
  | zero =>
    intro auth A rb q h1
    have hu : ¬ rb.usedBytes ≥ MQTT_HEADER_LENGH := by unfold MQTT_HEADER_LENGH; omega
    simp only [framingLoop, if_neg hu]
    exact fun h => nomatch h
  | succ n ih =>
    intro auth A rb q h1
    simp only [framingLoop]
    by_cases hu : rb.usedBytes ≥ MQTT_HEADER_LENGH
    · simp only [if_pos hu]
      cases hd : decodeHeader rb with
      | thrown e => exact fun h => nomatch h
      | needMore => exact fun h => nomatch h
      | outOfFuel =>
        exact absurd hd (decodeHeader_ne_outOfFuel rb)
      | decoded pl fhl =>
        dsimp only
        split_ifs
        · exact fun h => nomatch h
        · exact fun h => nomatch h
        · cases hfb : MqttPacket.fromBuffer rb (totalPacketLength pl fhl) fhl with
          | none => exact fun h => nomatch h
          | some pr =>
            obtain ⟨p, rb1⟩ := pr
            obtain ⟨hu1, hL2, hLu⟩ := usedBytes_after_packet hd hfb
            exact ih auth A rb1 (q ++ [p]) (by omega)
        · exact fun h => nomatch h
    · simp only [if_neg hu]
      exact fun h => nomatch h

/-- The end of `bufferToMqttPackets` (line 355 on) never raises a ProtocolError. -/
theorem setReadyForReading_not_ProtocolError (c : Client) (val : Bool)
    (epollCtl : Option String) (q : List MqttPacket) :
    (match setReadyForReading c val epollCtl with
      | .returned _ c2 => (Outcome.returned true (c2, q) : Outcome (Client × List MqttPacket) Bool)
      | .threw e c2 => .threw e (c2, q)
      | .aborted => .aborted
      | .outOfFuel => .outOfFuel).threwKind ErrorKind.ProtocolError = false := by
  unfold setReadyForReading
  by_cases hd : c.disconnecting = true
  · simp [hd, Outcome.threwKind]
  · by_cases hv : (val == c.readyForReading) = true
    · simp [hd, hv, Outcome.threwKind]
    · cases epollCtl with
      | none => simp [hd, hv, Outcome.threwKind]
      | some msg => simp [hd, hv, Outcome.threwKind, runtime_error]

/-- The first packet is complete and within the limits: it is framed, and the call
goes on as a call on the rest of the buffer. -/
theorem bufferToMqttPackets_frame_first (c : Client) (A : Nat) (q : List MqttPacket)
    (epollCtl : Option String) (pl fhl : Nat) (p : MqttPacket) (rb1 : CirBuf)
    (hd : decodeHeader c.readbuf = .decoded pl fhl)
    (hsmall : ¬ (c.authenticated = false ∧ 1048576 ≤ totalPacketLength pl fhl))
    (hmax : ¬ A < totalPacketLength pl fhl)
    (hfb : MqttPacket.fromBuffer c.readbuf (totalPacketLength pl fhl) fhl = some (p, rb1)) :
    bufferToMqttPackets c A q epollCtl
      = bufferToMqttPackets { c with readbuf := rb1 } A (q ++ [p]) epollCtl := by
  obtain ⟨hu1, hL2, hLu⟩ := usedBytes_after_packet hd hfb
  obtain ⟨f, hf⟩ : ∃ f, c.readbuf.usedBytes = f + 1 := ⟨c.readbuf.usedBytes - 1, by omega⟩
  have hu : c.readbuf.usedBytes ≥ MQTT_HEADER_LENGH := by unfold MQTT_HEADER_LENGH; omega
  have h1 : (!c.authenticated && decide (totalPacketLength pl fhl ≥ 1024 * 1024)) = false := by
    cases ha : c.authenticated
    · have : ¬ 1048576 ≤ totalPacketLength pl fhl := fun h => hsmall ⟨ha, h⟩
      simp [this]
    · simp
  have h2 : ¬ totalPacketLength pl fhl > A := hmax
  have hstep : framingLoop c.readbuf.usedBytes c.authenticated A c.readbuf q
      = framingLoop rb1.usedBytes c.authenticated A rb1 (q ++ [p]) := by
    rw [hf]
    simp only [framingLoop, if_pos hu, hd, h1, if_neg h2, if_pos hLu, hfb]
    simp only [Bool.false_eq_true, if_false]
    exact framingLoop_fuel f _ _ _ _ _ (by omega) (le_refl _)
  unfold bufferToMqttPackets
  rw [hstep]

/-- The first packet breaks a size limit: `ProtocolError`. -/
theorem bufferToMqttPackets_size_limit (c : Client) (A : Nat) (q : List MqttPacket)
    (epollCtl : Option String) (pl fhl : Nat)
    (hd : decodeHeader c.readbuf = .decoded pl fhl)
    (hbig : (c.authenticated = false ∧ 1048576 ≤ totalPacketLength pl fhl)
      ∨ A < totalPacketLength pl fhl) :
    (bufferToMqttPackets c A q epollCtl).threwKind ErrorKind.ProtocolError = true := by
  obtain ⟨_, hf2, _, _⟩ := totalPacketLength_of_decoded c.readbuf pl fhl hd
  obtain ⟨k, _, _, _, hk, _⟩ := decodeHeader_decoded_inv c.readbuf pl fhl hd
  obtain ⟨f, hf⟩ : ∃ f, c.readbuf.usedBytes = f + 1 := ⟨c.readbuf.usedBytes - 1, by omega⟩
  have hu : c.readbuf.usedBytes ≥ MQTT_HEADER_LENGH := by unfold MQTT_HEADER_LENGH; omega
  unfold bufferToMqttPackets
  rw [hf]
  by_cases h1 : (!c.authenticated && decide (totalPacketLength pl fhl ≥ 1024 * 1024)) = true
  · simp only [framingLoop, if_pos hu, hd, h1, if_true]
    rfl
  · have h2 : totalPacketLength pl fhl > A := by
      rcases hbig with ⟨ha, hb⟩ | hb
      · exfalso; apply h1; simp [ha, hb]
      · exact hb
    simp only [framingLoop, if_pos hu, hd, h1, if_pos h2]
    rfl

/-- The first packet is within the limits and not yet complete: the loop ends, no
ProtocolError. -/
theorem bufferToMqttPackets_incomplete_payload (c : Client) (A : Nat) (q : List MqttPacket)
    (epollCtl : Option String) (pl fhl : Nat)
    (hd : decodeHeader c.readbuf = .decoded pl fhl)
    (hsmall : ¬ (c.authenticated = false ∧ 1048576 ≤ totalPacketLength pl fhl))
    (hmax : ¬ A < totalPacketLength pl fhl)
    (hinc : c.readbuf.usedBytes < totalPacketLength pl fhl) :
    (bufferToMqttPackets c A q epollCtl).threwKind ErrorKind.ProtocolError = false := by
  obtain ⟨_, hf2, _, _⟩ := totalPacketLength_of_decoded c.readbuf pl fhl hd
  obtain ⟨k, _, _, _, hk, _⟩ := decodeHeader_decoded_inv c.readbuf pl fhl hd
  obtain ⟨f, hf⟩ : ∃ f, c.readbuf.usedBytes = f + 1 := ⟨c.readbuf.usedBytes - 1, by omega⟩
  have hu : c.readbuf.usedBytes ≥ MQTT_HEADER_LENGH := by unfold MQTT_HEADER_LENGH; omega
  have h1 : (!c.authenticated && decide (totalPacketLength pl fhl ≥ 1024 * 1024)) = false := by
    cases ha : c.authenticated
    · have : ¬ 1048576 ≤ totalPacketLength pl fhl := fun h => hsmall ⟨ha, h⟩
      simp [this]
    · simp
  have h2 : ¬ totalPacketLength pl fhl > A := hmax
  have h3 : ¬ totalPacketLength pl fhl ≤ c.readbuf.usedBytes := by omega
  unfold bufferToMqttPackets
  have hloop : framingLoop c.readbuf.usedBytes c.authenticated A c.readbuf q
      = .returned .loopEnd (c.readbuf, q) := by
    rw [hf]
    simp only [framingLoop, if_pos hu, hd, h1, if_neg h2, if_neg h3]
    simp
  rw [hloop]
  exact setReadyForReading_not_ProtocolError _ _ _ _

/-- Fewer than two bytes in the buffer: the loop is not entered, no ProtocolError. -/
theorem bufferToMqttPackets_short (c : Client) (A : Nat) (q : List MqttPacket)
    (epollCtl : Option String) (hshort : c.readbuf.usedBytes < 2) :
    (bufferToMqttPackets c A q epollCtl).threwKind ErrorKind.ProtocolError = false := by
  have hu : ¬ c.readbuf.usedBytes ≥ MQTT_HEADER_LENGH := by unfold MQTT_HEADER_LENGH; omega
  have hloop : framingLoop c.readbuf.usedBytes c.authenticated A c.readbuf q
      = .returned .loopEnd (c.readbuf, q) := by
    cases c.readbuf.usedBytes with
    | zero => simp only [framingLoop, if_neg hu]
    | succ n => simp only [framingLoop, if_neg hu]
  unfold bufferToMqttPackets
  rw [hloop]
  exact setReadyForReading_not_ProtocolError _ _ _ _

/-! ### C4 -/

theorem totalPacketLength_wellformed (rb : CirBuf) (k : Nat) (hk4 : k ≤ 4) :
    totalPacketLength (remainingLengthValue rb k) (k + 1) = announcedLength rb k := by
  unfold announcedLength
  rw [← remainingLengthValue_eq_sum_Icc]
  have hle := remainingLengthValue_le rb k
  have hpow : 128 ^ k ≤ 128 ^ 4 := Nat.pow_le_pow_right (by norm_num) hk4
  unfold totalPacketLength
  rw [sizeT_of_lt (by norm_num at hpow; omega)]
  omega

/-- C4, as the code has it: when the first header in the buffer is completely
received and validly encoded, announcing the total length `L`, `bufferToMqttPackets`
raises ProtocolError exactly if `L` breaks a size limit (unauthenticated and
`L ≥ 1048576`, or `L > ABSOLUTE_MAX_PACKET_SIZE`) or the first packet is complete and
the call on the rest of the buffer raises ProtocolError; with fewer than `L + 2`
bytes in the buffer (no further header) it raises exactly if `L` breaks a size
limit, however many payload bytes have arrived. -/
theorem bufferToMqttPackets_ProtocolError_iff (c : Client) (A : Nat) (q : List MqttPacket)
    (epollCtl : Option String) (k : Nat) (hk1 : 1 ≤ k) (hk4 : k ≤ 4)
    (hused : k + 1 ≤ c.readbuf.usedBytes)
    (hcont : ∀ i, 1 ≤ i → i < k → c.readbuf.peakAhead i % 256 &&& 128 ≠ 0)
    (hlast : c.readbuf.peakAhead k % 256 &&& 128 = 0) :
    ((bufferToMqttPackets c A q epollCtl).threwKind ErrorKind.ProtocolError = true ↔
      ((c.authenticated = false ∧ 1048576 ≤ announcedLength c.readbuf k)
        ∨ A < announcedLength c.readbuf k)
      ∨ (announcedLength c.readbuf k ≤ c.readbuf.usedBytes
        ∧ ∃ p rb1,
          MqttPacket.fromBuffer c.readbuf (announcedLength c.readbuf k) (k + 1) = some (p, rb1)
          ∧ (bufferToMqttPackets { c with readbuf := rb1 } A (q ++ [p]) epollCtl).threwKind
              ErrorKind.ProtocolError = true))
    ∧ (c.readbuf.usedBytes < announcedLength c.readbuf k + 2 →
      ((bufferToMqttPackets c A q epollCtl).threwKind ErrorKind.ProtocolError = true ↔
        (c.authenticated = false ∧ 1048576 ≤ announcedLength c.readbuf k)
          ∨ A < announcedLength c.readbuf k)) := by
  have hd := decodeHeader_wellformed c.readbuf k hk1 hk4 hused hcont hlast
  have hL := totalPacketLength_wellformed c.readbuf k hk4
  by_cases hbig : (c.authenticated = false ∧ 1048576 ≤ announcedLength c.readbuf k)
      ∨ A < announcedLength c.readbuf k
  · have hthrow := bufferToMqttPackets_size_limit c A q epollCtl _ _ hd (by rw [hL]; exact hbig)
    exact ⟨⟨fun _ => Or.inl hbig, fun _ => hthrow⟩, fun _ => ⟨fun _ => hbig, fun _ => hthrow⟩⟩
  · have hsmall : ¬ (c.authenticated = false
        ∧ 1048576 ≤ totalPacketLength (remainingLengthValue c.readbuf k) (k + 1)) := by
      rw [hL]; exact fun h => hbig (Or.inl h)
    have hmax : ¬ A < totalPacketLength (remainingLengthValue c.readbuf k) (k + 1) := by
      rw [hL]; exact fun h => hbig (Or.inr h)
    by_cases hfull : announcedLength c.readbuf k ≤ c.readbuf.usedBytes
    · obtain ⟨p, rb1, hfb⟩ := MqttPacket.fromBuffer_isSome (k + 1) hfull
      have hfb2 : MqttPacket.fromBuffer c.readbuf
          (totalPacketLength (remainingLengthValue c.readbuf k) (k + 1)) (k + 1)
          = some (p, rb1) := by rw [hL]; exact hfb
      have hstep := bufferToMqttPackets_frame_first c A q epollCtl _ _ p rb1 hd hsmall hmax hfb2
      obtain ⟨hu1, _, _⟩ := usedBytes_after_packet hd hfb2
      rw [hL] at hu1
      constructor
      · rw [hstep]
        constructor
        · intro h
          exact Or.inr ⟨hfull, p, rb1, hfb, h⟩
        · rintro (h | ⟨_, p2, rb2, hfb3, h⟩)
          · exact absurd h hbig
          · rw [hfb] at hfb3
            injection hfb3 with e
            injection e with e1 e2
            subst e1 e2
            exact h
      · intro hno
        rw [hstep, bufferToMqttPackets_short _ A _ epollCtl (by simp only; omega)]
        simp [hbig]
    · have hnone := bufferToMqttPackets_incomplete_payload c A q epollCtl _ _ hd hsmall hmax
        (by rw [hL]; omega)
      constructor
      · rw [hnone]
        constructor
        · intro h; cases h
        · rintro (h | ⟨h, _⟩)
          · exact absurd h hbig
          · exact absurd h hfull
      · intro _
        rw [hnone]
        simp [hbig]

/-- An instance: an authenticated client and the header of a packet of 2 MiB + 5
bytes. -/
theorem bufferToMqttPackets_ProtocolError_iff_witness :
    (1 ≤ 4 ∧ 4 ≤ 4 ∧ 4 + 1 ≤ clientBigPacketHeader.readbuf.usedBytes
      ∧ (∀ i, 1 ≤ i → i < 4 → clientBigPacketHeader.readbuf.peakAhead i % 256 &&& 128 ≠ 0)
      ∧ clientBigPacketHeader.readbuf.peakAhead 4 % 256 &&& 128 = 0)
    ∧ ((bufferToMqttPackets clientBigPacketHeader 268435456 [] none).threwKind
          ErrorKind.ProtocolError = true ↔
        ((clientBigPacketHeader.authenticated = false
            ∧ 1048576 ≤ announcedLength clientBigPacketHeader.readbuf 4)
          ∨ 268435456 < announcedLength clientBigPacketHeader.readbuf 4)
        ∨ (announcedLength clientBigPacketHeader.readbuf 4
              ≤ clientBigPacketHeader.readbuf.usedBytes
          ∧ ∃ p rb1,
            MqttPacket.fromBuffer clientBigPacketHeader.readbuf
              (announcedLength clientBigPacketHeader.readbuf 4) (4 + 1) = some (p, rb1)
            ∧ (bufferToMqttPackets { clientBigPacketHeader with readbuf := rb1 } 268435456
                ([] ++ [p]) none).threwKind ErrorKind.ProtocolError = true))
    ∧ (clientBigPacketHeader.readbuf.usedBytes
          < announcedLength clientBigPacketHeader.readbuf 4 + 2 →
        ((bufferToMqttPackets clientBigPacketHeader 268435456 [] none).threwKind
            ErrorKind.ProtocolError = true ↔
          (clientBigPacketHeader.authenticated = false
              ∧ 1048576 ≤ announcedLength clientBigPacketHeader.readbuf 4)
            ∨ 268435456 < announcedLength clientBigPacketHeader.readbuf 4)) :=
  have h1 : 1 ≤ 4 := by decide
  have h2 : 4 ≤ 4 := by decide
  have h3 : 4 + 1 ≤ clientBigPacketHeader.readbuf.usedBytes := by decide
  have h4 : ∀ i, 1 ≤ i → i < 4 →
      clientBigPacketHeader.readbuf.peakAhead i % 256 &&& 128 ≠ 0 := by
    intro i hi1 hi2
    interval_cases i <;> decide
  have h5 : clientBigPacketHeader.readbuf.peakAhead 4 % 256 &&& 128 = 0 := by decide
  ⟨⟨h1, h2, h3, h4, h5⟩,
    bufferToMqttPackets_ProtocolError_iff clientBigPacketHeader 268435456 [] none 4
      h1 h2 h3 h4 h5⟩

/-- An authenticated client that announces a packet of 2 MiB + 5 bytes, within
`ABSOLUTE_MAX_PACKET_SIZE = 268435456`, is not rejected: the call returns true and
waits for the payload. -/
theorem bufferToMqttPackets_big_authenticated_accepted :
    announcedLength clientBigPacketHeader.readbuf 4 = 2097157
    ∧ bufferToMqttPackets clientBigPacketHeader 268435456 [] none
      = .returned true (clientBigPacketHeader, []) := by
  constructor
  · simp [announcedLength, Finset.sum_Icc_succ_top]
    decide
  · decide

/-- C4, counterexample: the first packet in the buffer is a complete PINGREQ with
a one-byte remaining-length field and total length `L = 2`; `L` breaks no size limit
(`L < 1048576` and `L ≤ ABSOLUTE_MAX_PACKET_SIZE = 268435456`), and yet
`bufferToMqttPackets` raises ProtocolError, on account of the bytes after it. -/
theorem bufferToMqttPackets_ProtocolError_from_later_packet :
    (1 + 1 ≤ clientPingreqThenOverlong.readbuf.usedBytes
      ∧ clientPingreqThenOverlong.readbuf.peakAhead 1 % 256 &&& 128 = 0)
    ∧ announcedLength clientPingreqThenOverlong.readbuf 1 = 2
    ∧ ¬ ((clientPingreqThenOverlong.authenticated = false
          ∧ 1048576 ≤ announcedLength clientPingreqThenOverlong.readbuf 1)
        ∨ 268435456 < announcedLength clientPingreqThenOverlong.readbuf 1)
    ∧ (bufferToMqttPackets clientPingreqThenOverlong 268435456 [] none).threwKind
        ErrorKind.ProtocolError = true := by
  have hL : announcedLength clientPingreqThenOverlong.readbuf 1 = 2 := by
    simp [announcedLength]
    decide
  refine ⟨⟨by decide, by decide⟩, hL, ?_, by decide⟩
  rw [hL]
  decide

/-! ### Lists and the logical content of the buffer -/

theorem list_ext_getD {l1 l2 : List Nat} (hl : l1.length = l2.length)
    (h : ∀ i, i < l1.length → l1.getD i 0 = l2.getD i 0) : l1 = l2 := by
  apply List.ext_getElem hl
  intro n h1 h2
  have h3 := h n h1
  rw [List.getD_eq_getElem _ _ h1, List.getD_eq_getElem _ _ h2] at h3
  exact h3

theorem getD_map_range (f : Nat → Nat) (n i : Nat) (hi : i < n) :
    ((List.range n).map f).getD i 0 = f i := by
  rw [List.getD_eq_getElem _ _ (by simpa using hi)]
  simp

theorem getD_append_right_add (P T : List Nat) (i : Nat) :
    (P ++ T).getD (P.length + i) 0 = T.getD i 0 := by
  rw [List.getD_append_right _ _ _ _ (by omega)]
  simp

theorem CirBuf.length_contents (b : CirBuf) : b.contents.length = b.usedBytes := by
  simp [CirBuf.contents]

theorem CirBuf.getD_contents (b : CirBuf) (i : Nat) (hi : i < b.usedBytes) :
    b.contents.getD i 0 = b.peakAhead i :=
  getD_map_range _ _ _ hi

/-- The bytes of a leading segment of the content, seen through `peakAhead`. -/
theorem CirBuf.peakAhead_of_contents {b : CirBuf} {P T : List Nat}
    (hc : b.contents = P ++ T) (i : Nat) (hi : i < P.length) :
    b.peakAhead i = P.getD i 0 := by
  have hlen : b.usedBytes = P.length + T.length := by
    rw [← CirBuf.length_contents, hc, List.length_append]
  rw [← CirBuf.getD_contents b i (by omega), hc, List.getD_append _ _ _ _ hi]

/-- Framing `P.length` bytes off a buffer whose content is `P ++ T` gives the bytes
`P` and leaves the content `T`. -/
theorem fromBuffer_of_contents {rb rb1 : CirBuf} {P T : List Nat} {fhl : Nat}
    {p : MqttPacket} (hc : rb.contents = P ++ T) (hP : 1 ≤ P.length)
    (hfb : MqttPacket.fromBuffer rb P.length fhl = some (p, rb1)) :
    p.bites = P ∧ rb1.contents = T ∧ rb1.usedBytes + P.length = rb.usedBytes := by
  obtain ⟨hadv, hb, _⟩ := MqttPacket.fromBuffer_eq_some hfb
  have hlen : rb.usedBytes = P.length + T.length := by
    rw [← CirBuf.length_contents, hc, List.length_append]
  have hu1 := CirBuf.usedBytes_advanceTail hP hadv
  refine ⟨?_, ?_, by omega⟩
  · rw [hb]
    apply list_ext_getD (by simp)
    intro i hi
    have hi2 : i < P.length := by simpa using hi
    rw [getD_map_range _ _ _ hi2, CirBuf.peakAhead_of_contents hc i hi2]
  · apply list_ext_getD (by rw [CirBuf.length_contents]; omega)
    intro i hi
    rw [CirBuf.length_contents] at hi
    rw [CirBuf.getD_contents _ _ hi, CirBuf.peakAhead_advanceTail hadv,
      ← CirBuf.getD_contents rb _ (by omega), hc, getD_append_right_add]

/-- The header of a well-formed packet at the front of the content is decoded,
and the total length computed is the length of the packet. -/
theorem decodeHeader_of_contents {rb : CirBuf} {P T : List Nat}
    (hc : rb.contents = P ++ T) (hP : IsPacket P) :
    ∃ k, 1 ≤ k ∧ k ≤ 4
      ∧ decodeHeader rb = .decoded (remainingLengthValue rb k) (k + 1)
      ∧ totalPacketLength (remainingLengthValue rb k) (k + 1) = P.length
      ∧ P.length ≤ rb.usedBytes := by
  obtain ⟨k, hk1, hk4, hkl, hcont, hlast, hlen⟩ := hP
  have hused : rb.usedBytes = P.length + T.length := by
    rw [← CirBuf.length_contents, hc, List.length_append]
  have hpk : ∀ i, i ≤ k → rb.peakAhead i = P.getD i 0 :=
    fun i hi => CirBuf.peakAhead_of_contents hc i (by omega)
  refine ⟨k, hk1, hk4, ?_, ?_, by omega⟩
  · apply decodeHeader_wellformed rb k hk1 hk4 (by omega)
    · intro i hi1 hi2
      rw [hpk i (by omega)]
      exact hcont i hi1 hi2
    · rw [hpk k (le_refl _)]
      exact hlast
  · rw [totalPacketLength_wellformed rb k hk4, hlen]
    unfold announcedLength
    congr 1
    apply Finset.sum_congr rfl
    intro i hi
    rw [Finset.mem_Icc] at hi
    rw [hpk i hi.2]

/-! ### C2 -/

theorem framingLoop_short (f : Nat) (auth : Bool) (A : Nat) (rb : CirBuf)
    (q : List MqttPacket) (hshort : rb.usedBytes < 2) :
    framingLoop f auth A rb q = .returned .loopEnd (rb, q) := by
  have hu : ¬ rb.usedBytes ≥ MQTT_HEADER_LENGH := by unfold MQTT_HEADER_LENGH; omega
  cases f with
  | zero => simp only [framingLoop, if_neg hu]
  | succ n => simp only [framingLoop, if_neg hu]

theorem framingLoop_needMore (f : Nat) (auth : Bool) (A : Nat) (rb : CirBuf)
    (q : List MqttPacket) (hu2 : 2 ≤ rb.usedBytes) (hf : rb.usedBytes ≤ f)
    (hd : decodeHeader rb = .needMore) :
    framingLoop f auth A rb q = .returned .returnFalse (rb, q) := by
  obtain ⟨n, rfl⟩ : ∃ n, f = n + 1 := ⟨f - 1, by omega⟩
  have hu : rb.usedBytes ≥ MQTT_HEADER_LENGH := hu2
  simp only [framingLoop, if_pos hu, hd]

theorem framingLoop_incomplete (f : Nat) (auth : Bool) (A : Nat) (rb : CirBuf)
    (q : List MqttPacket) (pl fhl : Nat) (hf : rb.usedBytes ≤ f)
    (hd : decodeHeader rb = .decoded pl fhl)
    (hlim : WithinLimits auth A (totalPacketLength pl fhl))
    (hinc : rb.usedBytes < totalPacketLength pl fhl) :
    framingLoop f auth A rb q = .returned .loopEnd (rb, q) := by
  obtain ⟨k, _, _, _, hk, _⟩ := decodeHeader_decoded_inv rb pl fhl hd
  obtain ⟨n, rfl⟩ : ∃ n, f = n + 1 := ⟨f - 1, by omega⟩
  have hu : rb.usedBytes ≥ MQTT_HEADER_LENGH := by unfold MQTT_HEADER_LENGH; omega
  have h1 : (!auth && decide (totalPacketLength pl fhl ≥ 1024 * 1024)) = false := by
    cases ha : auth
    · have : ¬ 1048576 ≤ totalPacketLength pl fhl := fun h => hlim (Or.inl ⟨ha, h⟩)
      simp [this]
    · simp
  have h2 : ¬ totalPacketLength pl fhl > A := fun h => hlim (Or.inr h)
  have h3 : ¬ totalPacketLength pl fhl ≤ rb.usedBytes := by omega
  simp only [framingLoop, if_pos hu, hd, h1, if_neg h2, if_neg h3]
  simp

/-- What `setReadyForReading` leaves: a client with the same buffers; and it returns
when `epoll_ctl` does not fail. -/
theorem setReadyForReading_state (c : Client) (val : Bool) (epollCtl : Option String) :
    ∃ c2, (setReadyForReading c val epollCtl).state? = some c2 ∧ c2.readbuf = c.readbuf
      ∧ (epollCtl = none → setReadyForReading c val epollCtl = .returned () c2) := by
  unfold setReadyForReading
  by_cases hd : c.disconnecting = true
  · exact ⟨c, by simp [hd, Outcome.state?], rfl, fun _ => by simp [hd]⟩
  · by_cases hv : (val == c.readyForReading) = true
    · exact ⟨c, by simp [hd, hv, Outcome.state?], rfl, fun _ => by simp [hd, hv]⟩
    · cases epollCtl with
      | none =>
        exact ⟨{ c with readyForReading := val, epollInterest := (val, c.readyForWriting) },
          by simp [hd, hv, Outcome.state?], rfl, fun _ => by simp [hd, hv]⟩
      | some msg =>
        exact ⟨{ c with readyForReading := val }, by simp [hd, hv, Outcome.state?], rfl,
          fun h => by cases h⟩

/-- The call when the loop is left at its end with buffer `rb` and list `q1`. -/
theorem bufferToMqttPackets_of_loopEnd (c : Client) (A : Nat) (q q1 : List MqttPacket)
    (epollCtl : Option String) (rb : CirBuf)
    (h : framingLoop c.readbuf.usedBytes c.authenticated A c.readbuf q
      = .returned .loopEnd (rb, q1)) :
    ∃ c1, (bufferToMqttPackets c A q epollCtl).state? = some (c1, q1) ∧ c1.readbuf = rb
      ∧ (epollCtl = none →
          ∃ ret, bufferToMqttPackets c A q epollCtl = .returned ret (c1, q1)) := by
  obtain ⟨c2, h1, h2, h3⟩ := setReadyForReading_state { c with readbuf := rb }
    (decide (rb.freeSpace > 0)) epollCtl
  refine ⟨c2, ?_, h2, ?_⟩
  · unfold bufferToMqttPackets
    rw [h]
    dsimp only
    cases hs : setReadyForReading { c with readbuf := rb } (decide (rb.freeSpace > 0)) epollCtl
      <;> rw [hs] at h1 <;> simp [Outcome.state?] at h1 ⊢ <;> exact h1
  · intro he
    refine ⟨true, ?_⟩
    unfold bufferToMqttPackets
    rw [h]
    dsimp only
    rw [h3 he]

/-- The call when the loop is left by its `return false`. -/
theorem bufferToMqttPackets_of_returnFalse (c : Client) (A : Nat) (q q1 : List MqttPacket)
    (epollCtl : Option String) (rb : CirBuf)
    (h : framingLoop c.readbuf.usedBytes c.authenticated A c.readbuf q
      = .returned .returnFalse (rb, q1)) :
    bufferToMqttPackets c A q epollCtl = .returned false ({ c with readbuf := rb }, q1) := by
  unfold bufferToMqttPackets
  rw [h]

/-- The buffer holds only a strict part of a packet (or nothing): nothing is framed
and the buffer is left as it is. -/
theorem bufferToMqttPackets_rest (c : Client) (A : Nat) (q : List MqttPacket)
    (epollCtl : Option String) (rest : List Nat) (hc : c.readbuf.contents = rest)
    (hrest : rest = [] ∨ ∃ suffix, suffix ≠ [] ∧ IsPacket (rest ++ suffix)
      ∧ WithinLimits c.authenticated A (rest ++ suffix).length) :
    ∃ c1, (bufferToMqttPackets c A q epollCtl).state? = some (c1, q)
      ∧ c1.readbuf = c.readbuf
      ∧ (epollCtl = none →
          ∃ ret, bufferToMqttPackets c A q epollCtl = .returned ret (c1, q)) := by
  have hlen : c.readbuf.usedBytes = rest.length := by rw [← CirBuf.length_contents, hc]
  by_cases hshort : c.readbuf.usedBytes < 2
  · exact bufferToMqttPackets_of_loopEnd c A q q epollCtl c.readbuf
      (framingLoop_short _ _ _ _ _ hshort)
  have hu2 : 2 ≤ c.readbuf.usedBytes := by omega
  rcases hrest with hnil | ⟨suffix, hsuf, ⟨k, hk1, hk4, hkl, hcont, hlast, hFlen⟩, hlim⟩
  · subst hnil
    simp at hlen
    omega
  have hsl : 1 ≤ suffix.length := by
    cases suffix with
    | nil => exact absurd rfl hsuf
    | cons a t => simp
  have hpk : ∀ i, i < rest.length → c.readbuf.peakAhead i = (rest ++ suffix).getD i 0 := by
    intro i hi
    rw [CirBuf.peakAhead_of_contents (T := []) (by rw [hc]; simp) i hi,
      List.getD_append _ _ _ _ hi]
  rcases decodeHeader_cases c.readbuf with h1 | ⟨k2, hk21, hk24, hu, hc2, hl2, h2⟩
      | ⟨hu5, hall, _⟩
  · have hrf := bufferToMqttPackets_of_returnFalse c A q q epollCtl c.readbuf
      (framingLoop_needMore _ _ _ _ _ hu2 (le_refl _) h1)
    exact ⟨c, by rw [hrf]; rfl, rfl, fun _ => ⟨false, hrf⟩⟩
  · have hkk : k2 = k := by
      rcases Nat.lt_trichotomy k k2 with hlt | heq | hgt
      · exfalso
        apply hc2 k hk1 hlt
        rw [hpk k (by omega)]
        exact hlast
      · exact heq.symm
      · exfalso
        apply hcont k2 hk21 hgt
        rw [← hpk k2 (by omega)]
        exact hl2
    subst hkk
    have htot : totalPacketLength (remainingLengthValue c.readbuf k2) (k2 + 1)
        = (rest ++ suffix).length := by
      rw [totalPacketLength_wellformed c.readbuf k2 hk24, hFlen]
      unfold announcedLength
      congr 1
      apply Finset.sum_congr rfl
      intro i hi
      rw [Finset.mem_Icc] at hi
      rw [hpk i (by omega)]
    refine bufferToMqttPackets_of_loopEnd c A q q epollCtl c.readbuf
      (framingLoop_incomplete _ _ _ _ _ _ _ (le_refl _) h2 (by rw [htot]; exact hlim) ?_)
    rw [htot, List.length_append]
    omega
  · exfalso
    apply hall k hk1 hk4
    rw [hpk k (by omega)]
    exact hlast

/-- C2: if the content of the read buffer is `n` complete well-formed packets back to
back, followed by `rest`, which is empty or a strict leading part of one more packet,
and no packet breaks a size limit, then `bufferToMqttPackets` appends exactly those
`n` packets, in order, to the output list, takes the sum of their lengths out of
the buffer, and leaves the content `rest`; it returns unless `epoll_ctl` fails. -/
theorem bufferToMqttPackets_frames_all (packets : List (List Nat)) :
    ∀ (c : Client) (A : Nat) (q : List MqttPacket) (epollCtl : Option String)
      (rest : List Nat),
      c.readbuf.contents = packets.flatten ++ rest →
      (∀ P ∈ packets, IsPacket P ∧ WithinLimits c.authenticated A P.length) →
      (rest = [] ∨ ∃ suffix, suffix ≠ [] ∧ IsPacket (rest ++ suffix)
        ∧ WithinLimits c.authenticated A (rest ++ suffix).length) →
      ∃ c1 framed,
        (bufferToMqttPackets c A q epollCtl).state? = some (c1, q ++ framed)
        ∧ framed.map MqttPacket.bites = packets
        ∧ c1.readbuf.usedBytes + (packets.map List.length).sum = c.readbuf.usedBytes
        ∧ c1.readbuf.contents = rest
        ∧ (epollCtl = none →
            ∃ ret, bufferToMqttPackets c A q epollCtl = .returned ret (c1, q ++ framed)) := by
  induction packets with
  | nil =>
    intro c A q epollCtl rest hc _ hrest
    simp only [List.flatten_nil, List.nil_append] at hc
    obtain ⟨c1, h1, h2, h3⟩ := bufferToMqttPackets_rest c A q epollCtl rest hc hrest
    refine ⟨c1, [], by simpa using h1, rfl, by simp [h2], by rw [h2]; exact hc, ?_⟩
    simpa using h3
  | cons P packets ih =>
    intro c A q epollCtl rest hc hpk hrest
    rw [List.flatten_cons, List.append_assoc] at hc
    obtain ⟨hP, hPlim⟩ := hpk P (List.mem_cons_self _ _)
    obtain ⟨k, hk1, hk4, hd, htot, hPu⟩ := decodeHeader_of_contents hc hP
    have hP1 : 1 ≤ P.length := by
      obtain ⟨k2, _, _, hkl, _⟩ := hP
      omega
    obtain ⟨p, rb1, hfb⟩ := MqttPacket.fromBuffer_isSome (k + 1) hPu
    obtain ⟨hbites, hcont1, hused1⟩ := fromBuffer_of_contents hc hP1 hfb
    have hstep := bufferToMqttPackets_frame_first c A q epollCtl _ _ p rb1 hd
      (by rw [htot]; exact fun h => hPlim (Or.inl h))
      (by rw [htot]; exact fun h => hPlim (Or.inr h))
      (by rw [htot]; exact hfb)
    obtain ⟨c1, framed, h1, h2, h3, h4, h5⟩ :=
      ih { c with readbuf := rb1 } A (q ++ [p]) epollCtl rest hcont1
        (fun P2 hP2 => hpk P2 (List.mem_cons_of_mem _ hP2)) hrest
    refine ⟨c1, p :: framed, ?_, ?_, ?_, h4, ?_⟩
    · rw [hstep, h1]
      simp
    · simp [hbites, h2]
    · simp only [List.map_cons, List.sum_cons]
      simp only at h3
      omega
    · intro he
      obtain ⟨ret, hr⟩ := h5 he
      refine ⟨ret, ?_⟩
      rw [hstep, hr]
      simp

theorem isPacket_pingreq : IsPacket [192, 0] :=
  ⟨1, by decide, by decide, by decide, by intro i h1 h2; omega, by decide, by simp⟩

theorem isPacket_publish_two : IsPacket [48, 2, 65, 66] :=
  ⟨1, by decide, by decide, by decide, by intro i h1 h2; omega, by decide, by simp; decide⟩

theorem isPacket_publish_five : IsPacket ([48, 5, 1] ++ [2, 3, 4, 5]) :=
  ⟨1, by decide, by decide, by decide, by intro i h1 h2; omega, by decide, by simp; decide⟩

/-- An instance: two packets and the first three bytes of a third, wrapped around the
end of a buffer of 16 cells. -/
theorem bufferToMqttPackets_frames_all_witness :
    (clientTwoPacketsAndAPart.readbuf.contents
        = [[192, 0], [48, 2, 65, 66]].flatten ++ [48, 5, 1]
      ∧ (∀ P ∈ [[192, 0], [48, 2, 65, 66]],
          IsPacket P ∧ WithinLimits clientTwoPacketsAndAPart.authenticated 268435456 P.length)
      ∧ ([48, 5, 1] = [] ∨ ∃ suffix, suffix ≠ [] ∧ IsPacket ([48, 5, 1] ++ suffix)
          ∧ WithinLimits clientTwoPacketsAndAPart.authenticated 268435456
              ([48, 5, 1] ++ suffix).length))
    ∧ ∃ c1 framed,
        (bufferToMqttPackets clientTwoPacketsAndAPart 268435456 [] none).state?
          = some (c1, [] ++ framed)
        ∧ framed.map MqttPacket.bites = [[192, 0], [48, 2, 65, 66]]
        ∧ c1.readbuf.usedBytes + ([[192, 0], [48, 2, 65, 66]].map List.length).sum
            = clientTwoPacketsAndAPart.readbuf.usedBytes
        ∧ c1.readbuf.contents = [48, 5, 1]
        ∧ ((none : Option String) = none →
            ∃ ret, bufferToMqttPackets clientTwoPacketsAndAPart 268435456 [] none
              = .returned ret (c1, [] ++ framed)) :=
  have h1 : clientTwoPacketsAndAPart.readbuf.contents
      = [[192, 0], [48, 2, 65, 66]].flatten ++ [48, 5, 1] := by decide
  have h2 : ∀ P ∈ [[192, 0], [48, 2, 65, 66]],
      IsPacket P ∧ WithinLimits clientTwoPacketsAndAPart.authenticated 268435456 P.length := by
    intro P hP
    simp only [List.mem_cons, List.mem_singleton, List.not_mem_nil, or_false] at hP
    rcases hP with rfl | rfl
    · exact ⟨isPacket_pingreq, by unfold WithinLimits; simp⟩
    · exact ⟨isPacket_publish_two, by unfold WithinLimits; simp⟩
  have h3 : [48, 5, 1] = [] ∨ ∃ suffix, suffix ≠ [] ∧ IsPacket ([48, 5, 1] ++ suffix)
      ∧ WithinLimits clientTwoPacketsAndAPart.authenticated 268435456
          ([48, 5, 1] ++ suffix).length :=
    Or.inr ⟨[2, 3, 4, 5], by simp, isPacket_publish_five, by unfold WithinLimits; simp⟩
  ⟨⟨h1, h2, h3⟩,
    bufferToMqttPackets_frames_all [[192, 0], [48, 2, 65, 66]] clientTwoPacketsAndAPart
      268435456 [] none [48, 5, 1] h1 h2 h3⟩

/-! ### The circular buffer: writing at the head -/

theorem mod_cases (x S : Nat) (hx : x < 2 * S) :
    x % S = if x < S then x else x - S := by
  split
  · rename_i h; exact Nat.mod_eq_of_lt h
  · rename_i h
    rw [Nat.mod_eq_sub_mod (by omega), Nat.mod_eq_of_lt (by omega)]

theorem getD_set_ne (l : List Nat) (i j v : Nat) (h : i ≠ j) :
    (l.set i v).getD j 0 = l.getD j 0 := by
  simp [List.getD_eq_getElem?_getD, List.getElem?_set_ne h]

theorem getD_set_self (l : List Nat) (i v : Nat) (h : i < l.length) :
    (l.set i v).getD i 0 = v := by
  simp [List.getD_eq_getElem?_getD, List.getElem?_set_self, h]

/-- `usedBytes` of a buffer that satisfies the representation invariant. -/
theorem CirBuf.usedBytes_of_WF {b : CirBuf} (h : b.WF) :
    b.usedBytes = if b.tail ≤ b.head then b.head - b.tail else b.head + b.size - b.tail := by
  obtain ⟨hS, _, hh, ht⟩ := h
  unfold CirBuf.usedBytes
  rw [mod_cases _ _ (by omega)]
  split <;> split <;> omega

theorem CirBuf.usedBytes_lt_size {b : CirBuf} (h : b.WF) : b.usedBytes < b.size := by
  have h1 := CirBuf.usedBytes_of_WF h
  obtain ⟨hS, _, hh, ht⟩ := h
  split at h1 <;> omega

theorem CirBuf.freeSpace_add_usedBytes {b : CirBuf} (h : b.WF) :
    b.freeSpace + b.usedBytes = b.size - 1 := by
  have h1 := CirBuf.usedBytes_lt_size h
  unfold CirBuf.freeSpace
  omega

/-- One byte put at the head of a buffer with free space: the invariant holds, one
more byte is used, and the content has the byte at its end. -/
theorem CirBuf.putByte_spec {b : CirBuf} (h : b.WF) (hfree : 1 ≤ b.freeSpace) (v : Nat) :
    (b.putByte v).WF ∧ (b.putByte v).usedBytes = b.usedBytes + 1
      ∧ (b.putByte v).freeSpace + 1 = b.freeSpace
      ∧ (b.putByte v).size = b.size
      ∧ (b.putByte v).contents = b.contents ++ [v] := by
  have hu := CirBuf.usedBytes_of_WF h
  have hfu := CirBuf.freeSpace_add_usedBytes h
  obtain ⟨hS, hlen, hh, ht⟩ := h
  have hhead : (b.head + 1) % b.size = if b.head + 1 < b.size then b.head + 1 else 0 := by
    rw [mod_cases _ _ (by omega)]
    split <;> omega
  have hwf : (b.putByte v).WF := by
    refine ⟨hS, ?_, ?_, ht⟩
    · simp [CirBuf.putByte, hlen]
    · simp only [CirBuf.putByte]
      exact Nat.mod_lt _ hS
  have hu2 : (b.putByte v).usedBytes = b.usedBytes + 1 := by
    rw [CirBuf.usedBytes_of_WF hwf, hu]
    simp only [CirBuf.putByte, hhead]
    split at hu <;> split <;> split <;> omega
  have hfu2 := CirBuf.freeSpace_add_usedBytes hwf
  have hsz : (b.putByte v).size = b.size := rfl
  refine ⟨hwf, hu2, by rw [hsz] at hfu2; omega, hsz, ?_⟩
  apply list_ext_getD
  · simp [CirBuf.length_contents, hu2]
  · intro i hi
    rw [CirBuf.length_contents, hu2] at hi
    rw [CirBuf.getD_contents _ _ (by omega)]
    have hidx : (b.tail + i) % b.size
        = if b.tail + i < b.size then b.tail + i else b.tail + i - b.size := by
      apply mod_cases
      split at hu <;> omega
    by_cases hiu : i < b.usedBytes
    · rw [List.getD_append _ _ _ _ (by rw [CirBuf.length_contents]; exact hiu),
        CirBuf.getD_contents _ _ hiu]
      simp only [CirBuf.peakAhead, CirBuf.putByte]
      apply getD_set_ne
      rw [hidx]
      split at hu <;> split <;> omega
    · have hieq : i = b.usedBytes := by omega
      have hr : (b.contents ++ [v]).getD i 0 = v := by
        rw [hieq, ← CirBuf.length_contents b]
        simp
      rw [hr]
      simp only [CirBuf.peakAhead, CirBuf.putByte]
      have hpos : (b.tail + i) % b.size = b.head := by
        rw [hidx]
        split at hu <;> split <;> omega
      rw [hpos]
      exact getD_set_self _ _ _ (by omega)

/-- Bytes written to a buffer with enough free space: the invariant holds and the
content has the bytes at its end. -/
theorem CirBuf.write_spec (bytes : List Nat) :
    ∀ {b : CirBuf}, b.WF → bytes.length ≤ b.freeSpace →
      ∃ b1, b.write bytes = some b1 ∧ b1.WF ∧ b1.freeSpace + bytes.length = b.freeSpace
        ∧ b1.size = b.size ∧ b1.contents = b.contents ++ bytes := by
  induction bytes with
  | nil =>
    intro b h _
    exact ⟨b, by simp [CirBuf.write], h, by simp, rfl, by simp⟩
  | cons v t ih =>
    intro b h hfree
    simp only [List.length_cons] at hfree
    obtain ⟨hwf, _, hf1, hs1, hc1⟩ := CirBuf.putByte_spec h (by omega) v
    obtain ⟨b1, hw, hwf1, hf2, hs2, hc2⟩ := ih hwf (by omega)
    refine ⟨b1, ?_, hwf1, by simp only [List.length_cons]; omega, by rw [hs2, hs1], ?_⟩
    · unfold CirBuf.write at hw ⊢
      have hle : t.length ≤ (b.putByte v).freeSpace := by omega
      have hle2 : (v :: t).length ≤ b.freeSpace := by simp only [List.length_cons]; omega
      rw [if_pos hle] at hw
      rw [if_pos hle2]
      simpa using hw
    · rw [hc2, hc1]
      simp

theorem CirBuf.write_none {b : CirBuf} {bytes : List Nat} (h : b.freeSpace < bytes.length) :
    b.write bytes = none := by
  unfold CirBuf.write
  rw [if_neg (by omega)]

/-- The idiom `headPtr()[0] = v; advanceHead(1);` is `putByte`. -/
theorem CirBuf.poke_advance_eq (b : CirBuf) (v : Nat) :
    (b.pokeAtHead [v]).advanceHead 1
      = if 1 ≤ b.freeSpace then some (b.putByte v) else none := by
  have hr : List.range 1 = [0] := rfl
  simp [CirBuf.pokeAtHead, CirBuf.advanceHead, CirBuf.putByte, CirBuf.freeSpace,
    CirBuf.usedBytes, hr]

/-! ### The circular buffer: doubling -/

/-- Doubling keeps the invariant, the number of used bytes and the logical content. -/
theorem CirBuf.doubleSize_spec {b : CirBuf} (h : b.WF) :
    b.doubleSize.WF ∧ b.doubleSize.usedBytes = b.usedBytes
      ∧ b.doubleSize.contents = b.contents ∧ b.doubleSize.size = 2 * b.size
      ∧ b.doubleSize.tail = b.tail := by
  have hu := CirBuf.usedBytes_of_WF h
  have hlt := CirBuf.usedBytes_lt_size h
  obtain ⟨hS, hlen, hh, ht⟩ := h
  have hhead : b.doubleSize.head = b.tail + b.usedBytes := by
    simp only [CirBuf.doubleSize]
    exact Nat.mod_eq_of_lt (by omega)
  have hwf : b.doubleSize.WF := by
    refine ⟨?_, ?_, ?_, ?_⟩
    · simp only [CirBuf.doubleSize]; omega
    · simp [CirBuf.doubleSize]
    · rw [hhead]; simp only [CirBuf.doubleSize]; omega
    · simp only [CirBuf.doubleSize]; omega
  have hu2 : b.doubleSize.usedBytes = b.usedBytes := by
    rw [CirBuf.usedBytes_of_WF hwf, hhead]
    simp only [CirBuf.doubleSize]
    split <;> omega
  refine ⟨hwf, hu2, ?_, rfl, rfl⟩
  apply list_ext_getD
  · simp [CirBuf.length_contents, hu2]
  · intro i hi
    rw [CirBuf.length_contents, hu2] at hi
    rw [CirBuf.getD_contents _ _ (by omega), CirBuf.getD_contents _ _ hi]
    have hidx : (b.tail + i) % b.size
        = if b.tail + i < b.size then b.tail + i else b.tail + i - b.size :=
      mod_cases _ _ (by omega)
    have hidx2 : (b.tail + i) % (2 * b.size) = b.tail + i := Nat.mod_eq_of_lt (by omega)
    simp only [CirBuf.peakAhead, CirBuf.doubleSize, hidx2]
    rw [getD_map_range _ _ _ (by omega), hidx]
    simp only [CirBuf.maxReadSize]
    by_cases hth : b.tail ≤ b.head
    · rw [if_pos hth] at hu
      have c1 : b.tail ≤ b.tail + i ∧ b.tail + i < b.tail + (b.head - b.tail) := by omega
      have c0 : b.tail + i < b.size := by omega
      simp only [if_pos hth, if_pos c1, if_pos c0]
    · rw [if_neg hth] at hu
      simp only [if_neg hth]
      by_cases hw : b.tail + i < b.size
      · have c1 : b.tail ≤ b.tail + i ∧ b.tail + i < b.tail + (b.size - b.tail) := by omega
        simp only [if_pos c1, if_pos hw]
      · have c1 : ¬ (b.tail ≤ b.tail + i ∧ b.tail + i < b.tail + (b.size - b.tail)) := by omega
        have c2 : b.head < b.tail ∧ b.size ≤ b.tail + i ∧ b.tail + i < b.size + b.head := by
          omega
        simp only [if_neg c1, if_pos c2, if_neg hw]

/-- The doubling loop of `ensureFreeSpace` keeps the invariant and the content. -/
theorem CirBuf.ensureFreeSpaceLoop_spec (fuel : Nat) :
    ∀ (b : CirBuf) (n maxGrow : Nat), b.WF →
      (ensureFreeSpaceLoop fuel b n maxGrow).WF
        ∧ (ensureFreeSpaceLoop fuel b n maxGrow).contents = b.contents := by
  induction fuel with
  | zero => intro b n maxGrow h; exact ⟨h, rfl⟩
  | succ f ih =>
    intro b n maxGrow h
    simp only [ensureFreeSpaceLoop]
    split
    · exact ⟨h, rfl⟩
    · split
      · exact ⟨h, rfl⟩
      · obtain ⟨hwf, _, hc, _, _⟩ := CirBuf.doubleSize_spec h
        obtain ⟨h1, h2⟩ := ih b.doubleSize n maxGrow hwf
        exact ⟨h1, by rw [h2, hc]⟩

theorem CirBuf.ensureFreeSpace_spec {b : CirBuf} (n maxGrow : Nat) (h : b.WF) :
    (b.ensureFreeSpace n maxGrow).WF ∧ (b.ensureFreeSpace n maxGrow).contents = b.contents :=
  CirBuf.ensureFreeSpaceLoop_spec _ b n maxGrow h

/-! ### C6 -/

theorem MqttPacket.length_wireBytes (p : MqttPacket) :
    p.wireBytes.length = p.getSizeIncludingNonPresentHeader := by
  unfold MqttPacket.wireBytes MqttPacket.getSizeIncludingNonPresentHeader
  split
  · rfl
  · simp only [List.length_cons, List.length_append]
    omega

/-- The two writes of `writeMqttPacket` on a buffer with room for the packet. -/
theorem writeMqttPacketBytes_fits {wb : CirBuf} (p : MqttPacket) (h : wb.WF)
    (hfit : p.getSizeIncludingNonPresentHeader ≤ wb.freeSpace) :
    ∃ wb3, writeMqttPacketBytes wb p = some wb3 ∧ wb3.WF
      ∧ wb3.contents = wb.contents ++ p.wireBytes := by
  unfold writeMqttPacketBytes MqttPacket.wireBytes
  unfold MqttPacket.getSizeIncludingNonPresentHeader at hfit
  cases hc : p.containsFixedHeader
  · simp only [hc, Bool.false_eq_true, if_false] at hfit
    obtain ⟨hwf1, _, hf1, _, hc1⟩ := CirBuf.putByte_spec h (by omega) p.first_byte
    obtain ⟨wb2, hw2, hwf2, hf2, _, hc2⟩ :=
      CirBuf.write_spec p.remainingLength hwf1 (by omega)
    obtain ⟨wb3, hw3, hwf3, _, _, hc3⟩ := CirBuf.write_spec p.bites hwf2 (by omega)
    refine ⟨wb3, ?_, hwf3, ?_⟩
    · simp only [Bool.not_false, if_true, CirBuf.poke_advance_eq,
        if_pos (show 1 ≤ wb.freeSpace by omega), hw2, hw3]
    · rw [hc3, hc2, hc1]
      simp
  · simp only [hc, if_true] at hfit
    obtain ⟨wb3, hw3, hwf3, _, _, hc3⟩ := CirBuf.write_spec p.bites h hfit
    refine ⟨wb3, ?_, hwf3, ?_⟩
    · simp only [Bool.not_true, Bool.false_eq_true, if_false, hw3]
    · rw [hc3]
      simp

/-- The two writes of `writeMqttPacket` on a buffer without room for the packet:
an assertion of the buffer fails. -/
theorem writeMqttPacketBytes_too_big {wb : CirBuf} (p : MqttPacket) (h : wb.WF)
    (hbig : wb.freeSpace < p.getSizeIncludingNonPresentHeader) :
    writeMqttPacketBytes wb p = none := by
  unfold writeMqttPacketBytes
  unfold MqttPacket.getSizeIncludingNonPresentHeader at hbig
  cases hc : p.containsFixedHeader
  · simp only [hc, Bool.false_eq_true, if_false] at hbig
    simp only [Bool.not_false, if_true, CirBuf.poke_advance_eq]
    by_cases h1 : 1 ≤ wb.freeSpace
    · obtain ⟨hwf1, _, hf1, _, _⟩ := CirBuf.putByte_spec h h1 p.first_byte
      rw [if_pos h1]
      by_cases h2 : p.remainingLength.length ≤ (wb.putByte p.first_byte).freeSpace
      · obtain ⟨wb2, hw2, hwf2, hf2, _, _⟩ := CirBuf.write_spec p.remainingLength hwf1 h2
        simp only [hw2]
        exact CirBuf.write_none (by omega)
      · simp only [CirBuf.write_none (show (wb.putByte p.first_byte).freeSpace
          < p.remainingLength.length by omega)]
    · simp only [if_neg h1]
  · simp only [hc, if_true] at hbig
    simp only [Bool.not_true, Bool.false_eq_true, if_false]
    exact CirBuf.write_none hbig

/-- What `setReadyForWriting` leaves: a client with the same buffers. -/
theorem setReadyForWriting_state (c : Client) (val ssl : Bool) (epollCtl : Option String) :
    ∃ c2, (setReadyForWriting c val ssl epollCtl).state? = some c2
      ∧ c2.writebuf = c.writebuf := by
  unfold setReadyForWriting
  by_cases hd : c.disconnecting = true
  · exact ⟨c, by simp [hd, Outcome.state?], rfl⟩
  · by_cases hv : ((if ssl = true then true else val) == c.readyForWriting) = true
    · exact ⟨c, by simp only [hd, hv]; simp [Outcome.state?], rfl⟩
    · cases epollCtl with
      | none =>
        exact ⟨{ c with readyForWriting := (if ssl = true then true else val),
                        epollInterest := (c.readyForReading, if ssl = true then true else val) },
          by simp only [hd, hv]; simp [Outcome.state?], rfl⟩
      | some msg =>
        exact ⟨{ c with readyForWriting := (if ssl = true then true else val) },
          by simp only [hd, hv]; simp [Outcome.state?], rfl⟩

theorem decide_and3 (A B C : Prop) [Decidable A] [Decidable B] [Decidable C] :
    (decide A && decide B && decide C) = true ↔ (A ∧ B ∧ C) := by
  simp [and_assoc]

theorem dropsPacket_iff (c : Client) (p : MqttPacket) :
    dropsPacket c p = true ↔
      (p.packetType = PacketType.PUBLISH ∧ p.qos = 0
        ∧ (writebufEnsured c p).freeSpace < p.getSizeIncludingNonPresentHeader) := by
  unfold dropsPacket
  exact decide_and3 _ _ _

theorem writebufEnsured_spec (c : Client) (p : MqttPacket) (h : c.writebuf.WF) :
    (writebufEnsured c p).WF ∧ (writebufEnsured c p).contents = c.writebuf.contents :=
  CirBuf.ensureFreeSpace_spec _ _ h

/-- The cases of `writeMqttPacket`, as the code has them.  `writebufEnsured c p` is
the write buffer after `ensureFreeSpace`.  (1) A QoS-0 PUBLISH that does not fit in its free space is
dropped: the call returns, the content of the write buffer and the flags are as
before.  (2) Any other packet that fits has all of its bytes appended to the
content.  (3) Any other packet that does not fit trips an assertion of the buffer.
(4) So a packet of at least one byte is dropped if and only if it is a QoS-0
PUBLISH that does not fit. -/
theorem writeMqttPacket_drop_iff (c : Client) (p : MqttPacket) (ssl : Bool)
    (epollCtl : Option String) (hwf : c.writebuf.WF) :
    ((p.packetType = PacketType.PUBLISH ∧ p.qos = 0
        ∧ (writebufEnsured c p).freeSpace < p.getSizeIncludingNonPresentHeader) →
      writeMqttPacket c p ssl epollCtl
          = .returned () { c with writebuf := (writebufEnsured c p) }
        ∧ (writebufEnsured c p).contents = c.writebuf.contents)
    ∧ (¬ (p.packetType = PacketType.PUBLISH ∧ p.qos = 0
          ∧ (writebufEnsured c p).freeSpace < p.getSizeIncludingNonPresentHeader) →
        p.getSizeIncludingNonPresentHeader ≤ (writebufEnsured c p).freeSpace →
        ∃ c1, (writeMqttPacket c p ssl epollCtl).state? = some c1
          ∧ c1.writebuf.contents = c.writebuf.contents ++ p.wireBytes)
    ∧ (¬ (p.packetType = PacketType.PUBLISH ∧ p.qos = 0
          ∧ (writebufEnsured c p).freeSpace < p.getSizeIncludingNonPresentHeader) →
        (writebufEnsured c p).freeSpace < p.getSizeIncludingNonPresentHeader →
        writeMqttPacket c p ssl epollCtl = .aborted)
    ∧ (0 < p.getSizeIncludingNonPresentHeader →
        ((∃ c1, writeMqttPacket c p ssl epollCtl = .returned () c1
            ∧ c1.writebuf.contents = c.writebuf.contents
            ∧ c1.readyForWriting = c.readyForWriting
            ∧ c1.disconnectWhenBytesWritten = c.disconnectWhenBytesWritten) ↔
          (p.packetType = PacketType.PUBLISH ∧ p.qos = 0
            ∧ (writebufEnsured c p).freeSpace
                < p.getSizeIncludingNonPresentHeader))) := by
  obtain ⟨hwf1, hcont⟩ := writebufEnsured_spec c p hwf
  have part1 : (p.packetType = PacketType.PUBLISH ∧ p.qos = 0
        ∧ (writebufEnsured c p).freeSpace < p.getSizeIncludingNonPresentHeader) →
      writeMqttPacket c p ssl epollCtl
          = .returned () { c with writebuf := (writebufEnsured c p) }
        ∧ (writebufEnsured c p).contents = c.writebuf.contents := by
    intro hdrop
    have hd := (dropsPacket_iff c p).2 hdrop
    refine ⟨?_, hcont⟩
    unfold writeMqttPacket
    simp only [hd, if_true]
  have part2 : ¬ (p.packetType = PacketType.PUBLISH ∧ p.qos = 0
          ∧ (writebufEnsured c p).freeSpace < p.getSizeIncludingNonPresentHeader) →
        p.getSizeIncludingNonPresentHeader ≤ (writebufEnsured c p).freeSpace →
        ∃ c1, (writeMqttPacket c p ssl epollCtl).state? = some c1
          ∧ c1.writebuf.contents = c.writebuf.contents ++ p.wireBytes := by
    intro hnd hfit
    have hd : ¬ dropsPacket c p = true :=
      fun h => hnd ((dropsPacket_iff c p).1 h)
    obtain ⟨wb3, hw3, _, hc3⟩ := writeMqttPacketBytes_fits p hwf1 hfit
    unfold writeMqttPacket
    simp only [hd, hw3]
    by_cases hp : p.packetType = PacketType.DISCONNECT
    · obtain ⟨c2, h1, h2⟩ := setReadyForWriting_state
        { c with writebuf := wb3, disconnectWhenBytesWritten := true } true ssl epollCtl
      refine ⟨c2, ?_, by rw [h2]; simp only; rw [hc3, hcont]⟩
      simp only [if_pos hp, Bool.false_eq_true, if_false]
      exact h1
    · obtain ⟨c2, h1, h2⟩ := setReadyForWriting_state
        { c with writebuf := wb3 } true ssl epollCtl
      refine ⟨c2, ?_, by rw [h2]; simp only; rw [hc3, hcont]⟩
      simp only [if_neg hp, Bool.false_eq_true, if_false]
      exact h1
  have part3 : ¬ (p.packetType = PacketType.PUBLISH ∧ p.qos = 0
          ∧ (writebufEnsured c p).freeSpace < p.getSizeIncludingNonPresentHeader) →
        (writebufEnsured c p).freeSpace < p.getSizeIncludingNonPresentHeader →
        writeMqttPacket c p ssl epollCtl = .aborted := by
    intro hnd hbig
    have hd : ¬ dropsPacket c p = true :=
      fun h => hnd ((dropsPacket_iff c p).1 h)
    have hw := writeMqttPacketBytes_too_big p hwf1 hbig
    unfold writeMqttPacket
    simp only [hd, hw]
    simp
  refine ⟨part1, part2, part3, ?_⟩
  intro hpos
  constructor
  · rintro ⟨c1, hret, hsame, _, _⟩
    by_contra hnd
    by_cases hfit : p.getSizeIncludingNonPresentHeader ≤ (writebufEnsured c p).freeSpace
    · obtain ⟨c2, h1, h2⟩ := part2 hnd hfit
      rw [hret] at h1
      simp only [Outcome.state?, Option.some.injEq] at h1
      subst h1
      have hl := congrArg List.length h2
      rw [hsame, List.length_append, MqttPacket.length_wireBytes] at hl
      omega
    · rw [part3 hnd (by omega)] at hret
      cases hret
  · intro hdrop
    obtain ⟨h1, h2⟩ := part1 hdrop
    generalize writebufEnsured c p = wb at h1 h2
    exact ⟨{ c with writebuf := wb }, h1, h2, rfl, rfl⟩

/-- An instance: a QoS-0 PUBLISH of 6 bytes for a write buffer with 5 bytes free. -/
theorem writeMqttPacket_drop_iff_witness :
    clientBackloggedWriter.writebuf.WF ∧ (((publishQos0.packetType = PacketType.PUBLISH ∧ publishQos0.qos = 0
        ∧ (writebufEnsured clientBackloggedWriter publishQos0).freeSpace < publishQos0.getSizeIncludingNonPresentHeader) →
      writeMqttPacket clientBackloggedWriter publishQos0 false none
          = .returned () { clientBackloggedWriter with writebuf := (writebufEnsured clientBackloggedWriter publishQos0) }
        ∧ (writebufEnsured clientBackloggedWriter publishQos0).contents = clientBackloggedWriter.writebuf.contents)
    ∧ (¬ (publishQos0.packetType = PacketType.PUBLISH ∧ publishQos0.qos = 0
          ∧ (writebufEnsured clientBackloggedWriter publishQos0).freeSpace < publishQos0.getSizeIncludingNonPresentHeader) →
        publishQos0.getSizeIncludingNonPresentHeader ≤ (writebufEnsured clientBackloggedWriter publishQos0).freeSpace →
        ∃ c1, (writeMqttPacket clientBackloggedWriter publishQos0 false none).state? = some c1
          ∧ c1.writebuf.contents = clientBackloggedWriter.writebuf.contents ++ publishQos0.wireBytes)
    ∧ (¬ (publishQos0.packetType = PacketType.PUBLISH ∧ publishQos0.qos = 0
          ∧ (writebufEnsured clientBackloggedWriter publishQos0).freeSpace < publishQos0.getSizeIncludingNonPresentHeader) →
        (writebufEnsured clientBackloggedWriter publishQos0).freeSpace < publishQos0.getSizeIncludingNonPresentHeader →
        writeMqttPacket clientBackloggedWriter publishQos0 false none = .aborted)
    ∧ (0 < publishQos0.getSizeIncludingNonPresentHeader →
        ((∃ c1, writeMqttPacket clientBackloggedWriter publishQos0 false none = .returned () c1
            ∧ c1.writebuf.contents = clientBackloggedWriter.writebuf.contents
            ∧ c1.readyForWriting = clientBackloggedWriter.readyForWriting
            ∧ c1.disconnectWhenBytesWritten = clientBackloggedWriter.disconnectWhenBytesWritten) ↔
          (publishQos0.packetType = PacketType.PUBLISH ∧ publishQos0.qos = 0
            ∧ (writebufEnsured clientBackloggedWriter publishQos0).freeSpace
                < publishQos0.getSizeIncludingNonPresentHeader)))) :=
  have h : clientBackloggedWriter.writebuf.WF := by decide
  ⟨h, writeMqttPacket_drop_iff clientBackloggedWriter publishQos0 false none h⟩

/-- C6: the code breaks the claim.  A PUBLISH with QoS 1 of 8 bytes for a client whose
write buffer (16 cells, `maxPacketSize = 16`, so no growth) has 5 bytes of free space
after `ensureFreeSpace` is not dropped by line 154, and its bytes are not appended
either: line 167 writes 8 bytes into 5 free ones, which fails the assertion of the
buffer, and the call leaves no state.  The QoS-0 PUBLISH of 6 bytes, on the same
client, is checked against `freeSpace()` and dropped with the content untouched. -/
theorem writeMqttPacket_qos1_without_room :
    publishQos1.packetType = PacketType.PUBLISH ∧ publishQos1.qos = 1
    ∧ clientBackloggedWriter.writebuf.WF
    ∧ publishQos1.getSizeIncludingNonPresentHeader = 8
    ∧ (writebufEnsured clientBackloggedWriter publishQos1).freeSpace = 5
    ∧ dropsPacket clientBackloggedWriter publishQos1 = false
    ∧ (writebufEnsured clientBackloggedWriter publishQos1).write publishQos1.bites = none
    ∧ writeMqttPacket clientBackloggedWriter publishQos1 false none = .aborted
    ∧ (writeMqttPacket clientBackloggedWriter publishQos1 false none).state? = none
    ∧ publishQos0.getSizeIncludingNonPresentHeader = 6
    ∧ dropsPacket clientBackloggedWriter publishQos0 = true
    ∧ (writeMqttPacket clientBackloggedWriter publishQos0 false none).state?.map
          (fun c => c.writebuf.contents)
        = some clientBackloggedWriter.writebuf.contents := by
  decide

/-- The same packet with its fixed header not in `bites`: lines 161-164 store the
first byte and the remaining-length byte (12 bytes are then in use, 3 are free), and
only then does the write of the 6 bytes of line 167 fail the assertion. -/
theorem writeMqttPacket_header_before_failed_write :
    publishQos1Headerless.getSizeIncludingNonPresentHeader = 8
    ∧ dropsPacket clientBackloggedWriter publishQos1Headerless = false
    ∧ ((((writebufEnsured clientBackloggedWriter publishQos1Headerless).pokeAtHead
            [publishQos1Headerless.first_byte]).advanceHead 1).bind
          (fun wb => wb.write publishQos1Headerless.remainingLength)).map
        (fun wb => (wb.usedBytes, wb.freeSpace)) = some (12, 3)
    ∧ writeMqttPacketBytes (writebufEnsured clientBackloggedWriter publishQos1Headerless)
        publishQos1Headerless = none
    ∧ writeMqttPacket clientBackloggedWriter publishQos1Headerless false none = .aborted := by
  decide

/-! ### The fuel of `bufferToMqttPackets` suffices -/

/-- `bufferToMqttPackets` never ends for want of fuel: it returns, throws, or fails
an assertion. -/
theorem bufferToMqttPackets_ne_outOfFuel (c : Client) (A : Nat) (q : List MqttPacket)
    (epollCtl : Option String) : bufferToMqttPackets c A q epollCtl ≠ .outOfFuel := by
  have hloop := framingLoop_ne_outOfFuel c.readbuf.usedBytes c.authenticated A c.readbuf q
    (le_refl _)
  unfold bufferToMqttPackets
  split
  · exact fun h => nomatch h
  · exact fun h => nomatch h
  · rename_i heq
    exact absurd heq hloop
  · exact fun h => nomatch h
  · rename_i rb q1 heq
    obtain ⟨c2, h1, _, _⟩ := setReadyForReading_state { c with readbuf := rb }
      (decide (rb.freeSpace > 0)) epollCtl
    dsimp only
    cases hs : setReadyForReading { c with readbuf := rb } (decide (rb.freeSpace > 0)) epollCtl
      <;> rw [hs] at h1 <;> simp [Outcome.state?] at h1 ⊢

/-! ### C12 -/

/-- C12: if the registered interest `(EPOLLIN, EPOLLOUT)` equals
`(readyForReading, readyForWriting)` before the call, it still does after a call of
`setReadyForReading` or of `setReadyForWriting` whose `epoll_ctl` succeeds; and after
`setReadyForWriting(val)` on a client that is not disconnecting, whether the call
returns or `epoll_ctl` makes it throw, `readyForWriting` is
`val || ioWrapper.getSslReadWantsWrite()`. -/
theorem setReadyFor_keeps_epoll_consistent (c : Client) (val ssl : Bool)
    (hinv : c.epollInterest = (c.readyForReading, c.readyForWriting)) :
    (∃ c1, setReadyForReading c val none = .returned () c1
      ∧ c1.epollInterest = (c1.readyForReading, c1.readyForWriting))
    ∧ (∃ c1, setReadyForWriting c val ssl none = .returned () c1
      ∧ c1.epollInterest = (c1.readyForReading, c1.readyForWriting))
    ∧ (c.disconnecting = false →
        ∀ (epollCtl : Option String) (c1 : Client),
          (setReadyForWriting c val ssl epollCtl).state? = some c1 →
          c1.readyForWriting = (val || ssl)) := by
  refine ⟨?_, ?_, ?_⟩
  · unfold setReadyForReading
    by_cases hd : c.disconnecting = true
    · exact ⟨c, by simp [hd], hinv⟩
    · by_cases hv : (val == c.readyForReading) = true
      · exact ⟨c, by simp [hd, hv], hinv⟩
      · exact ⟨{ c with readyForReading := val, epollInterest := (val, c.readyForWriting) },
          by simp [hd, hv], rfl⟩
  · unfold setReadyForWriting
    by_cases hd : c.disconnecting = true
    · exact ⟨c, by simp [hd], hinv⟩
    · by_cases hv : ((if ssl = true then true else val) == c.readyForWriting) = true
      · exact ⟨c, by simp only [hd, hv]; simp, hinv⟩
      · exact ⟨{ c with readyForWriting := (if ssl = true then true else val),
                        epollInterest := (c.readyForReading, if ssl = true then true else val) },
          by simp only [hd, hv]; simp, rfl⟩
  · intro hd epollCtl c1 hs
    unfold setReadyForWriting at hs
    by_cases hv : ((if ssl = true then true else val) == c.readyForWriting) = true
    · simp only [hd, hv] at hs
      simp [Outcome.state?] at hs
      subst hs
      have hv2 : (if ssl = true then true else val) = c.readyForWriting := by
        simpa using hv
      rw [← hv2]
      cases ssl <;> cases val <;> rfl
    · cases epollCtl with
      | none =>
        simp only [hd, hv] at hs
        simp [Outcome.state?] at hs
        subst hs
        exact Bool.or_comm _ _
      | some msg =>
        simp only [hd, hv] at hs
        simp [Outcome.state?] at hs
        subst hs
        exact Bool.or_comm _ _

/-- An instance: a fresh client, registered for reading only, is made ready for
writing. -/
theorem setReadyFor_keeps_epoll_consistent_witness :
    (Client.create 8 1024 0).epollInterest
      = ((Client.create 8 1024 0).readyForReading, (Client.create 8 1024 0).readyForWriting)
    ∧ ((∃ c1, setReadyForReading (Client.create 8 1024 0) true none = .returned () c1
        ∧ c1.epollInterest = (c1.readyForReading, c1.readyForWriting))
      ∧ (∃ c1, setReadyForWriting (Client.create 8 1024 0) true false none = .returned () c1
        ∧ c1.epollInterest = (c1.readyForReading, c1.readyForWriting))
      ∧ ((Client.create 8 1024 0).disconnecting = false →
          ∀ (epollCtl : Option String) (c1 : Client),
            (setReadyForWriting (Client.create 8 1024 0) true false epollCtl).state? = some c1 →
            c1.readyForWriting = (true || false))) :=
  have h : (Client.create 8 1024 0).epollInterest
      = ((Client.create 8 1024 0).readyForReading, (Client.create 8 1024 0).readyForWriting) := by
    decide
  ⟨h, setReadyFor_keeps_epoll_consistent (Client.create 8 1024 0) true false h⟩

/-! ### C18 -/

/-- The invariant of the decoding loop: `multiplier = 128^(fixed_header_length - 1)`.
Under it, whatever the fuel, the loop never throws "Malformed Remaining Length.": a
round that gets as far as the check has `fixed_header_length ≤ 5` after the
increment, so the new multiplier is at most `128^4`. -/
theorem decodeLoop_never_malformed (fuel : Nat) :
    ∀ (rb : CirBuf) (i fhl mult pl : Nat), 1 ≤ fhl → mult = 128 ^ (fhl - 1) →
      decodeLoop fuel rb i fhl mult pl
        ≠ .thrown (ProtocolError "Malformed Remaining Length.") := by
  induction fuel with
  | zero =>
    intro rb i fhl mult pl _ _
    simp only [decodeLoop]
    exact fun h => nomatch h
  | succ n ih =>
    intro rb i fhl mult pl h1 hm
    simp only [decodeLoop]
    by_cases c1 : fhl + 1 > 5
    · rw [if_pos c1]
      intro h
      injection h with h
      exact absurd h (by decide)
    · rw [if_neg c1]
      by_cases c2 : fhl + 1 > rb.usedBytes
      · rw [if_pos c2]
        exact fun h => nomatch h
      · rw [if_neg c2]
        have hmul : sizeT (mult * 128) = 128 ^ (fhl + 1 - 1) ∧ mult * 128 ≤ 128 * 128 * 128 * 128 := by
          subst hm
          have hf : fhl = 1 ∨ fhl = 2 ∨ fhl = 3 ∨ fhl = 4 := by omega
          rcases hf with rfl | rfl | rfl | rfl <;> exact ⟨by decide, by decide⟩
        have c3 : ¬ sizeT (mult * 128) > 128 * 128 * 128 * 128 := by
          rw [sizeT_of_lt (by omega)]
          omega
        rw [if_neg c3]
        split
        · exact ih rb (i + 1) (fhl + 1) _ _ (by omega) hmul.1
        · exact fun h => nomatch h

/-- The exceptions the framing loop can throw: the three `ProtocolError`s of lines
321, 338 and 343. -/
theorem framingLoop_threw (f : Nat) :
    ∀ (auth : Bool) (A : Nat) (rb : CirBuf) (q : List MqttPacket) (e : Exn)
      (s : CirBuf × List MqttPacket),
      framingLoop f auth A rb q = .threw e s →
      e = ProtocolError "Packet signifies more than 5 bytes in variable length header. Invalid."
      ∨ e = ProtocolError "An unauthenticated client sends a packet of 1 MB or bigger? Probably it's just random bytes."
      ∨ e = ProtocolError "A client sends a packet claiming to be bigger than the maximum MQTT allows." := by
  induction f with
  | zero =>
    intro auth A rb q e s h
    simp only [framingLoop] at h
    split at h <;> cases h
  | succ n ih =>
    intro auth A rb q e s h
    simp only [framingLoop] at h
    by_cases hu : rb.usedBytes ≥ MQTT_HEADER_LENGH
    · rw [if_pos hu] at h
      rcases decodeHeader_cases rb with h1 | ⟨k, _, _, _, _, _, h2⟩ | ⟨_, _, h3⟩
      · rw [h1] at h
        cases h
      · rw [h2] at h
        dsimp only at h
        split at h
        · injection h with h _
          exact Or.inr (Or.inl h.symm)
        · split at h
          · injection h with h _
            exact Or.inr (Or.inr h.symm)
          · split at h
            · split at h
              · cases h
              · exact ih _ _ _ _ _ _ h
            · cases h
      · rw [h3] at h
        injection h with h _
        exact Or.inl h.symm
    · rw [if_neg hu] at h
      cases h

theorem runtime_error_ne_ProtocolError (m1 m2 : String) :
    runtime_error m1 ≠ ProtocolError m2 := by
  intro h
  have hk := congrArg Exn.kind h
  simp [runtime_error, ProtocolError] at hk

/-- The only exception of `setReadyForReading` is the `std::runtime_error` of a
failed `epoll_ctl`. -/
theorem setReadyForReading_threw (c : Client) (val : Bool) (epollCtl : Option String)
    (e : Exn) (c2 : Client) (h : setReadyForReading c val epollCtl = .threw e c2) :
    ∃ msg, e = runtime_error msg := by
  unfold setReadyForReading at h
  split at h
  · cases h
  · split at h
    · cases h
    · cases epollCtl with
      | none => cases h
      | some msg =>
        injection h with he _
        exact ⟨msg, he.symm⟩

/-- C18: the check `multiplier > 128*128*128*128` never succeeds.  The decoding of a
header never ends in the exception "Malformed Remaining Length.", and no call of
`bufferToMqttPackets` throws it; when the decoding throws, it is the
`ProtocolError` of line 321 ("Packet signifies more than 5 bytes..."), and that is
how a field of four bytes that all have the continuation bit is reported. -/
theorem malformed_remaining_length_unreachable (c : Client) (A : Nat)
    (q : List MqttPacket) (epollCtl : Option String) :
    decodeHeader c.readbuf ≠ .thrown (ProtocolError "Malformed Remaining Length.")
    ∧ (∀ s, bufferToMqttPackets c A q epollCtl
        ≠ .threw (ProtocolError "Malformed Remaining Length.") s)
    ∧ (∀ e, decodeHeader c.readbuf = .thrown e →
        e = ProtocolError
          "Packet signifies more than 5 bytes in variable length header. Invalid.")
    ∧ ((5 ≤ c.readbuf.usedBytes
          ∧ ∀ i, 1 ≤ i → i ≤ 4 → c.readbuf.peakAhead i % 256 &&& 128 ≠ 0) →
        bufferToMqttPackets c A q epollCtl = .threw (ProtocolError
          "Packet signifies more than 5 bytes in variable length header. Invalid.") (c, q)) := by
  refine ⟨?_, ?_, ?_, ?_⟩
  · exact decodeLoop_never_malformed 5 c.readbuf 1 1 1 0 (le_refl _) (by norm_num)
  · intro s hthrow
    unfold bufferToMqttPackets at hthrow
    split at hthrow
    · rename_i e rb q1 heq
      injection hthrow with he _
      subst he
      rcases framingLoop_threw _ _ _ _ _ _ _ heq with h | h | h
      · exact absurd h (by decide)
      · exact absurd h (by decide)
      · exact absurd h (by decide)
    · cases hthrow
    · cases hthrow
    · cases hthrow
    · rename_i rb q1 heq
      dsimp only at hthrow
      cases hs : setReadyForReading { c with readbuf := rb } (decide (rb.freeSpace > 0))
          epollCtl with
      | returned v c2 => rw [hs] at hthrow; cases hthrow
      | threw e c2 =>
        rw [hs] at hthrow
        injection hthrow with he2 _
        obtain ⟨msg, hm⟩ := setReadyForReading_threw _ _ _ _ _ hs
        rw [hm] at he2
        exact runtime_error_ne_ProtocolError _ _ he2
      | aborted => rw [hs] at hthrow; cases hthrow
      | outOfFuel => rw [hs] at hthrow; cases hthrow
  · intro e he
    rcases decodeHeader_cases c.readbuf with h1 | ⟨k, _, _, _, _, _, h2⟩ | ⟨_, _, h3⟩
    · rw [h1] at he; cases he
    · rw [h2] at he; cases he
    · rw [h3] at he
      injection he with he
      exact he.symm
  · rintro ⟨hused, hcont⟩
    unfold bufferToMqttPackets
    rw [framingLoop_of_thrown _ _ _ _ _ _ (by omega) (by omega)
      (decodeHeader_overlong c.readbuf hused hcont)]

/-- An instance: the five bytes `30 FF FF FF FF`. -/
theorem malformed_remaining_length_unreachable_witness :
    decodeHeader clientOverlongLength.readbuf
      ≠ .thrown (ProtocolError "Malformed Remaining Length.")
    ∧ (∀ s, bufferToMqttPackets clientOverlongLength 268435456 [] none
        ≠ .threw (ProtocolError "Malformed Remaining Length.") s)
    ∧ (∀ e, decodeHeader clientOverlongLength.readbuf = .thrown e →
        e = ProtocolError
          "Packet signifies more than 5 bytes in variable length header. Invalid.")
    ∧ ((5 ≤ clientOverlongLength.readbuf.usedBytes
          ∧ ∀ i, 1 ≤ i → i ≤ 4 →
            clientOverlongLength.readbuf.peakAhead i % 256 &&& 128 ≠ 0) →
        bufferToMqttPackets clientOverlongLength 268435456 [] none = .threw (ProtocolError
          "Packet signifies more than 5 bytes in variable length header. Invalid.")
          (clientOverlongLength, [])) :=
  malformed_remaining_length_unreachable clientOverlongLength 268435456 [] none

/-! ### C11 -/

/-- A buffer that has two free bytes, or may still be doubled twice, has two free
bytes after `ensureFreeSpace(2)`. -/
theorem CirBuf.ensureFreeSpace_two {b : CirBuf} (defaultMax : Nat) (h : b.WF)
    (hroom : 2 ≤ b.freeSpace ∨ 4 * b.size ≤ defaultMax) :
    2 ≤ (b.ensureFreeSpace 2 defaultMax).freeSpace := by
  unfold CirBuf.ensureFreeSpace
  by_cases h2 : 2 ≤ b.freeSpace
  · cases defaultMax with
    | zero => simpa [ensureFreeSpaceLoop] using h2
    | succ n => simp only [ensureFreeSpaceLoop, if_pos h2]; exact h2
  · have h4 : 4 * b.size ≤ defaultMax := by
      rcases hroom with h | h
      · exact absurd h h2
      · exact h
    have hS : 0 < b.size := h.1
    obtain ⟨n, rfl⟩ : ∃ n, defaultMax = n + 3 := ⟨defaultMax - 3, by omega⟩
    have hlt := CirBuf.usedBytes_lt_size h
    obtain ⟨hwf1, hu1, _, hs1, _⟩ := CirBuf.doubleSize_spec h
    have hlt1 := CirBuf.usedBytes_lt_size hwf1
    obtain ⟨hwf2, hu2, _, hs2, _⟩ := CirBuf.doubleSize_spec hwf1
    have hf1 : b.doubleSize.freeSpace = 2 * b.size - 1 - b.usedBytes := by
      unfold CirBuf.freeSpace; rw [hu1, hs1]
    have hf2 : b.doubleSize.doubleSize.freeSpace = 4 * b.size - 1 - b.usedBytes := by
      unfold CirBuf.freeSpace; rw [hu2, hu1, hs2, hs1]; omega
    simp only [ensureFreeSpaceLoop, if_neg h2, if_neg (show ¬ n + 3 < 2 * b.size by omega)]
    by_cases h3 : 2 ≤ b.doubleSize.freeSpace
    · simp only [if_pos h3]; exact h3
    · have h5 : ¬ n + 3 < 2 * b.doubleSize.size := by rw [hs1]; omega
      have h6 : 2 ≤ b.doubleSize.doubleSize.freeSpace := by rw [hf2]; omega
      simp only [if_neg h3, if_neg h5, if_pos h6]
      exact h6

/-- `setReadyForWriting` returns when `epoll_ctl` does not fail. -/
theorem setReadyForWriting_returns (c : Client) (val ssl : Bool) :
    ∃ c2, setReadyForWriting c val ssl none = .returned () c2 ∧ c2.writebuf = c.writebuf := by
  unfold setReadyForWriting
  by_cases hd : c.disconnecting = true
  · exact ⟨c, by simp [hd], rfl⟩
  · by_cases hv : ((if ssl = true then true else val) == c.readyForWriting) = true
    · exact ⟨c, by simp only [hd, hv]; simp, rfl⟩
    · exact ⟨{ c with readyForWriting := (if ssl = true then true else val),
                      epollInterest := (c.readyForReading, if ssl = true then true else val) },
        by simp only [hd, hv]; simp, rfl⟩

/-- C11: after `writePingResp` the logical content of the write buffer is the
previous content followed by the two bytes `0xD0`, `0x00`, and `usedBytes` has
grown by 2, wherever `head` stands (also at the last index of the array); the call
returns unless `epoll_ctl` fails, and the bytes are in the buffer either way.  The
buffer satisfies its representation invariant, and has two free bytes or may still be
doubled twice within the default maximum of `ensureFreeSpace`. -/
theorem writePingResp_appends (c : Client) (defaultMax : Nat) (ssl : Bool)
    (epollCtl : Option String) (hwf : c.writebuf.WF)
    (hroom : 2 ≤ c.writebuf.freeSpace ∨ 4 * c.writebuf.size ≤ defaultMax) :
    ∃ c1, (writePingResp c defaultMax ssl epollCtl).state? = some c1
      ∧ c1.writebuf.contents = c.writebuf.contents ++ [0xD0, 0x00]
      ∧ c1.writebuf.usedBytes = c.writebuf.usedBytes + 2
      ∧ (epollCtl = none → writePingResp c defaultMax ssl epollCtl = .returned () c1) := by
  obtain ⟨hwf0, hc0⟩ := CirBuf.ensureFreeSpace_spec 2 defaultMax hwf
  have hfree := CirBuf.ensureFreeSpace_two defaultMax hwf hroom
  unfold writePingResp
  dsimp only
  generalize c.writebuf.ensureFreeSpace 2 defaultMax = wb at hwf0 hc0 hfree ⊢
  obtain ⟨hwf1, hu1, hf1, _, hc1⟩ := CirBuf.putByte_spec hwf0 (by omega) 0b11010000
  obtain ⟨hwf2, hu2, _, _, hc2⟩ := CirBuf.putByte_spec hwf1 (by omega) 0
  have hcont : ((wb.putByte 0b11010000).putByte 0).contents
      = c.writebuf.contents ++ [0xD0, 0x00] := by
    rw [hc2, hc1, hc0]; simp
  have hused : ((wb.putByte 0b11010000).putByte 0).usedBytes = c.writebuf.usedBytes + 2 := by
    rw [← CirBuf.length_contents, hcont, List.length_append, CirBuf.length_contents]
    rfl
  have hp1 : 1 ≤ wb.freeSpace := by omega
  have hp2 : 1 ≤ (wb.putByte 0b11010000).freeSpace := by omega
  simp only [CirBuf.poke_advance_eq, if_pos hp1, if_pos hp2]
  cases epollCtl with
  | none =>
    obtain ⟨c2, h1, h2⟩ := setReadyForWriting_returns
      { c with writebuf := (wb.putByte 0b11010000).putByte 0 } true ssl
    refine ⟨c2, by rw [h1]; rfl, by rw [h2]; exact hcont, by rw [h2]; exact hused,
      fun _ => h1⟩
  | some msg =>
    obtain ⟨c2, h1, h2⟩ := setReadyForWriting_state
      { c with writebuf := (wb.putByte 0b11010000).putByte 0 } true ssl (some msg)
    exact ⟨c2, h1, by rw [h2]; exact hcont, by rw [h2]; exact hused, fun h => by cases h⟩

/-- An instance: `head` at the last index of an array of 8 cells. -/
theorem writePingResp_appends_witness :
    (clientHeadAtLastIndex.writebuf.WF
      ∧ (2 ≤ clientHeadAtLastIndex.writebuf.freeSpace
        ∨ 4 * clientHeadAtLastIndex.writebuf.size ≤ 4294967295))
    ∧ ∃ c1, (writePingResp clientHeadAtLastIndex 4294967295 false none).state? = some c1
      ∧ c1.writebuf.contents = clientHeadAtLastIndex.writebuf.contents ++ [0xD0, 0x00]
      ∧ c1.writebuf.usedBytes = clientHeadAtLastIndex.writebuf.usedBytes + 2
      ∧ ((none : Option String) = none →
          writePingResp clientHeadAtLastIndex 4294967295 false none = .returned () c1) :=
  have h1 : clientHeadAtLastIndex.writebuf.WF := by decide
  have h2 : 2 ≤ clientHeadAtLastIndex.writebuf.freeSpace
      ∨ 4 * clientHeadAtLastIndex.writebuf.size ≤ 4294967295 := Or.inl (by decide)
  ⟨⟨h1, h2⟩, writePingResp_appends clientHeadAtLastIndex 4294967295 false none h1 h2⟩

/-- With `head` at the last index 7 of the array, `0xD0` is stored at index 7 and
`0x00` at index 0, and `head` becomes 1. -/
theorem writePingResp_wraps :
    clientHeadAtLastIndex.writebuf.head = clientHeadAtLastIndex.writebuf.size - 1
    ∧ writePingResp clientHeadAtLastIndex 4294967295 false none
      = .returned () { clientHeadAtLastIndex with
          writebuf := ⟨[0, 0, 0, 11, 12, 13, 14, 208], 1, 3, 8⟩
          readyForWriting := true
          epollInterest := (true, true) }
    ∧ CirBuf.contents ⟨[0, 0, 0, 11, 12, 13, 14, 208], 1, 3, 8⟩ = [11, 12, 13, 14, 208, 0] := by
  decide

/-! ### C13 -/

theorem CirBuf.create_WF (size : Nat) (h : 0 < size) : (CirBuf.create size).WF :=
  ⟨h, by simp [CirBuf.create], h, h⟩

/-- `advanceHead(n)` within the free space: `n` more bytes are used. -/
theorem CirBuf.advanceHead_spec {b b1 : CirBuf} {n : Nat} (h : b.WF)
    (ha : b.advanceHead n = some b1) :
    b1.WF ∧ b1.size = b.size ∧ b1.tail = b.tail ∧ b1.buf = b.buf
      ∧ b1.head = (b.head + n) % b.size
      ∧ b1.usedBytes = b.usedBytes + n ∧ b1.freeSpace + n = b.freeSpace := by
  have hu := CirBuf.usedBytes_of_WF h
  have hfu := CirBuf.freeSpace_add_usedBytes h
  unfold CirBuf.advanceHead at ha
  split at ha
  swap
  · cases ha
  rename_i hn
  injection ha with ha
  subst ha
  obtain ⟨hS, hlen, hh, ht⟩ := h
  have hhead : (b.head + n) % b.size
      = if b.head + n < b.size then b.head + n else b.head + n - b.size :=
    mod_cases _ _ (by split at hu <;> omega)
  have hwf : CirBuf.WF { b with head := (b.head + n) % b.size } :=
    ⟨hS, hlen, Nat.mod_lt _ hS, ht⟩
  have hu2 : CirBuf.usedBytes { b with head := (b.head + n) % b.size } = b.usedBytes + n := by
    rw [CirBuf.usedBytes_of_WF hwf, hu]
    simp only [hhead]
    split at hu <;> split <;> split <;> omega
  have hfu2 := CirBuf.freeSpace_add_usedBytes hwf
  refine ⟨hwf, rfl, rfl, rfl, rfl, hu2, ?_⟩
  simp only at hfu2
  omega

/-- `advanceTail(n)` within the used bytes: `n` fewer bytes are used. -/
theorem CirBuf.advanceTail_spec {b b1 : CirBuf} {n : Nat} (h : b.WF)
    (ha : b.advanceTail n = some b1) :
    b1.WF ∧ b1.size = b.size ∧ b1.head = b.head ∧ b1.buf = b.buf
      ∧ b1.tail = (b.tail + n) % b.size
      ∧ b1.usedBytes + n = b.usedBytes ∧ b1.freeSpace = b.freeSpace + n := by
  have hu := CirBuf.usedBytes_of_WF h
  have hfu := CirBuf.freeSpace_add_usedBytes h
  have hlt := CirBuf.usedBytes_lt_size h
  obtain ⟨hn, rfl⟩ := CirBuf.advanceTail_eq_some ha
  obtain ⟨hS, hlen, hh, ht⟩ := h
  have htail : (b.tail + n) % b.size
      = if b.tail + n < b.size then b.tail + n else b.tail + n - b.size :=
    mod_cases _ _ (by omega)
  have hwf : CirBuf.WF { b with tail := (b.tail + n) % b.size } :=
    ⟨hS, hlen, hh, Nat.mod_lt _ hS⟩
  have hu2 : CirBuf.usedBytes { b with tail := (b.tail + n) % b.size } + n = b.usedBytes := by
    rw [CirBuf.usedBytes_of_WF hwf, hu]
    simp only [htail]
    split at hu <;> split <;> split <;> omega
  have hfu2 := CirBuf.freeSpace_add_usedBytes hwf
  refine ⟨hwf, rfl, rfl, rfl, rfl, hu2, ?_⟩
  simp only at hfu2
  omega

/-- One step keeps the invariant and the size. -/
theorem CirBuf.step_spec {b b1 : CirBuf} (st : CirBuf.Step) (h : b.WF)
    (hs : b.step st = some b1) : b1.WF ∧ b1.size = b.size := by
  cases st with
  | advanceHead n =>
    obtain ⟨h1, h2, _⟩ := CirBuf.advanceHead_spec h hs
    exact ⟨h1, h2⟩
  | write bytes =>
    simp only [CirBuf.step] at hs
    by_cases hle : bytes.length ≤ b.freeSpace
    · obtain ⟨b2, hw, h1, _, h2, _⟩ := CirBuf.write_spec bytes h hle
      rw [hw] at hs
      injection hs with hs
      subst hs
      exact ⟨h1, h2⟩
    · rw [CirBuf.write_none (by omega)] at hs
      cases hs
  | advanceTail n =>
    obtain ⟨h1, h2, _⟩ := CirBuf.advanceTail_spec h hs
    exact ⟨h1, h2⟩

theorem CirBuf.trace_spec (ops : List CirBuf.Step) :
    ∀ (b : CirBuf), b.WF → ∀ s ∈ CirBuf.trace ops b, s.WF ∧ s.size = b.size := by
  induction ops with
  | nil => intro b _ s hs; simp [CirBuf.trace] at hs
  | cons st rest ih =>
    intro b h s hs
    simp only [CirBuf.trace] at hs
    cases hst : b.step st with
    | none => rw [hst] at hs; simp at hs
    | some b1 =>
      rw [hst] at hs
      obtain ⟨h1, h2⟩ := CirBuf.step_spec st h hst
      simp only [List.mem_cons] at hs
      rcases hs with rfl | hs
      · exact ⟨h1, h2⟩
      · obtain ⟨h3, h4⟩ := ih b1 h1 s hs
        exact ⟨h3, by rw [h4, h2]⟩

/-- C13: for a buffer of array size `S` (satisfying the representation invariant)
and every sequence of `advanceHead(n)` with `n ≤ freeSpace`, writes of `n ≤ freeSpace`
bytes and `advanceTail(n)` with `n ≤ usedBytes`, after each step
`freeSpace() + usedBytes() == S - 1` (and `usedBytes() < S`); a fresh `CirBuf(64)` has
`freeSpace` 63, and 23 after 40 bytes are written (by `write`, or through
`headPtr()` and `advanceHead(40)`). -/
theorem CirBuf.freeSpace_usedBytes_invariant (b : CirBuf) (ops : List CirBuf.Step)
    (h : b.WF) :
    (∀ s ∈ CirBuf.trace ops b,
      s.size = b.size ∧ s.freeSpace + s.usedBytes = b.size - 1 ∧ s.usedBytes < b.size)
    ∧ (CirBuf.create 64).freeSpace = 63
    ∧ ((CirBuf.create 64).write ((List.range 40).map (· + 1))).map CirBuf.freeSpace = some 23
    ∧ ((CirBuf.create 64).storeAtHead ((List.range 40).map (· + 1))).map CirBuf.freeSpace
        = some 23 := by
  refine ⟨?_, by decide, by decide, by decide⟩
  intro s hs
  obtain ⟨h1, h2⟩ := CirBuf.trace_spec ops b h s hs
  have h3 := CirBuf.freeSpace_add_usedBytes h1
  have h4 := CirBuf.usedBytes_lt_size h1
  rw [h2] at h3 h4
  exact ⟨h2, h3, h4⟩

/-- An instance: the steps of `test_circbuf` on `CirBuf(64)`. -/
theorem CirBuf.freeSpace_usedBytes_invariant_witness :
    (CirBuf.create 64).WF
    ∧ ((∀ s ∈ CirBuf.trace
          [CirBuf.Step.advanceHead 40, CirBuf.Step.advanceTail 40, CirBuf.Step.advanceHead 24,
            CirBuf.Step.write [7, 8, 9]] (CirBuf.create 64),
        s.size = (CirBuf.create 64).size
          ∧ s.freeSpace + s.usedBytes = (CirBuf.create 64).size - 1
          ∧ s.usedBytes < (CirBuf.create 64).size)
      ∧ (CirBuf.create 64).freeSpace = 63
      ∧ ((CirBuf.create 64).write ((List.range 40).map (· + 1))).map CirBuf.freeSpace
          = some 23
      ∧ ((CirBuf.create 64).storeAtHead ((List.range 40).map (· + 1))).map CirBuf.freeSpace
          = some 23) :=
  have h : (CirBuf.create 64).WF := CirBuf.create_WF 64 (by decide)
  ⟨h, CirBuf.freeSpace_usedBytes_invariant (CirBuf.create 64)
    [CirBuf.Step.advanceHead 40, CirBuf.Step.advanceTail 40, CirBuf.Step.advanceHead 24,
      CirBuf.Step.write [7, 8, 9]] h⟩

/-- The four steps of the instance above all pass their assertions. -/
theorem CirBuf.trace_test_circbuf_length :
    (CirBuf.trace
      [CirBuf.Step.advanceHead 40, CirBuf.Step.advanceTail 40, CirBuf.Step.advanceHead 24,
        CirBuf.Step.write [7, 8, 9]] (CirBuf.create 64)).length = 4 := by
  decide

/-! ### C14 -/

/-- In a buffer whose content does not wrap, reading through `tailPtr()` gives the
logical content. -/
theorem CirBuf.readAtTail_of_contiguous {b : CirBuf}
    (hc : b.tail + b.usedBytes ≤ b.size) : b.readAtTail b.usedBytes = b.contents := by
  unfold CirBuf.readAtTail CirBuf.contents
  apply List.map_congr_left
  intro i hi
  rw [List.mem_range] at hi
  unfold CirBuf.peakAhead
  rw [Nat.mod_eq_of_lt (by omega)]

set_option maxRecDepth 20000 in
/-- C14: for every buffer state (satisfying the representation invariant; unwrapped,
wrapped or full), after `doubleSize` the `usedBytes` bytes readable from `tailPtr()`
are the logical content before the doubling, `tail` and `usedBytes` are unchanged
and `maxReadSize() == usedBytes()`.  `CirBuf(64)` holding the 63 bytes `1..63` has
`tail` 0, `head` 63, `maxReadSize` 63 and `maxWriteSize` 64 after the doubling, and
the fill byte 5 from index 63 on. -/
theorem CirBuf.doubleSize_unwraps (b : CirBuf) (h : b.WF) :
    (b.doubleSize.readAtTail b.usedBytes = b.contents
      ∧ b.doubleSize.contents = b.contents
      ∧ b.doubleSize.tail = b.tail
      ∧ b.doubleSize.usedBytes = b.usedBytes
      ∧ b.doubleSize.maxReadSize = b.doubleSize.usedBytes)
    ∧ (bufUnwrappedFull.usedBytes = 63
      ∧ bufUnwrappedFull.contents = (List.range 63).map (· + 1)
      ∧ bufUnwrappedFull.doubleSize.tail = 0
      ∧ bufUnwrappedFull.doubleSize.head = 63
      ∧ bufUnwrappedFull.doubleSize.maxReadSize = 63
      ∧ bufUnwrappedFull.doubleSize.maxWriteSize = 64
      ∧ bufUnwrappedFull.doubleSize.readAtTail 128
          = (List.range 63).map (· + 1) ++ List.replicate 65 5) := by
  refine ⟨?_, by decide⟩
  have hlt := CirBuf.usedBytes_lt_size h
  obtain ⟨hwf, hu, hc, hs, ht⟩ := CirBuf.doubleSize_spec h
  have hhead : b.doubleSize.head = b.tail + b.usedBytes := by
    simp only [CirBuf.doubleSize]
    exact Nat.mod_eq_of_lt (by have := h.2.2.2; omega)
  refine ⟨?_, hc, ht, hu, ?_⟩
  · rw [← hc, ← hu]
    apply CirBuf.readAtTail_of_contiguous
    rw [hu, hs, ht]
    have := h.2.2.2
    omega
  · unfold CirBuf.maxReadSize
    rw [hhead, ht, hu]
    simp

/-- An instance: the wrapped buffer of `test_circbuf_wrapped_doubling`. -/
theorem CirBuf.doubleSize_unwraps_witness :
    bufWrapped.WF
    ∧ ((bufWrapped.doubleSize.readAtTail bufWrapped.usedBytes = bufWrapped.contents
        ∧ bufWrapped.doubleSize.contents = bufWrapped.contents
        ∧ bufWrapped.doubleSize.tail = bufWrapped.tail
        ∧ bufWrapped.doubleSize.usedBytes = bufWrapped.usedBytes
        ∧ bufWrapped.doubleSize.maxReadSize = bufWrapped.doubleSize.usedBytes)
      ∧ (bufUnwrappedFull.usedBytes = 63
        ∧ bufUnwrappedFull.contents = (List.range 63).map (· + 1)
        ∧ bufUnwrappedFull.doubleSize.tail = 0
        ∧ bufUnwrappedFull.doubleSize.head = 63
        ∧ bufUnwrappedFull.doubleSize.maxReadSize = 63
        ∧ bufUnwrappedFull.doubleSize.maxWriteSize = 64
        ∧ bufUnwrappedFull.doubleSize.readAtTail 128
            = (List.range 63).map (· + 1) ++ List.replicate 65 5)) :=
  have h : bufWrapped.WF := by decide
  ⟨h, CirBuf.doubleSize_unwraps bufWrapped h⟩

/-! ### C15 -/

/-- A cell of the doubled array. -/
theorem CirBuf.getD_doubleSize (b : CirBuf) (i : Nat) (hi : i < 2 * b.size) :
    b.doubleSize.buf.getD i 0 =
      if b.tail ≤ i ∧ i < b.tail + b.maxReadSize then b.buf.getD i 0
      else if b.head < b.tail ∧ b.size ≤ i ∧ i < b.size + b.head then b.buf.getD (i - b.size) 0
      else 5 := by
  simp only [CirBuf.doubleSize]
  rw [getD_map_range _ _ _ hi]

set_option maxRecDepth 20000 in
/-- C15: for a buffer of size `S` (satisfying the representation invariant) whose
content is wrapped (`head < tail`), after `doubleSize` the new array has
`new[i] == old[i]` for `i` in `[tail, S)` and `new[S + j] == old[j]` for `j` in
`[0, head)`, the new `head` is `S + head`, `tail` is unchanged, and every cell in
`[S + head, 2S)` holds the fill byte 5.  With `tail` 40 and `head` 10 the ten 88s are
at `[64, 74)` and `head` is 74; with `tail` 10 and `head` 9 the nine 2s are at
`[64, 73)` and the cells `[73, 128)` hold 5. -/
theorem CirBuf.doubleSize_wrapped (b : CirBuf) (h : b.WF) (hw : b.head < b.tail) :
    ((∀ i, b.tail ≤ i → i < b.size → b.doubleSize.buf.getD i 0 = b.buf.getD i 0)
      ∧ (∀ j, j < b.head → b.doubleSize.buf.getD (b.size + j) 0 = b.buf.getD j 0)
      ∧ b.doubleSize.head = b.size + b.head
      ∧ b.doubleSize.tail = b.tail
      ∧ (∀ i, b.size + b.head ≤ i → i < 2 * b.size → b.doubleSize.buf.getD i 0 = 5))
    ∧ (bufWrapped.tail = 40 ∧ bufWrapped.head = 10
      ∧ (bufWrapped.doubleSize.buf.drop 64).take 10 = List.replicate 10 88
      ∧ bufWrapped.doubleSize.head = 74 ∧ bufWrapped.doubleSize.tail = 40)
    ∧ (bufFullWrapped.tail = 10 ∧ bufFullWrapped.head = 9
      ∧ (bufFullWrapped.doubleSize.buf.drop 64).take 9 = List.replicate 9 2
      ∧ bufFullWrapped.doubleSize.buf.drop 73 = List.replicate 55 5
      ∧ (bufFullWrapped.doubleSize.buf.drop 10).take 54 = List.replicate 54 1) := by
  refine ⟨?_, by decide, by decide⟩
  have hu := CirBuf.usedBytes_of_WF h
  obtain ⟨hS, hlen, hh, ht⟩ := h
  rw [if_neg (by omega)] at hu
  have hmr : b.maxReadSize = b.size - b.tail := by
    unfold CirBuf.maxReadSize
    rw [if_neg (by omega)]
  refine ⟨?_, ?_, ?_, rfl, ?_⟩
  · intro i hi1 hi2
    rw [CirBuf.getD_doubleSize b i (by omega), hmr, if_pos (by omega)]
  · intro j hj
    rw [CirBuf.getD_doubleSize b _ (by omega), hmr, if_neg (by omega), if_pos (by omega)]
    congr 1
    omega
  · simp only [CirBuf.doubleSize]
    rw [hu, Nat.mod_eq_of_lt (by omega)]
    omega
  · intro i hi1 hi2
    rw [CirBuf.getD_doubleSize b i hi2, hmr, if_neg (by omega), if_neg (by omega)]

/-- An instance: the wrapped buffer with `tail` 40 and `head` 10. -/
theorem CirBuf.doubleSize_wrapped_witness :
    (bufWrapped.WF ∧ bufWrapped.head < bufWrapped.tail)
    ∧ (((∀ i, bufWrapped.tail ≤ i → i < bufWrapped.size →
          bufWrapped.doubleSize.buf.getD i 0 = bufWrapped.buf.getD i 0)
        ∧ (∀ j, j < bufWrapped.head →
          bufWrapped.doubleSize.buf.getD (bufWrapped.size + j) 0 = bufWrapped.buf.getD j 0)
        ∧ bufWrapped.doubleSize.head = bufWrapped.size + bufWrapped.head
        ∧ bufWrapped.doubleSize.tail = bufWrapped.tail
        ∧ (∀ i, bufWrapped.size + bufWrapped.head ≤ i → i < 2 * bufWrapped.size →
          bufWrapped.doubleSize.buf.getD i 0 = 5))
      ∧ (bufWrapped.tail = 40 ∧ bufWrapped.head = 10
        ∧ (bufWrapped.doubleSize.buf.drop 64).take 10 = List.replicate 10 88
        ∧ bufWrapped.doubleSize.head = 74 ∧ bufWrapped.doubleSize.tail = 40)
      ∧ (bufFullWrapped.tail = 10 ∧ bufFullWrapped.head = 9
        ∧ (bufFullWrapped.doubleSize.buf.drop 64).take 9 = List.replicate 9 2
        ∧ bufFullWrapped.doubleSize.buf.drop 73 = List.replicate 55 5
        ∧ (bufFullWrapped.doubleSize.buf.drop 10).take 54 = List.replicate 54 1)) :=
  have h1 : bufWrapped.WF := by decide
  have h2 : bufWrapped.head < bufWrapped.tail := by decide
  ⟨⟨h1, h2⟩, CirBuf.doubleSize_wrapped bufWrapped h1 h2⟩

/-! ### The circular buffer: storing through `headPtr()` -/

theorem length_foldl_set (f : Nat → Nat) (h n : Nat) (l : List Nat) :
    ((List.range n).foldl (fun a i => a.set (h + i) (f i)) l).length = l.length := by
  induction n with
  | zero => rfl
  | succ n ih =>
    rw [List.range_succ, List.foldl_append]
    simp [ih]

/-- A cell after `n` values have been stored from index `h` on. -/
theorem getD_foldl_set (f : Nat → Nat) (h n : Nat) (l : List Nat) (k : Nat) :
    ((List.range n).foldl (fun a i => a.set (h + i) (f i)) l).getD k 0
      = if h ≤ k ∧ k < h + n ∧ k < l.length then f (k - h) else l.getD k 0 := by
  induction n with
  | zero =>
    rw [if_neg (by omega)]
    rfl
  | succ n ih =>
    rw [List.range_succ, List.foldl_append]
    simp only [List.foldl_cons, List.foldl_nil]
    by_cases hk : h + n = k
    · by_cases hl : k < l.length
      · rw [← hk, getD_set_self _ _ _ (by rw [length_foldl_set]; omega),
          if_pos (by omega)]
        congr 1
        omega
      · rw [if_neg (by omega), List.getD_eq_default _ _ (by simp [length_foldl_set]; omega),
          List.getD_eq_default _ _ (by omega)]
    · rw [getD_set_ne _ _ _ _ hk, ih]
      by_cases hc : h ≤ k ∧ k < h + n ∧ k < l.length
      · rw [if_pos hc, if_pos (by omega)]
      · rw [if_neg hc, if_neg (by omega)]

/-- A cell after `data` has been stored through `headPtr()`. -/
theorem CirBuf.getD_pokeAtHead (b : CirBuf) (data : List Nat) (k : Nat) :
    (b.pokeAtHead data).buf.getD k 0
      = if b.head ≤ k ∧ k < b.head + data.length ∧ k < b.buf.length
        then data.getD (k - b.head) 0 else b.buf.getD k 0 :=
  getD_foldl_set (fun i => data.getD i 0) b.head data.length b.buf k

theorem CirBuf.maxWriteSize_le_freeSpace {b : CirBuf} (h : b.WF) :
    b.maxWriteSize ≤ b.freeSpace := by
  have hu := CirBuf.usedBytes_of_WF h
  have hfu := CirBuf.freeSpace_add_usedBytes h
  obtain ⟨hS, hlen, hh, ht⟩ := h
  unfold CirBuf.maxWriteSize
  split at hu <;> split <;> try split
  all_goals omega

theorem CirBuf.maxWriteSize_pos {b : CirBuf} (h : b.WF) (hf : 0 < b.freeSpace) :
    0 < b.maxWriteSize := by
  have hu := CirBuf.usedBytes_of_WF h
  have hfu := CirBuf.freeSpace_add_usedBytes h
  obtain ⟨hS, hlen, hh, ht⟩ := h
  unfold CirBuf.maxWriteSize
  split at hu <;> split <;> try split
  all_goals omega

/-- One round of filling: at most `maxWriteSize()` bytes stored at `headPtr()`, then
`advanceHead(maxWriteSize())`.  The assertion of `advanceHead` passes, the bytes that
were in the buffer are where they were, and the stored bytes follow them. -/
theorem CirBuf.fill_step_spec {b : CirBuf} (h : b.WF) (data : List Nat)
    (hd : data.length ≤ b.maxWriteSize) :
    ∃ b1, (b.pokeAtHead data).advanceHead b.maxWriteSize = some b1
      ∧ b1.WF ∧ b1.size = b.size ∧ b1.tail = b.tail
      ∧ b1.head = (b.head + b.maxWriteSize) % b.size
      ∧ b1.usedBytes = b.usedBytes + b.maxWriteSize
      ∧ (∀ k, k < b.usedBytes → b1.peakAhead k = b.peakAhead k)
      ∧ (∀ i, i < data.length → b1.peakAhead (b.usedBytes + i) = data.getD i 0) := by
  have hle := CirBuf.maxWriteSize_le_freeSpace h
  have hu := CirBuf.usedBytes_of_WF h
  have hfu := CirBuf.freeSpace_add_usedBytes h
  have hpwf : (b.pokeAtHead data).WF := by
    obtain ⟨hS, hlen, hh, ht⟩ := h
    exact ⟨hS, by simp only [CirBuf.pokeAtHead, length_foldl_set]; exact hlen, hh, ht⟩
  have hfree : (b.pokeAtHead data).freeSpace = b.freeSpace := rfl
  have hadv : (b.pokeAtHead data).advanceHead b.maxWriteSize
      = some { b.pokeAtHead data with head := (b.head + b.maxWriteSize) % b.size } := by
    unfold CirBuf.advanceHead
    rw [if_pos (by rw [hfree]; exact hle)]
    rfl
  obtain ⟨h1, h2, h3, h4, h5, h6, _⟩ := CirBuf.advanceHead_spec hpwf hadv
  refine ⟨_, hadv, h1, h2, h3, h5, h6, ?_, ?_⟩
  all_goals
    obtain ⟨hS, hlen, hh, ht⟩ := h
    have hb : b.head + b.maxWriteSize ≤ b.size
        ∧ (b.head < b.tail → b.head + b.maxWriteSize < b.tail) := by
      unfold CirBuf.maxWriteSize
      split
      · omega
      · split <;> omega
    obtain ⟨hb1, hb2⟩ := hb
  · intro k hk
    have hidx : (b.tail + k) % b.size
        = if b.tail + k < b.size then b.tail + k else b.tail + k - b.size :=
      mod_cases _ _ (by split at hu <;> omega)
    show (b.pokeAtHead data).buf.getD ((b.tail + k) % b.size) 0
      = b.buf.getD ((b.tail + k) % b.size) 0
    rw [CirBuf.getD_pokeAtHead, if_neg]
    rw [hidx]
    split at hu <;> split <;> omega
  · intro i hi
    have hidx : (b.tail + (b.usedBytes + i)) % b.size = b.head + i := by
      rw [mod_cases _ _ (by split at hu <;> omega)]
      split at hu <;> split <;> omega
    show (b.pokeAtHead data).buf.getD ((b.tail + (b.usedBytes + i)) % b.size) 0
      = data.getD i 0
    rw [hidx, CirBuf.getD_pokeAtHead, if_pos (by omega)]
    congr 1
    omega

/-! ### The circular buffer: filling until it is full -/

theorem CirBuf.fillUntilFull_of_full (rounds : List (List Nat)) {b : CirBuf}
    (hz : b.maxWriteSize = 0) : CirBuf.fillUntilFull rounds b = Outcome.returned () b := by
  cases rounds <;> simp [CirBuf.fillUntilFull, hz]

/-- A buffer with nothing left to write contiguously is full, its head right
behind its tail. -/
theorem CirBuf.full_of_maxWriteSize_zero {b : CirBuf} (h : b.WF)
    (hz : b.maxWriteSize = 0) : b.freeSpace = 0 ∧ (b.head + 1) % b.size = b.tail := by
  have hf : b.freeSpace = 0 := by
    by_contra hne
    have := CirBuf.maxWriteSize_pos h (by omega)
    omega
  have hu := CirBuf.usedBytes_of_WF h
  have hfu := CirBuf.freeSpace_add_usedBytes h
  obtain ⟨hS, hlen, hh, ht⟩ := h
  refine ⟨hf, ?_⟩
  rw [mod_cases _ _ (by omega)]
  split at hu <;> split <;> omega

/-- What is left to write contiguously after one round of filling: nothing, unless
the head has just wrapped to index 0 in front of a tail further on. -/
theorem CirBuf.maxWriteSize_after_fill {b b1 : CirBuf} (h : b.WF) (hs : b1.size = b.size)
    (ht1 : b1.tail = b.tail) (hh1 : b1.head = (b.head + b.maxWriteSize) % b.size) :
    (b.head < b.tail → b1.maxWriteSize = 0)
      ∧ (b1.maxWriteSize ≠ 0 → b1.head < b1.tail) := by
  obtain ⟨hS, hlen, hh, ht⟩ := h
  have hb : b.head + b.maxWriteSize ≤ b.size := by
    unfold CirBuf.maxWriteSize
    split
    · omega
    · split <;> omega
  rw [mod_cases _ _ (by omega)] at hh1
  unfold CirBuf.maxWriteSize at hh1 ⊢
  rw [hs, ht1]
  by_cases c1 : b.head < b.tail
  · rw [if_pos c1] at hh1
    rw [if_pos (by omega)] at hh1
    rw [if_pos (by omega)]
    exact ⟨fun _ => by omega, fun hne => by omega⟩
  · rw [if_neg c1] at hh1
    refine ⟨fun hc => absurd hc c1, ?_⟩
    by_cases c2 : b.tail = 0
    · rw [if_pos c2] at hh1
      rw [if_pos (by omega)] at hh1
      rw [if_neg (by omega), if_pos c2]
      intro hne
      omega
    · rw [if_neg c2] at hh1
      rw [if_neg (by omega)] at hh1
      intro _
      omega

/-- One round of the filling loop on a buffer that is not yet full. -/
theorem CirBuf.fillUntilFull_cons (data : List Nat) (rest : List (List Nat)) {b : CirBuf}
    (h : b.WF) (hnz : b.maxWriteSize ≠ 0) :
    ∃ b1, CirBuf.fillUntilFull (data :: rest) b = CirBuf.fillUntilFull rest b1
      ∧ b1.WF ∧ b1.size = b.size ∧ b1.tail = b.tail
      ∧ b1.head = (b.head + b.maxWriteSize) % b.size
      ∧ b1.usedBytes = b.usedBytes + b.maxWriteSize
      ∧ (∀ k, k < b.usedBytes → b1.peakAhead k = b.peakAhead k) := by
  obtain ⟨b1, hadv, h1, h2, h3, h4, h5, h6, _⟩ :=
    CirBuf.fill_step_spec h (data.take b.maxWriteSize) (by simp)
  refine ⟨b1, ?_, h1, h2, h3, h4, h5, h6⟩
  simp only [CirBuf.fillUntilFull, if_neg hnz, hadv]

/-- The filling loop ends within two rounds: it returns with the buffer full, the
head right behind the tail, and the bytes that were in the buffer untouched. -/
theorem CirBuf.fillUntilFull_spec (rounds : List (List Nat)) {b : CirBuf} (h : b.WF)
    (hr : 2 ≤ rounds.length) :
    ∃ b1, CirBuf.fillUntilFull rounds b = Outcome.returned () b1
      ∧ b1.WF ∧ b1.size = b.size ∧ b1.tail = b.tail
      ∧ b1.maxWriteSize = 0 ∧ b1.freeSpace = 0 ∧ (b1.head + 1) % b1.size = b1.tail
      ∧ (∀ k, k < b.usedBytes → b1.peakAhead k = b.peakAhead k) := by
  match rounds, hr with
  | d1 :: d2 :: rest, _ =>
    by_cases hz : b.maxWriteSize = 0
    · obtain ⟨hf, hm⟩ := CirBuf.full_of_maxWriteSize_zero h hz
      exact ⟨b, CirBuf.fillUntilFull_of_full _ hz, h, rfl, rfl, hz, hf, hm, fun _ _ => rfl⟩
    · obtain ⟨b1, he1, hw1, hs1, ht1, hh1, hu1, hp1⟩ :=
        CirBuf.fillUntilFull_cons d1 (d2 :: rest) h hz
      obtain ⟨_, hlt1⟩ := CirBuf.maxWriteSize_after_fill h hs1 ht1 hh1
      by_cases hz1 : b1.maxWriteSize = 0
      · obtain ⟨hf, hm⟩ := CirBuf.full_of_maxWriteSize_zero hw1 hz1
        exact ⟨b1, by rw [he1]; exact CirBuf.fillUntilFull_of_full _ hz1, hw1, hs1, ht1,
          hz1, hf, hm, hp1⟩
      · obtain ⟨b2, he2, hw2, hs2, ht2, hh2, hu2, hp2⟩ :=
          CirBuf.fillUntilFull_cons d2 rest hw1 hz1
        obtain ⟨hfull, _⟩ := CirBuf.maxWriteSize_after_fill hw1 hs2 ht2 hh2
        have hz2 := hfull (hlt1 hz1)
        obtain ⟨hf, hm⟩ := CirBuf.full_of_maxWriteSize_zero hw2 hz2
        refine ⟨b2, by rw [he1, he2]; exact CirBuf.fillUntilFull_of_full _ hz2, hw2,
          by rw [hs2, hs1], by rw [ht2, ht1], hz2, hf, hm, ?_⟩
        intro k hk
        rw [hp2 k (by omega), hp1 k hk]

/-! ### C16 -/

set_option maxRecDepth 20000 in
/-- C16, as stated, fails on the scenario itself: `CirBuf(64)` with `head = tail = 10`,
filled with 1s and then 2s until `maxWriteSize()` is 0, is full with `head` 9 (cell 9 is
the vacant one and holds 0); after `doubleSize` the cell 73 holds the fill byte 5, not
the byte of old cell 9, and `head` is 73, not 74. -/
theorem CirBuf.full_wrapped_doubling_head_not_74 :
    CirBuf.fillUntilFull [List.replicate 64 1, List.replicate 64 2] bufHeadTailTen
        = Outcome.returned () bufFullWrapped
    ∧ bufFullWrapped.maxWriteSize = 0
    ∧ bufFullWrapped.head = 9
    ∧ bufFullWrapped.buf.getD 9 0 = 0
    ∧ bufFullWrapped.doubleSize.buf.getD 73 0 = 5
    ∧ bufFullWrapped.doubleSize.buf.getD (64 + 9) 0 ≠ bufFullWrapped.buf.getD 9 0
    ∧ bufFullWrapped.doubleSize.tail = 10
    ∧ bufFullWrapped.doubleSize.head = 73
    ∧ bufFullWrapped.doubleSize.head ≠ 74 := by
  decide

/-- C16 (amended): starting from `CirBuf(64)` with `head = tail = 10` and filling it
until it is full (storing at `headPtr()` and advancing `head` by `maxWriteSize()` until
`maxWriteSize()` is 0, whatever the bytes stored), the loop ends with `tail` 10 and
`head` 9; after `doubleSize` the wrapped bytes that occupied the old cells `[0, 9)` are
at the new cells `[64, 73)`, the cells `[10, 64)` are as they were, the cells
`[73, 128)` hold the fill byte 5, `tail == 10` and `head == 73`. -/
theorem CirBuf.full_wrapped_doubling (rounds : List (List Nat)) (hr : 2 ≤ rounds.length) :
    ∃ b, CirBuf.fillUntilFull rounds bufHeadTailTen = Outcome.returned () b
      ∧ b.maxWriteSize = 0 ∧ b.tail = 10 ∧ b.head = 9
      ∧ (∀ j, j < 9 → b.doubleSize.buf.getD (64 + j) 0 = b.buf.getD j 0)
      ∧ (∀ i, 10 ≤ i → i < 64 → b.doubleSize.buf.getD i 0 = b.buf.getD i 0)
      ∧ (∀ i, 73 ≤ i → i < 128 → b.doubleSize.buf.getD i 0 = 5)
      ∧ b.doubleSize.tail = 10 ∧ b.doubleSize.head = 73 := by
  have hwf : bufHeadTailTen.WF := by decide
  obtain ⟨b, he, hw, hs, ht, hz, _, hm, _⟩ := CirBuf.fillUntilFull_spec rounds hwf hr
  have hs64 : b.size = 64 := hs
  have ht10 : b.tail = 10 := ht
  have hu := CirBuf.usedBytes_of_WF hw
  obtain ⟨_, _, hh, _⟩ := hw
  rw [mod_cases _ _ (by omega)] at hm
  have hh9 : b.head = 9 := by
    split at hm <;> omega
  rw [hh9, ht10, hs64, if_neg (by omega)] at hu
  have hmr : b.maxReadSize = 54 := by
    unfold CirBuf.maxReadSize
    rw [hh9, ht10, hs64, if_neg (by omega)]
  refine ⟨b, he, hz, ht10, hh9, ?_, ?_, ?_, ht10, ?_⟩
  · intro j hj
    rw [CirBuf.getD_doubleSize b _ (by omega), hmr, hh9, ht10, hs64, if_neg (by omega),
      if_pos (by omega)]
    congr 1
    omega
  · intro i hi1 hi2
    rw [CirBuf.getD_doubleSize b _ (by omega), hmr, ht10, if_pos (by omega)]
  · intro i hi1 hi2
    rw [CirBuf.getD_doubleSize b _ (by omega), hmr, hh9, ht10, hs64, if_neg (by omega),
      if_neg (by omega)]
  · simp only [CirBuf.doubleSize]
    rw [hu, ht10, hs64]

/-- An instance: the two rounds of the test, 1s and then 2s. -/
theorem CirBuf.full_wrapped_doubling_witness :
    2 ≤ [List.replicate 64 1, List.replicate 64 2].length
    ∧ ∃ b, CirBuf.fillUntilFull [List.replicate 64 1, List.replicate 64 2] bufHeadTailTen
          = Outcome.returned () b
      ∧ b.maxWriteSize = 0 ∧ b.tail = 10 ∧ b.head = 9
      ∧ (∀ j, j < 9 → b.doubleSize.buf.getD (64 + j) 0 = b.buf.getD j 0)
      ∧ (∀ i, 10 ≤ i → i < 64 → b.doubleSize.buf.getD i 0 = b.buf.getD i 0)
      ∧ (∀ i, 73 ≤ i → i < 128 → b.doubleSize.buf.getD i 0 = 5)
      ∧ b.doubleSize.tail = 10 ∧ b.doubleSize.head = 73 :=
  ⟨by decide, CirBuf.full_wrapped_doubling [List.replicate 64 1, List.replicate 64 2]
    (by decide)⟩

/-! ### C17 -/

set_option maxRecDepth 20000 in
/-- C17: for every buffer (satisfying the representation invariant),
`maxWriteSize() ≤ freeSpace()` and `maxWriteSize() > 0` whenever `freeSpace() > 0`;
storing `maxWriteSize()` bytes at `headPtr()` and calling `advanceHead(maxWriteSize())`
passes the assertion, leaves every unread byte where it was (the content becomes the
old content followed by the stored bytes) and, when anything was stored, does not
make `head` equal `tail`; repeating this until `maxWriteSize()` is 0 ends (within two
rounds) with `head == tail - 1 (mod S)` and `freeSpace() == 0`, the unread bytes still
untouched.  `CirBuf(64)` after writing 40 and reading 40 has `maxWriteSize` 24, then
39, and ends with `head == tail - 1` and `tailPtr()[0]` still 1. -/
theorem CirBuf.fill_never_overwrites (b : CirBuf) (h : b.WF) :
    (b.maxWriteSize ≤ b.freeSpace ∧ (0 < b.freeSpace → 0 < b.maxWriteSize))
    ∧ (∀ data : List Nat, data.length = b.maxWriteSize →
        ∃ b1, b.storeAtHead data = some b1
          ∧ b1.contents = b.contents ++ data
          ∧ (∀ k, k < b.usedBytes → b1.peakAhead k = b.peakAhead k)
          ∧ b1.usedBytes = b.usedBytes + b.maxWriteSize
          ∧ (0 < b.maxWriteSize → b1.head ≠ b1.tail))
    ∧ (∀ rounds : List (List Nat), 2 ≤ rounds.length →
        ∃ b1, CirBuf.fillUntilFull rounds b = Outcome.returned () b1
          ∧ b1.size = b.size ∧ b1.tail = b.tail
          ∧ b1.maxWriteSize = 0 ∧ b1.freeSpace = 0 ∧ (b1.head + 1) % b1.size = b1.tail
          ∧ (∀ k, k < b.usedBytes → b1.peakAhead k = b.peakAhead k))
    ∧ (((CirBuf.create 64).storeAtHead ((List.range 40).map (· + 1))).bind
          (fun b1 => b1.advanceTail 40) = some bufFortyRead
      ∧ bufFortyRead.maxWriteSize = 24
      ∧ (bufFortyRead.storeAtHead ((List.range 24).map (· + 1))).map CirBuf.maxWriteSize
          = some 39
      ∧ ((CirBuf.fillUntilFull [(List.range 24).map (· + 1), (List.range 39).map (· + 100)]
            bufFortyRead).state?.map (fun b1 => (b1.head, b1.tail, b1.readAtTail 1)))
          = some (39, 40, [1])) := by
  refine ⟨⟨CirBuf.maxWriteSize_le_freeSpace h, CirBuf.maxWriteSize_pos h⟩, ?_, ?_,
    by decide⟩
  · intro data hd
    obtain ⟨b1, hadv, h1, h2, h3, h4, h5, h6, h7⟩ :=
      CirBuf.fill_step_spec h data (by omega)
    refine ⟨b1, by unfold CirBuf.storeAtHead; rw [hd]; exact hadv, ?_, h6, h5, ?_⟩
    · apply list_ext_getD
      · simp [CirBuf.length_contents, h5, hd]
      · intro i hi
        rw [CirBuf.length_contents, h5] at hi
        rw [CirBuf.getD_contents _ _ (by omega)]
        by_cases hiu : i < b.usedBytes
        · rw [List.getD_append _ _ _ _ (by rw [CirBuf.length_contents]; exact hiu),
            CirBuf.getD_contents _ _ hiu]
          exact h6 i hiu
        · obtain ⟨j, rfl⟩ : ∃ j, i = b.usedBytes + j := ⟨i - b.usedBytes, by omega⟩
          rw [h7 j (by omega)]
          have hr := getD_append_right_add b.contents data j
          rw [CirBuf.length_contents] at hr
          exact hr.symm
    · intro hpos heq
      have hu1 := CirBuf.usedBytes_of_WF h1
      rw [heq, if_pos (le_refl _)] at hu1
      omega
  · intro rounds hr
    obtain ⟨b1, he, _, hs, ht, hz, hf, hm, hp⟩ := CirBuf.fillUntilFull_spec rounds h hr
    exact ⟨b1, he, hs, ht, hz, hf, hm, hp⟩

/-- An instance: the buffer of `test_circbuf` after 40 bytes have been stored and
read. -/
theorem CirBuf.fill_never_overwrites_witness :
    bufFortyRead.WF
    ∧ ((bufFortyRead.maxWriteSize ≤ bufFortyRead.freeSpace
        ∧ (0 < bufFortyRead.freeSpace → 0 < bufFortyRead.maxWriteSize))
      ∧ (∀ data : List Nat, data.length = bufFortyRead.maxWriteSize →
          ∃ b1, bufFortyRead.storeAtHead data = some b1
            ∧ b1.contents = bufFortyRead.contents ++ data
            ∧ (∀ k, k < bufFortyRead.usedBytes → b1.peakAhead k = bufFortyRead.peakAhead k)
            ∧ b1.usedBytes = bufFortyRead.usedBytes + bufFortyRead.maxWriteSize
            ∧ (0 < bufFortyRead.maxWriteSize → b1.head ≠ b1.tail))
      ∧ (∀ rounds : List (List Nat), 2 ≤ rounds.length →
          ∃ b1, CirBuf.fillUntilFull rounds bufFortyRead = Outcome.returned () b1
            ∧ b1.size = bufFortyRead.size ∧ b1.tail = bufFortyRead.tail
            ∧ b1.maxWriteSize = 0 ∧ b1.freeSpace = 0 ∧ (b1.head + 1) % b1.size = b1.tail
            ∧ (∀ k, k < bufFortyRead.usedBytes → b1.peakAhead k = bufFortyRead.peakAhead k))
      ∧ (((CirBuf.create 64).storeAtHead ((List.range 40).map (· + 1))).bind
            (fun b1 => b1.advanceTail 40) = some bufFortyRead
        ∧ bufFortyRead.maxWriteSize = 24
        ∧ (bufFortyRead.storeAtHead ((List.range 24).map (· + 1))).map CirBuf.maxWriteSize
            = some 39
        ∧ ((CirBuf.fillUntilFull
              [(List.range 24).map (· + 1), (List.range 39).map (· + 100)]
              bufFortyRead).state?.map (fun b1 => (b1.head, b1.tail, b1.readAtTail 1)))
            = some (39, 40, [1]))) :=
  have h : bufFortyRead.WF := by decide
  ⟨h, CirBuf.fill_never_overwrites bufFortyRead h⟩

end FlashMQ
